import Mathlib

/-!
# SmartPtrs: reference-counted handles over a shared control block

A shallow embedding of `sw_fwd.h`, `shared.h` and `weak.h`; `unique.h` is embedded in the
section on `UniquePtr` further down.

* A pointer is a natural number; `0` is `nullptr`.  A `ControlBlockBase*` is an
  `Option Nat`: `none` is `nullptr`, `some b` the address of block `b`.
* The heap holds the control blocks, the managed objects, and every `SharedPtr` and
  `WeakPtr` object of the program.  A handle is named by the index of its slot.
* An operation returns `none` when the C++ program has undefined behaviour (a null or
  dangling pointer is dereferenced, an object is destroyed twice).
* `size_t` arithmetic is arithmetic modulo `2 ^ 64`.
* The template parameter `T` of a handle enters only through
  `std::is_convertible_v<T*, EnableSharedFromThisBase*>`, the flag `cap` below.
* The destructor of a managed object is user code; the model covers objects whose
  destructor touches no handle except the embedded `weak_this_`, which it destroys.
-/

namespace SmartPtrs

/-- The number of values of a 64-bit `size_t`. -/
def SIZE_MOD : Nat := 18446744073709551616

/-- The statement `n += 1` on a `size_t`. -/
def incr (n : Nat) : Nat := (n + 1) % SIZE_MOD

/-- The statement `n -= 1` on a `size_t`. -/
def decr (n : Nat) : Nat := (n + (SIZE_MOD - 1)) % SIZE_MOD

/-- The fields `block_` and `ptr_` of a `SharedPtr<T>` (shared.h 273-275). -/
structure SharedPtr where
  block_ : Option Nat
  ptr_ : Nat
  deriving DecidableEq, Repr

/-- The fields `block_` and `ptr_` of a `WeakPtr<T>` (weak.h 172-174). -/
structure WeakPtr where
  block_ : Option Nat
  ptr_ : Nat
  deriving DecidableEq, Repr

/-- The dynamic type of a control block with the field the derived class adds:
`ControlBlockPointer<T>::ptr` or the address `GetRawPtr()` of the storage embedded in a
`ControlBlockEmplace<T>` (sw_fwd.h 14-48). -/
inductive Derived where
  | ControlBlockPointer (ptr : Nat)
  | ControlBlockEmplace (storage : Nat)
  deriving DecidableEq, Repr

/-- A control block: the two counters of `ControlBlockBase` (sw_fwd.h 5-12) and its
derived part. -/
structure ControlBlockBase where
  strong_cnt : Nat
  weak_cnt : Nat
  derived : Derived
  deriving DecidableEq, Repr

/-- A managed object.  `weak_this_` is the slot of the `WeakPtr` member that
`EnableSharedFromThis<T>` declares (shared.h 308), `none` for a type that does not derive
from it.  `emplaced` tells that the object lives in the storage of a
`ControlBlockEmplace`. -/
structure Object where
  alive : Bool
  emplaced : Bool
  weak_this_ : Option Nat
  deriving DecidableEq, Repr

/-- What the release protocol does to a block or an object, in program order. -/
inductive Event where
  | Destroy (block : Nat)
  | Destruct (object : Nat)
  | Delete (block : Nat)
  deriving DecidableEq, Repr

/-- The program state.  `blocks[b] = none` after `delete` of block `b`; a handle slot is
`none` once the handle has been destroyed.  The object at address `a ≥ 1` is
`objects[a - 1]`. -/
structure Heap where
  blocks : List (Option ControlBlockBase)
  objects : List Object
  shared : List (Option SharedPtr)
  weak : List (Option WeakPtr)
  log : List Event
  deriving DecidableEq, Repr

/-- The state of a program that has created nothing yet. -/
def Heap.empty : Heap := ⟨[], [], [], [], []⟩

/-- The block at address `b`, when it has been allocated and not deleted. -/
def Heap.block (s : Heap) (b : Nat) : Option ControlBlockBase := s.blocks.getD b none

/-- The object at address `a`. -/
def Heap.object (s : Heap) (a : Nat) : Option Object :=
  if a = 0 then none else s.objects[a - 1]?

/-- The strong handle in slot `i`, when it is alive. -/
def Heap.sharedAt (s : Heap) (i : Nat) : Option SharedPtr := s.shared.getD i none

/-- The weak handle in slot `w`, when it is alive. -/
def Heap.weakAt (s : Heap) (w : Nat) : Option WeakPtr := s.weak.getD w none

/-- Store a block. -/
def Heap.setBlock (s : Heap) (b : Nat) (blk : ControlBlockBase) : Heap :=
  { s with blocks := s.blocks.set b (some blk) }

/-- The expression `new ControlBlock...`: the new block gets the next address. -/
def Heap.newBlock (s : Heap) (blk : ControlBlockBase) : Heap :=
  { s with blocks := s.blocks ++ [some blk] }

/-- The statement `delete block`. -/
def Heap.deleteBlock (s : Heap) (b : Nat) : Heap :=
  { s with blocks := s.blocks.set b none, log := s.log ++ [Event.Delete b] }

/-- Store an object. -/
def Heap.setObject (s : Heap) (a : Nat) (o : Object) : Heap :=
  { s with objects := s.objects.set (a - 1) o }

/-- Write the fields of the strong handle in slot `i`, or end its lifetime. -/
def Heap.setShared (s : Heap) (i : Nat) (h : Option SharedPtr) : Heap :=
  { s with shared := s.shared.set i h }

/-- Storage for a new strong handle, with its fields. -/
def Heap.pushShared (s : Heap) (h : SharedPtr) : Heap :=
  { s with shared := s.shared ++ [some h] }

/-- Write the fields of the weak handle in slot `w`, or end its lifetime. -/
def Heap.setWeak (s : Heap) (w : Nat) (h : Option WeakPtr) : Heap :=
  { s with weak := s.weak.set w h }

/-- Storage for a new weak handle, with its fields. -/
def Heap.pushWeak (s : Heap) (h : WeakPtr) : Heap :=
  { s with weak := s.weak ++ [some h] }

/-- Append an event to the log. -/
def Heap.emit (s : Heap) (e : Event) : Heap := { s with log := s.log ++ [e] }

/-! ## Counter statements -/

/-- The statement `b->strong_cnt += 1`. -/
def strongInc (b : Nat) (s : Heap) : Option Heap :=
  match s.block b with
  | none => none
  | some blk => some (s.setBlock b { blk with strong_cnt := incr blk.strong_cnt })

/-- The statement `b->strong_cnt -= 1`. -/
def strongDec (b : Nat) (s : Heap) : Option Heap :=
  match s.block b with
  | none => none
  | some blk => some (s.setBlock b { blk with strong_cnt := decr blk.strong_cnt })

/-- The statement `b->weak_cnt += 1`. -/
def weakInc (b : Nat) (s : Heap) : Option Heap :=
  match s.block b with
  | none => none
  | some blk => some (s.setBlock b { blk with weak_cnt := incr blk.weak_cnt })

/-- The statement `b->weak_cnt -= 1`. -/
def weakDec (b : Nat) (s : Heap) : Option Heap :=
  match s.block b with
  | none => none
  | some blk => some (s.setBlock b { blk with weak_cnt := decr blk.weak_cnt })

/-- The statement `if (block_) { block_->strong_cnt += 1; }`. -/
def strongIncIf (r : Option Nat) (s : Heap) : Option Heap :=
  match r with
  | none => some s
  | some b => strongInc b s

/-- The statement `if (block_) { block_->weak_cnt += 1; }`. -/
def weakIncIf (r : Option Nat) (s : Heap) : Option Heap :=
  match r with
  | none => some s
  | some b => weakInc b s

/-- The statement `if (b->strong_cnt == 0 && b->weak_cnt == 0) { delete b; }`. -/
def deleteIfUnused (b : Nat) (s : Heap) : Option Heap :=
  match s.block b with
  | none => none
  | some blk =>
    if blk.strong_cnt = 0 ∧ blk.weak_cnt = 0 then some (s.deleteBlock b) else some s

/-! ## Weak release (weak.h 76-81, 93-98, 106-111, 121-126) -/

/-- The body guarded by `if (block_)` in `~WeakPtr`, `WeakPtr::Reset` and both
`WeakPtr::operator=`: decrement `weak_cnt`, delete the block when both counters are
zero. -/
def WeakPtr.release (b : Nat) (s : Heap) : Option Heap :=
  match weakDec b s with
  | none => none
  | some s1 => deleteIfUnused b s1

/-- The guarded release `if (tmp) { ... }` of a weak handle. -/
def WeakPtr.releaseIf (r : Option Nat) (s : Heap) : Option Heap :=
  match r with
  | none => some s
  | some b => WeakPtr.release b s

/-- The destructor `~WeakPtr()` (weak.h 105-112) of the handle in slot `w`. -/
def WeakPtr.dtor (w : Nat) (s : Heap) : Option Heap :=
  match s.weakAt w with
  | none => none
  | some h => WeakPtr.releaseIf h.block_ (s.setWeak w none)

/-! ## Destroying the managed object (sw_fwd.h 19-21, 40-42) -/

/-- The destructor of the managed object at address `a`: the lifetime of the object ends
and its member `weak_this_`, when it has one, is destroyed. -/
def destruct (a : Nat) (s : Heap) : Option Heap :=
  match s.object a with
  | none => none
  | some o =>
    if o.alive then
      let s1 := (s.setObject a { o with alive := false }).emit (Event.Destruct a)
      match o.weak_this_ with
      | none => some s1
      | some m => WeakPtr.dtor m s1
    else none

/-- The virtual call `b->Destroy()`: `delete ptr` for a `ControlBlockPointer` (nothing
for a null `ptr`), `GetRawPtr()->~T()` for a `ControlBlockEmplace`. -/
def Destroy (b : Nat) (s : Heap) : Option Heap :=
  match s.block b with
  | none => none
  | some blk =>
    let s1 := s.emit (Event.Destroy b)
    match blk.derived with
    | Derived.ControlBlockPointer ptr =>
      if ptr = 0 then some s1
      else
        match s1.object ptr with
        | none => none
        | some o => if o.emplaced then none else destruct ptr s1
    | Derived.ControlBlockEmplace storage => destruct storage s1

/-- The statement `if (b->strong_cnt == 0) { b->Destroy(); }`. -/
def destroyIfZero (b : Nat) (s : Heap) : Option Heap :=
  match s.block b with
  | none => none
  | some blk => if blk.strong_cnt = 0 then Destroy b s else some s

/-! ## Strong release (shared.h 112-122, 134-144, 152-162, 172-182, 191-201, 211-221) -/

/-- The five statements guarded by `if (block_)` in `~SharedPtr`, both `Reset`s and both
`operator=`: `weak_cnt += 1; strong_cnt -= 1; if (strong_cnt == 0) Destroy();
weak_cnt -= 1; if (strong_cnt == 0 && weak_cnt == 0) delete`. -/
def SharedPtr.release (b : Nat) (s : Heap) : Option Heap :=
  match weakInc b s with
  | none => none
  | some s1 =>
    match strongDec b s1 with
    | none => none
    | some s2 =>
      match destroyIfZero b s2 with
      | none => none
      | some s3 =>
        match weakDec b s3 with
        | none => none
        | some s4 => deleteIfUnused b s4

/-- The guarded release `if (tmp) { ... }` of a strong handle. -/
def SharedPtr.releaseIf (r : Option Nat) (s : Heap) : Option Heap :=
  match r with
  | none => some s
  | some b => SharedPtr.release b s

/-! ## WeakPtr (weak.h) -/

/-- The constructor `WeakPtr()` (weak.h 11-12). -/
def WeakPtr.ctor (s : Heap) : Option Heap := some (s.pushWeak ⟨none, 0⟩)

/-- The accessor `WeakPtr::GetBlock` (weak.h 165-167). -/
def WeakPtr.GetBlock (h : WeakPtr) : Option Nat := h.block_

/-- The accessor `WeakPtr::Get` (weak.h 168-170). -/
def WeakPtr.Get (h : WeakPtr) : Nat := h.ptr_

/-- The accessor `SharedPtr::GetBlock` (shared.h 235-237). -/
def SharedPtr.GetBlock (h : SharedPtr) : Option Nat := h.block_

/-- The accessor `SharedPtr::Get` (shared.h 238-243). -/
def SharedPtr.Get (h : SharedPtr) : Nat := if h.ptr_ ≠ 0 then h.ptr_ else 0

/-- The conversion `explicit operator bool` (shared.h 256-261). -/
def SharedPtr.toBool (h : SharedPtr) : Bool := if h.ptr_ ≠ 0 then true else false

/-- The comparison `operator==` of two strong handles (shared.h 278-281). -/
def SharedPtr.eq (left right : SharedPtr) : Bool := left.Get == right.Get

/-- The copy constructor `WeakPtr(const WeakPtr& other)` (weak.h 14-20). -/
def WeakPtr.ctorCopy (w : Nat) (s : Heap) : Option Heap :=
  match s.weakAt w with
  | none => none
  | some other => weakIncIf other.block_ (s.pushWeak ⟨other.block_, other.ptr_⟩)

/-- The move constructor `WeakPtr(WeakPtr&& other)` (weak.h 21-26). -/
def WeakPtr.ctorMove (w : Nat) (s : Heap) : Option Heap :=
  match s.weakAt w with
  | none => none
  | some other =>
    some ((s.pushWeak ⟨other.block_, other.ptr_⟩).setWeak w (some ⟨none, 0⟩))

/-- The method `WeakPtr::Reset` (weak.h 117-127). -/
def WeakPtr.Reset (w : Nat) (s : Heap) : Option Heap :=
  match s.weakAt w with
  | none => none
  | some h => WeakPtr.releaseIf h.block_ (s.setWeak w (some ⟨none, 0⟩))

/-- The converting copy constructor `WeakPtr(const WeakPtr<S>& other)` (weak.h 28-35). -/
def WeakPtr.ctorCopyFrom (w : Nat) (s : Heap) : Option Heap :=
  match s.weakAt w with
  | none => none
  | some other => weakIncIf other.GetBlock (s.pushWeak ⟨other.GetBlock, other.Get⟩)

/-- The converting move constructor `WeakPtr(WeakPtr<S>&& other)` (weak.h 36-44). -/
def WeakPtr.ctorMoveFrom (w : Nat) (s : Heap) : Option Heap :=
  match s.weakAt w with
  | none => none
  | some other =>
    match weakIncIf other.GetBlock (s.pushWeak ⟨other.GetBlock, other.Get⟩) with
    | none => none
    | some s1 => WeakPtr.Reset w s1

/-- The demoting constructors `WeakPtr(const SharedPtr<T>& other)` and
`WeakPtr(const SharedPtr<S>& other)` (weak.h 46-61) from the strong handle in slot `i`. -/
def WeakPtr.ctorDemote (i : Nat) (s : Heap) : Option Heap :=
  match s.sharedAt i with
  | none => none
  | some other => weakIncIf other.GetBlock (s.pushWeak ⟨other.GetBlock, other.Get⟩)

/-- The copy assignment `operator=(const WeakPtr& other)` (weak.h 66-83): `w = o`. -/
def WeakPtr.assign (w o : Nat) (s : Heap) : Option Heap :=
  match s.weakAt w, s.weakAt o with
  | some self, some other =>
    if w = o then some s
    else
      let tmp := self.block_
      match weakIncIf other.block_ (s.setWeak w (some ⟨other.block_, other.ptr_⟩)) with
      | none => none
      | some s1 => WeakPtr.releaseIf tmp s1
  | _, _ => none

/-- The move assignment `operator=(WeakPtr&& other)` (weak.h 84-100): `w = std::move(o)`. -/
def WeakPtr.assignMove (w o : Nat) (s : Heap) : Option Heap :=
  match s.weakAt w, s.weakAt o with
  | some self, some other =>
    if w = o then some s
    else
      let tmp := self.block_
      WeakPtr.releaseIf tmp
        ((s.setWeak w (some ⟨other.block_, other.ptr_⟩)).setWeak o (some ⟨none, 0⟩))
  | _, _ => none

/-- The method `WeakPtr::Swap` (weak.h 128-138). -/
def WeakPtr.Swap (w o : Nat) (s : Heap) : Option Heap :=
  match s.weakAt w, s.weakAt o with
  | some self, some other =>
    if w = o then some s
    else some ((s.setWeak w (some ⟨other.block_, other.ptr_⟩)).setWeak o
      (some ⟨self.block_, self.ptr_⟩))
  | _, _ => none

/-- The observer `WeakPtr::UseCount` (weak.h 143-148) of a handle value. -/
def WeakPtr.UseCount (h : WeakPtr) (s : Heap) : Option Nat :=
  match h.block_ with
  | none => some 0
  | some b =>
    match s.block b with
    | none => none
    | some blk => some blk.strong_cnt

/-- The observer `WeakPtr::Expired` (weak.h 149-157) of a handle value. -/
def WeakPtr.Expired (h : WeakPtr) (s : Heap) : Option Bool :=
  match h.block_ with
  | none => some true
  | some b =>
    match s.block b with
    | none => none
    | some blk => if blk.strong_cnt = 0 then some true else some false

/-- The observer `SharedPtr::UseCount` (shared.h 250-255) of a handle value. -/
def SharedPtr.UseCount (h : SharedPtr) (s : Heap) : Option Nat :=
  match h.block_ with
  | none => some 0
  | some b =>
    match s.block b with
    | none => none
    | some blk => some blk.strong_cnt

/-! ## Self-reference wiring (shared.h 263-271) -/

/-- The method `InitWeakThis(ptr_)` of the strong handle in slot `i`, that is the
statement `e->weak_this_ = *this`: a temporary `WeakPtr` is built from `*this`
(weak.h 47-61), move-assigned to the member `weak_this_` of the object `e` points to
(weak.h 84-100), and destroyed.  Undefined when `e` is null or points to no live object
with the member. -/
def InitWeakThis (i : Nat) (s : Heap) : Option Heap :=
  match s.sharedAt i with
  | none => none
  | some self =>
    match WeakPtr.ctorDemote i s with
    | none => none
    | some s1 =>
      let temporary := s.weak.length
      match s1.object self.ptr_ with
      | none => none
      | some e =>
        if e.alive then
          match e.weak_this_ with
          | none => none
          | some m =>
            match WeakPtr.assignMove m temporary s1 with
            | none => none
            | some s2 => WeakPtr.dtor temporary s2
        else none

/-- The method `ESFT()` of the strong handle in slot `i`; `cap` is
`std::is_convertible_v<T*, EnableSharedFromThisBase*>`. -/
def ESFT (cap : Bool) (i : Nat) (s : Heap) : Option Heap :=
  if cap then InitWeakThis i s else some s

/-! ## SharedPtr (shared.h) -/

/-- The constructors `SharedPtr()` and `SharedPtr(std::nullptr_t)` (shared.h 15-20). -/
def SharedPtr.ctor (cap : Bool) (s : Heap) : Option Heap :=
  ESFT cap s.shared.length (s.pushShared ⟨none, 0⟩)

/-- The constructors `SharedPtr(T* ptr)` and `SharedPtr(S* ptr)` (shared.h 21-25,
43-48). -/
def SharedPtr.ctorPtr (cap : Bool) (ptr : Nat) (s : Heap) : Option Heap :=
  let block := s.blocks.length
  let s1 := s.newBlock ⟨1, 0, Derived.ControlBlockPointer ptr⟩
  ESFT cap s.shared.length (s1.pushShared ⟨some block, ptr⟩)

/-- The copy constructor `SharedPtr(const SharedPtr& other)` (shared.h 27-34). -/
def SharedPtr.ctorCopy (cap : Bool) (i : Nat) (s : Heap) : Option Heap :=
  match s.sharedAt i with
  | none => none
  | some other =>
    match strongIncIf other.block_ (s.pushShared ⟨other.block_, other.ptr_⟩) with
    | none => none
    | some s1 => ESFT cap s.shared.length s1

/-- The move constructor `SharedPtr(SharedPtr&& other)` (shared.h 35-41). -/
def SharedPtr.ctorMove (cap : Bool) (i : Nat) (s : Heap) : Option Heap :=
  match s.sharedAt i with
  | none => none
  | some other =>
    ESFT cap s.shared.length
      ((s.pushShared ⟨other.block_, other.ptr_⟩).setShared i (some ⟨none, 0⟩))

/-- The method `SharedPtr::Reset()` (shared.h 168-183). -/
def SharedPtr.Reset (i : Nat) (s : Heap) : Option Heap :=
  match s.sharedAt i with
  | none => none
  | some self => SharedPtr.releaseIf self.block_ (s.setShared i (some ⟨none, 0⟩))

/-- The converting copy constructor `SharedPtr(const SharedPtr<S>& other)`
(shared.h 49-57). -/
def SharedPtr.ctorCopyFrom (cap : Bool) (i : Nat) (s : Heap) : Option Heap :=
  match s.sharedAt i with
  | none => none
  | some other =>
    match strongIncIf other.GetBlock (s.pushShared ⟨other.GetBlock, other.Get⟩) with
    | none => none
    | some s1 => ESFT cap s.shared.length s1

/-- The converting move constructor `SharedPtr(SharedPtr<S>&& other)`
(shared.h 58-67). -/
def SharedPtr.ctorMoveFrom (cap : Bool) (i : Nat) (s : Heap) : Option Heap :=
  match s.sharedAt i with
  | none => none
  | some other =>
    match strongIncIf other.GetBlock (s.pushShared ⟨other.GetBlock, other.Get⟩) with
    | none => none
    | some s1 =>
      match SharedPtr.Reset i s1 with
      | none => none
      | some s2 => ESFT cap s.shared.length s2

/-- The constructor `SharedPtr(T* ptr, ControlBlockEmplace<T>* block)`
(shared.h 69-73). -/
def SharedPtr.ctorEmplace (cap : Bool) (ptr block : Nat) (s : Heap) : Option Heap :=
  ESFT cap s.shared.length (s.pushShared ⟨some block, ptr⟩)

/-- The aliasing constructor `SharedPtr(const SharedPtr<Y>& other, T* ptr)`
(shared.h 75-84). -/
def SharedPtr.ctorAlias (cap : Bool) (i ptr : Nat) (s : Heap) : Option Heap :=
  match s.sharedAt i with
  | none => none
  | some other =>
    match strongIncIf other.GetBlock (s.pushShared ⟨other.GetBlock, ptr⟩) with
    | none => none
    | some s1 => ESFT cap s.shared.length s1

/-- The outcome of an operation that may throw. -/
inductive Result where
  | ok (s : Heap)
  | BadWeakPtr (s : Heap)
  | undefined
  deriving DecidableEq, Repr

/-- An operation that does not throw, as a `Result`. -/
def Result.ofOption : Option Heap → Result
  | some s => Result.ok s
  | none => Result.undefined

/-- The state an operation leaves, whether it returned or threw. -/
def Result.heap : Result → Option Heap
  | Result.ok s => some s
  | Result.BadWeakPtr s => some s
  | Result.undefined => none

/-- The promoting constructor `SharedPtr(const WeakPtr<T>& other)` (shared.h 86-97) from
the weak handle in slot `w`. -/
def SharedPtr.ctorPromote (cap : Bool) (w : Nat) (s : Heap) : Result :=
  match s.weakAt w with
  | none => Result.undefined
  | some other =>
    match other.Expired s with
    | none => Result.undefined
    | some true => Result.BadWeakPtr s
    | some false =>
      match strongIncIf other.GetBlock (s.pushShared ⟨other.GetBlock, other.Get⟩) with
      | none => Result.undefined
      | some s1 => Result.ofOption (ESFT cap s.shared.length s1)

/-- The copy assignment `operator=(const SharedPtr& other)` (shared.h 102-124):
`i = j`. -/
def SharedPtr.assign (i j : Nat) (s : Heap) : Option Heap :=
  match s.sharedAt i, s.sharedAt j with
  | some self, some other =>
    if i = j then some s
    else
      let tmp := self.block_
      match strongIncIf other.block_ (s.setShared i (some ⟨other.block_, other.ptr_⟩)) with
      | none => none
      | some s1 => SharedPtr.releaseIf tmp s1
  | _, _ => none

/-- The move assignment `operator=(SharedPtr&& other)` (shared.h 125-146):
`i = std::move(j)`. -/
def SharedPtr.assignMove (i j : Nat) (s : Heap) : Option Heap :=
  match s.sharedAt i, s.sharedAt j with
  | some self, some other =>
    if i = j then some s
    else
      let tmp := self.block_
      SharedPtr.releaseIf tmp
        ((s.setShared i (some ⟨other.block_, other.ptr_⟩)).setShared j (some ⟨none, 0⟩))
  | _, _ => none

/-- The destructor `~SharedPtr()` (shared.h 151-163) of the handle in slot `i`. -/
def SharedPtr.dtor (i : Nat) (s : Heap) : Option Heap :=
  match s.sharedAt i with
  | none => none
  | some self => SharedPtr.releaseIf self.block_ (s.setShared i none)

/-- The methods `SharedPtr::Reset(T* ptr)` and `Reset(S* ptr)` (shared.h 184-222). -/
def SharedPtr.ResetPtr (i ptr : Nat) (s : Heap) : Option Heap :=
  match s.sharedAt i with
  | none => none
  | some self =>
    if self.ptr_ = ptr then some s
    else
      let old_block := self.block_
      let block := s.blocks.length
      let s1 := s.newBlock ⟨1, 0, Derived.ControlBlockPointer ptr⟩
      SharedPtr.releaseIf old_block (s1.setShared i (some ⟨some block, ptr⟩))

/-- The method `SharedPtr::Swap` (shared.h 223-230). -/
def SharedPtr.Swap (i j : Nat) (s : Heap) : Option Heap :=
  match s.sharedAt i, s.sharedAt j with
  | some self, some other =>
    some ((s.setShared i (some ⟨other.block_, other.ptr_⟩)).setShared j
      (some ⟨self.block_, self.ptr_⟩))
  | _, _ => none

/-- Construction of a managed object, `new T(...)` or the placement `new` in a
`ControlBlockEmplace`; `cap` tells whether its type derives from `EnableSharedFromThis`,
in which case the member `weak_this_` is default-constructed (weak.h 11-12).  Returns the
address of the object. -/
def newObject (cap emplaced : Bool) (s : Heap) : Heap × Nat :=
  let a := s.objects.length + 1
  if cap then
    ({ s.pushWeak ⟨none, 0⟩ with
        objects := s.objects ++ [⟨true, emplaced, some s.weak.length⟩] }, a)
  else ({ s with objects := s.objects ++ [⟨true, emplaced, none⟩] }, a)

/-- The function `MakeShared<T>(args...)` (shared.h 284-288). -/
def MakeShared (cap : Bool) (s : Heap) : Option Heap :=
  let (s1, storage) := newObject cap true s
  let block := s1.blocks.length
  let s2 := s1.newBlock ⟨1, 0, Derived.ControlBlockEmplace storage⟩
  SharedPtr.ctorEmplace cap storage block s2

/-- The method `WeakPtr::Lock` (weak.h 158-163) of the weak handle in slot `w`. -/
def WeakPtr.Lock (cap : Bool) (w : Nat) (s : Heap) : Result :=
  match s.weakAt w with
  | none => Result.undefined
  | some self =>
    match self.Expired s with
    | none => Result.undefined
    | some false => SharedPtr.ctorPromote cap w s
    | some true => Result.ofOption (SharedPtr.ctor cap s)

/-- The method `EnableSharedFromThis<T>::SharedFromThis` (shared.h 294-299) of the object
at address `a`; the handle it returns is a `SharedPtr<T>` of the self-referencing type. -/
def SharedFromThis (a : Nat) (s : Heap) : Result :=
  match s.object a with
  | none => Result.undefined
  | some o =>
    if o.alive then
      match o.weak_this_ with
      | none => Result.undefined
      | some m => WeakPtr.Lock true m s
    else Result.undefined

/-- The method `EnableSharedFromThis<T>::WeakFromThis` (shared.h 301-306) of the object at
address `a`. -/
def WeakFromThis (a : Nat) (s : Heap) : Option Heap :=
  match s.object a with
  | none => none
  | some o =>
    if o.alive then
      match o.weak_this_ with
      | none => none
      | some m => WeakPtr.ctorCopy m s
    else none

/-! ## Programs -/

/-- One call of the handle API.  Handles are named by slot, objects by address. -/
inductive Op where
  | newObject (cap : Bool)
  | MakeShared (cap : Bool)
  | SharedPtr_ctor (cap : Bool)
  | SharedPtr_ctorPtr (cap : Bool) (ptr : Nat)
  | SharedPtr_ctorCopy (cap : Bool) (i : Nat)
  | SharedPtr_ctorMove (cap : Bool) (i : Nat)
  | SharedPtr_ctorCopyFrom (cap : Bool) (i : Nat)
  | SharedPtr_ctorMoveFrom (cap : Bool) (i : Nat)
  | SharedPtr_ctorAlias (cap : Bool) (i ptr : Nat)
  | SharedPtr_ctorPromote (cap : Bool) (w : Nat)
  | SharedPtr_assign (i j : Nat)
  | SharedPtr_assignMove (i j : Nat)
  | SharedPtr_dtor (i : Nat)
  | SharedPtr_Reset (i : Nat)
  | SharedPtr_ResetPtr (i ptr : Nat)
  | SharedPtr_Swap (i j : Nat)
  | WeakPtr_ctor
  | WeakPtr_ctorCopy (w : Nat)
  | WeakPtr_ctorMove (w : Nat)
  | WeakPtr_ctorCopyFrom (w : Nat)
  | WeakPtr_ctorMoveFrom (w : Nat)
  | WeakPtr_ctorDemote (i : Nat)
  | WeakPtr_assign (w o : Nat)
  | WeakPtr_assignMove (w o : Nat)
  | WeakPtr_dtor (w : Nat)
  | WeakPtr_Reset (w : Nat)
  | WeakPtr_Swap (w o : Nat)
  | WeakPtr_Lock (cap : Bool) (w : Nat)
  | SharedFromThis (a : Nat)
  | WeakFromThis (a : Nat)
  deriving DecidableEq, Repr

/-- The effect of one call. -/
def step (op : Op) (s : Heap) : Result :=
  match op with
  | Op.newObject cap => Result.ok (newObject cap false s).1
  | Op.MakeShared cap => Result.ofOption (MakeShared cap s)
  | Op.SharedPtr_ctor cap => Result.ofOption (SharedPtr.ctor cap s)
  | Op.SharedPtr_ctorPtr cap ptr => Result.ofOption (SharedPtr.ctorPtr cap ptr s)
  | Op.SharedPtr_ctorCopy cap i => Result.ofOption (SharedPtr.ctorCopy cap i s)
  | Op.SharedPtr_ctorMove cap i => Result.ofOption (SharedPtr.ctorMove cap i s)
  | Op.SharedPtr_ctorCopyFrom cap i => Result.ofOption (SharedPtr.ctorCopyFrom cap i s)
  | Op.SharedPtr_ctorMoveFrom cap i => Result.ofOption (SharedPtr.ctorMoveFrom cap i s)
  | Op.SharedPtr_ctorAlias cap i ptr => Result.ofOption (SharedPtr.ctorAlias cap i ptr s)
  | Op.SharedPtr_ctorPromote cap w => SharedPtr.ctorPromote cap w s
  | Op.SharedPtr_assign i j => Result.ofOption (SharedPtr.assign i j s)
  | Op.SharedPtr_assignMove i j => Result.ofOption (SharedPtr.assignMove i j s)
  | Op.SharedPtr_dtor i => Result.ofOption (SharedPtr.dtor i s)
  | Op.SharedPtr_Reset i => Result.ofOption (SharedPtr.Reset i s)
  | Op.SharedPtr_ResetPtr i ptr => Result.ofOption (SharedPtr.ResetPtr i ptr s)
  | Op.SharedPtr_Swap i j => Result.ofOption (SharedPtr.Swap i j s)
  | Op.WeakPtr_ctor => Result.ofOption (WeakPtr.ctor s)
  | Op.WeakPtr_ctorCopy w => Result.ofOption (WeakPtr.ctorCopy w s)
  | Op.WeakPtr_ctorMove w => Result.ofOption (WeakPtr.ctorMove w s)
  | Op.WeakPtr_ctorCopyFrom w => Result.ofOption (WeakPtr.ctorCopyFrom w s)
  | Op.WeakPtr_ctorMoveFrom w => Result.ofOption (WeakPtr.ctorMoveFrom w s)
  | Op.WeakPtr_ctorDemote i => Result.ofOption (WeakPtr.ctorDemote i s)
  | Op.WeakPtr_assign w o => Result.ofOption (WeakPtr.assign w o s)
  | Op.WeakPtr_assignMove w o => Result.ofOption (WeakPtr.assignMove w o s)
  | Op.WeakPtr_dtor w => Result.ofOption (WeakPtr.dtor w s)
  | Op.WeakPtr_Reset w => Result.ofOption (WeakPtr.Reset w s)
  | Op.WeakPtr_Swap w o => Result.ofOption (WeakPtr.Swap w o s)
  | Op.WeakPtr_Lock cap w => WeakPtr.Lock cap w s
  | Op.SharedFromThis a => SharedFromThis a s
  | Op.WeakFromThis a => Result.ofOption (WeakFromThis a s)

/-- Whether the strong handle slot refers to block `b`. -/
def SharedPtr.refers (b : Nat) : Option SharedPtr → Bool
  | some h => h.block_ == some b
  | none => false

/-- Whether the weak handle slot refers to block `b`. -/
def WeakPtr.refers (b : Nat) : Option WeakPtr → Bool
  | some h => h.block_ == some b
  | none => false

/-- The number of live `SharedPtr` handles whose `block_` is `b`. -/
def cntS (s : Heap) (b : Nat) : Nat := s.shared.countP (SharedPtr.refers b)

/-- The number of live `WeakPtr` handles whose `block_` is `b`; the member `weak_this_`
of a live object is one of them. -/
def cntW (s : Heap) (b : Nat) : Nat := s.weak.countP (WeakPtr.refers b)

/-- The number of live handles, strong and weak. -/
def live (s : Heap) : Nat := s.shared.countP Option.isSome + s.weak.countP Option.isSome

/-- A handle is two 8-byte pointers: the live handles of a program fit in its 64-bit
address space. -/
def Fits (s : Heap) : Prop := 16 * live s ≤ SIZE_MOD

instance (s : Heap) : Decidable (Fits s) := by unfold Fits; infer_instance

/-- Run a program: the calls in order.  A thrown `BadWeakPtr` is caught by the caller and
the program goes on; the run ends in `none` when a call has undefined behaviour or the
handles no longer fit in memory. -/
def exec : List Op → Heap → Option Heap
  | [], s => some s
  | op :: ops, s =>
    match (step op s).heap with
    | some s1 => if Fits s1 then exec ops s1 else none
    | none => none

/-! ## Bookkeeping lemmas -/

theorem lt_of_block {s : Heap} {b : Nat} {blk : ControlBlockBase} (h : s.block b = some blk) :
    b < s.blocks.length := by
  unfold Heap.block at h
  by_contra hn
  rw [List.getD_eq_getElem?_getD, List.getElem?_eq_none (by omega)] at h
  simp at h

theorem block_setBlock {s : Heap} {b : Nat} {old : ControlBlockBase} (h : s.block b = some old)
    (blk : ControlBlockBase) (b' : Nat) :
    (s.setBlock b blk).block b' = if b' = b then some blk else s.block b' := by
  have hlt := lt_of_block h
  unfold Heap.block Heap.setBlock
  simp only [List.getD_eq_getElem?_getD, List.getElem?_set]
  by_cases hb : b = b'
  · subst hb; simp [hlt]
  · have : ¬ b' = b := fun e => hb e.symm
    simp [hb, this]

theorem block_deleteBlock {s : Heap} {b : Nat} {old : ControlBlockBase} (h : s.block b = some old)
    (b' : Nat) : (s.deleteBlock b).block b' = if b' = b then none else s.block b' := by
  have hlt := lt_of_block h
  unfold Heap.block Heap.deleteBlock
  simp only [List.getD_eq_getElem?_getD, List.getElem?_set]
  by_cases hb : b = b'
  · subst hb; simp [hlt]
  · have : ¬ b' = b := fun e => hb e.symm
    simp [hb, this]

theorem block_none_of_le {s : Heap} {b : Nat} (h : s.blocks.length ≤ b) : s.block b = none := by
  unfold Heap.block
  rw [List.getD_eq_getElem?_getD, List.getElem?_eq_none h]
  rfl

theorem block_newBlock (s : Heap) (blk : ControlBlockBase) (b' : Nat) :
    (s.newBlock blk).block b' = if b' = s.blocks.length then some blk else s.block b' := by
  unfold Heap.block Heap.newBlock
  simp only [List.getD_eq_getElem?_getD]
  by_cases hb : b' = s.blocks.length
  · subst hb; simp
  · rcases Nat.lt_or_gt_of_ne hb with h1 | h1
    · simp [hb, List.getElem?_append_left h1]
    · rw [List.getElem?_eq_none (by simp; omega), List.getElem?_eq_none (by omega)]
      simp [hb]

theorem countP_set_of_getD {α : Type} (p : Option α → Bool) (l : List (Option α)) (i : Nat)
    (x : α) (y : Option α) (h : l.getD i none = some x) :
    (l.set i y).countP p + (if p (some x) then 1 else 0)
      = l.countP p + (if p y then 1 else 0) := by
  have hlt : i < l.length := by
    by_contra hn
    rw [List.getD_eq_getElem?_getD, List.getElem?_eq_none (by omega)] at h
    simp at h
  have hx : l[i] = some x := by
    rw [List.getD_eq_getElem?_getD, List.getElem?_eq_getElem hlt] at h
    simpa using h
  have h1 := List.countP_set p l i y hlt
  have h2 : (if p l[i] = true then 1 else 0) ≤ l.countP p := by
    clear h1
    induction l generalizing i with
    | nil => simp at hlt
    | cons a t ih =>
      cases i with
      | zero => simp [List.countP_cons]
      | succ j =>
        have hj : j < t.length := by simpa using hlt
        have hx' : t[j] = some x := by simpa using hx
        have h' : t.getD j none = some x := by
          rw [List.getD_eq_getElem?_getD, List.getElem?_eq_getElem hj, hx']; rfl
        have := ih j h' hj hx'
        simp only [List.getElem_cons_succ, List.countP_cons]
        omega
  rw [hx] at h1 h2
  omega


theorem sharedAt_lt {s : Heap} {i : Nat} {h : SharedPtr} (hi : s.sharedAt i = some h) :
    i < s.shared.length := by
  unfold Heap.sharedAt at hi
  by_contra hn
  rw [List.getD_eq_getElem?_getD, List.getElem?_eq_none (by omega)] at hi
  simp at hi

theorem weakAt_lt {s : Heap} {w : Nat} {h : WeakPtr} (hw : s.weakAt w = some h) :
    w < s.weak.length := by
  unfold Heap.weakAt at hw
  by_contra hn
  rw [List.getD_eq_getElem?_getD, List.getElem?_eq_none (by omega)] at hw
  simp at hw

/-- References held by code that is between two statements: `add r g` is `g` with the
block `r` points to, if any. -/
def add (r : Option Nat) (g : List Nat) : List Nat :=
  match r with
  | none => g
  | some b => b :: g

theorem count_add (r : Option Nat) (g : List Nat) (b : Nat) :
    (add r g).count b = g.count b + (if r = some b then 1 else 0) := by
  cases r with
  | none => simp [add]
  | some c =>
    simp only [add, List.count_cons, Option.some.injEq, beq_iff_eq]

theorem length_add_le (r : Option Nat) (g : List Nat) : (add r g).length ≤ g.length + 1 := by
  cases r <;> simp [add]

theorem length_add_ge (r : Option Nat) (g : List Nat) : g.length ≤ (add r g).length := by
  cases r <;> simp [add]

theorem cntS_setShared {s : Heap} {i : Nat} {old : SharedPtr} (hi : s.sharedAt i = some old)
    (new : SharedPtr) (b : Nat) :
    cntS (s.setShared i (some new)) b + (if old.block_ = some b then 1 else 0)
      = cntS s b + (if new.block_ = some b then 1 else 0) := by
  have := countP_set_of_getD (SharedPtr.refers b) s.shared i old (some new) hi
  simpa [cntS, Heap.setShared, SharedPtr.refers] using this

theorem cntS_kill {s : Heap} {i : Nat} {old : SharedPtr} (hi : s.sharedAt i = some old)
    (b : Nat) :
    cntS (s.setShared i none) b + (if old.block_ = some b then 1 else 0) = cntS s b := by
  have := countP_set_of_getD (SharedPtr.refers b) s.shared i old none hi
  simpa [cntS, Heap.setShared, SharedPtr.refers] using this

theorem cntS_pushShared (s : Heap) (h : SharedPtr) (b : Nat) :
    cntS (s.pushShared h) b = cntS s b + (if h.block_ = some b then 1 else 0) := by
  simp [cntS, Heap.pushShared, SharedPtr.refers, List.countP_cons]

theorem cntW_setWeak {s : Heap} {w : Nat} {old : WeakPtr} (hw : s.weakAt w = some old)
    (new : WeakPtr) (b : Nat) :
    cntW (s.setWeak w (some new)) b + (if old.block_ = some b then 1 else 0)
      = cntW s b + (if new.block_ = some b then 1 else 0) := by
  have := countP_set_of_getD (WeakPtr.refers b) s.weak w old (some new) hw
  simpa [cntW, Heap.setWeak, WeakPtr.refers] using this

theorem cntW_kill {s : Heap} {w : Nat} {old : WeakPtr} (hw : s.weakAt w = some old)
    (b : Nat) :
    cntW (s.setWeak w none) b + (if old.block_ = some b then 1 else 0) = cntW s b := by
  have := countP_set_of_getD (WeakPtr.refers b) s.weak w old none hw
  simpa [cntW, Heap.setWeak, WeakPtr.refers] using this

theorem cntW_pushWeak (s : Heap) (h : WeakPtr) (b : Nat) :
    cntW (s.pushWeak h) b = cntW s b + (if h.block_ = some b then 1 else 0) := by
  simp [cntW, Heap.pushWeak, WeakPtr.refers, List.countP_cons]

theorem live_setShared {s : Heap} {i : Nat} {old : SharedPtr} (hi : s.sharedAt i = some old)
    (new : SharedPtr) : live (s.setShared i (some new)) = live s := by
  have := countP_set_of_getD Option.isSome s.shared i old (some new) hi
  simp only [Option.isSome_some, if_true] at this
  simp only [live, Heap.setShared]
  omega

theorem live_killShared {s : Heap} {i : Nat} {old : SharedPtr} (hi : s.sharedAt i = some old) :
    live (s.setShared i none) + 1 = live s := by
  have := countP_set_of_getD Option.isSome s.shared i old none hi
  simp only [Option.isSome_some, if_true, Option.isSome_none] at this
  simp only [live, Heap.setShared]
  simp at this
  omega

theorem live_pushShared (s : Heap) (h : SharedPtr) : live (s.pushShared h) = live s + 1 := by
  simp [live, Heap.pushShared, List.countP_cons]
  omega

theorem live_setWeak {s : Heap} {w : Nat} {old : WeakPtr} (hw : s.weakAt w = some old)
    (new : WeakPtr) : live (s.setWeak w (some new)) = live s := by
  have := countP_set_of_getD Option.isSome s.weak w old (some new) hw
  simp only [Option.isSome_some, if_true] at this
  simp only [live, Heap.setWeak]
  omega

theorem live_killWeak {s : Heap} {w : Nat} {old : WeakPtr} (hw : s.weakAt w = some old) :
    live (s.setWeak w none) + 1 = live s := by
  have := countP_set_of_getD Option.isSome s.weak w old none hw
  simp only [Option.isSome_some, if_true, Option.isSome_none] at this
  simp only [live, Heap.setWeak]
  simp at this
  omega

theorem live_pushWeak (s : Heap) (h : WeakPtr) : live (s.pushWeak h) = live s + 1 := by
  simp [live, Heap.pushWeak, List.countP_cons]
  omega

theorem cnt_le_live (s : Heap) (b : Nat) : cntS s b + cntW s b ≤ live s := by
  have h1 : cntS s b ≤ s.shared.countP Option.isSome := by
    apply List.countP_mono_left
    intro x _ hx
    cases x <;> simp_all [SharedPtr.refers]
  have h2 : cntW s b ≤ s.weak.countP Option.isSome := by
    apply List.countP_mono_left
    intro x _ hx
    cases x <;> simp_all [WeakPtr.refers]
  unfold live
  omega

/-- The counting invariant, with the references `gs` (strong) and `gw` (weak) that a
running operation holds without a handle, and room for `k` more references. -/
structure Cnt (s : Heap) (gs gw : List Nat) (k : Nat) : Prop where
  strong : ∀ b blk, s.block b = some blk → blk.strong_cnt = cntS s b + gs.count b
  weak : ∀ b blk, s.block b = some blk → blk.weak_cnt = cntW s b + gw.count b
  dead : ∀ b, s.block b = none →
    cntS s b = 0 ∧ cntW s b = 0 ∧ gs.count b = 0 ∧ gw.count b = 0
  used : ∀ b blk, s.block b = some blk → 0 < blk.strong_cnt + blk.weak_cnt
  room : live s + gs.length + gw.length + k < SIZE_MOD

theorem Cnt.cnt_mono {s : Heap} {gs gw : List Nat} {k k' : Nat} (h : Cnt s gs gw k) (hk : k' ≤ k) :
    Cnt s gs gw k' :=
  ⟨h.strong, h.weak, h.dead, h.used, by have := h.room; omega⟩

theorem Cnt.cnt_strong_lt {s : Heap} {gs gw : List Nat} {k : Nat} (h : Cnt s gs gw k) {b : Nat}
    {blk : ControlBlockBase} (hb : s.block b = some blk) :
    blk.strong_cnt + gw.length + k < SIZE_MOD := by
  have h1 := h.strong b blk hb
  have h2 := cnt_le_live s b
  have h3 := h.room
  have h4 : gs.count b ≤ gs.length := List.count_le_length b gs
  omega

theorem Cnt.cnt_weak_lt {s : Heap} {gs gw : List Nat} {k : Nat} (h : Cnt s gs gw k) {b : Nat}
    {blk : ControlBlockBase} (hb : s.block b = some blk) :
    blk.weak_cnt + gs.length + k < SIZE_MOD := by
  have h1 := h.weak b blk hb
  have h2 := cnt_le_live s b
  have h3 := h.room
  have h4 : gw.count b ≤ gw.length := List.count_le_length b gw
  omega

theorem incr_eq {n : Nat} (h : n + 1 < SIZE_MOD) : incr n = n + 1 := by
  unfold incr
  exact Nat.mod_eq_of_lt h

theorem decr_eq {n : Nat} (h0 : 0 < n) (h : n < SIZE_MOD) : decr n = n - 1 := by
  unfold decr
  have : n + (SIZE_MOD - 1) = (n - 1) + SIZE_MOD := by omega
  rw [this, Nat.add_mod_right]
  exact Nat.mod_eq_of_lt (by omega)


@[simp] theorem cntS_setBlock (s : Heap) (b : Nat) (blk : ControlBlockBase) (c : Nat) :
    cntS (s.setBlock b blk) c = cntS s c := rfl
@[simp] theorem cntW_setBlock (s : Heap) (b : Nat) (blk : ControlBlockBase) (c : Nat) :
    cntW (s.setBlock b blk) c = cntW s c := rfl
@[simp] theorem live_setBlock (s : Heap) (b : Nat) (blk : ControlBlockBase) :
    live (s.setBlock b blk) = live s := rfl
@[simp] theorem cntS_deleteBlock (s : Heap) (b c : Nat) : cntS (s.deleteBlock b) c = cntS s c := rfl
@[simp] theorem cntW_deleteBlock (s : Heap) (b c : Nat) : cntW (s.deleteBlock b) c = cntW s c := rfl
@[simp] theorem live_deleteBlock (s : Heap) (b : Nat) : live (s.deleteBlock b) = live s := rfl
@[simp] theorem cntS_newBlock (s : Heap) (blk : ControlBlockBase) (c : Nat) :
    cntS (s.newBlock blk) c = cntS s c := rfl
@[simp] theorem cntW_newBlock (s : Heap) (blk : ControlBlockBase) (c : Nat) :
    cntW (s.newBlock blk) c = cntW s c := rfl
@[simp] theorem live_newBlock (s : Heap) (blk : ControlBlockBase) :
    live (s.newBlock blk) = live s := rfl
@[simp] theorem cntS_setWeak (s : Heap) (w : Nat) (h : Option WeakPtr) (c : Nat) :
    cntS (s.setWeak w h) c = cntS s c := rfl
@[simp] theorem cntS_pushWeak (s : Heap) (h : WeakPtr) (c : Nat) :
    cntS (s.pushWeak h) c = cntS s c := rfl
@[simp] theorem cntW_setShared (s : Heap) (i : Nat) (h : Option SharedPtr) (c : Nat) :
    cntW (s.setShared i h) c = cntW s c := rfl
@[simp] theorem cntW_pushShared (s : Heap) (h : SharedPtr) (c : Nat) :
    cntW (s.pushShared h) c = cntW s c := rfl
@[simp] theorem block_setShared (s : Heap) (i : Nat) (h : Option SharedPtr) (c : Nat) :
    (s.setShared i h).block c = s.block c := rfl
@[simp] theorem block_pushShared (s : Heap) (h : SharedPtr) (c : Nat) :
    (s.pushShared h).block c = s.block c := rfl
@[simp] theorem block_setWeak (s : Heap) (w : Nat) (h : Option WeakPtr) (c : Nat) :
    (s.setWeak w h).block c = s.block c := rfl
@[simp] theorem block_pushWeak (s : Heap) (h : WeakPtr) (c : Nat) :
    (s.pushWeak h).block c = s.block c := rfl
@[simp] theorem block_emit (s : Heap) (e : Event) (c : Nat) : (s.emit e).block c = s.block c := rfl
@[simp] theorem block_setObject (s : Heap) (a : Nat) (o : Object) (c : Nat) :
    (s.setObject a o).block c = s.block c := rfl

theorem Cnt.cnt_strongInc {s s' : Heap} {gs gw : List Nat} {k b : Nat} (h : Cnt s gs gw (k + 1))
    (e : strongInc b s = some s') : Cnt s' (b :: gs) gw k := by
  unfold SmartPtrs.strongInc at e
  cases hb : s.block b with
  | none => simp [hb] at e
  | some blk =>
    simp only [hb, Option.some.injEq] at e
    subst e
    have hlt := h.cnt_strong_lt hb
    have hinc : incr blk.strong_cnt = blk.strong_cnt + 1 := incr_eq (by omega)
    refine ⟨?_, ?_, ?_, ?_, ?_⟩
    · intro b' blk' h'
      rw [block_setBlock hb] at h'
      simp only [cntS_setBlock, List.count_cons, beq_iff_eq]
      split at h'
      · rename_i hbb
        subst hbb
        have h'' := Option.some.inj h'
        subst h''
        have := h.strong b' blk hb
        simp only [hinc, if_true]
        omega
      · rename_i hbb
        have := h.strong b' blk' h'
        have hne : ¬ b = b' := fun e => hbb e.symm
        simp only [hne, if_false]
        omega
    · intro b' blk' h'
      rw [block_setBlock hb] at h'
      simp only [cntW_setBlock]
      split at h'
      · rename_i hbb
        subst hbb
        have h'' := Option.some.inj h'
        subst h''
        exact h.weak b' blk hb
      · exact h.weak b' blk' h'
    · intro b' h'
      rw [block_setBlock hb] at h'
      split at h'
      · cases h'
      · rename_i hbb
        have hne : ¬ b = b' := fun e => hbb e.symm
        have := h.dead b' h'
        simp only [List.count_cons, beq_iff_eq, hne, if_false, cntS_setBlock, cntW_setBlock]
        omega
    · intro b' blk' h'
      rw [block_setBlock hb] at h'
      split at h'
      · have h'' := Option.some.inj h'
        subst h''
        simp only [hinc]
        omega
      · exact h.used b' blk' h'
    · have := h.room
      simp only [live_setBlock, List.length_cons]
      omega

theorem Cnt.cnt_weakInc {s s' : Heap} {gs gw : List Nat} {k b : Nat} (h : Cnt s gs gw (k + 1))
    (e : weakInc b s = some s') : Cnt s' gs (b :: gw) k := by
  unfold SmartPtrs.weakInc at e
  cases hb : s.block b with
  | none => simp [hb] at e
  | some blk =>
    simp only [hb, Option.some.injEq] at e
    subst e
    have hlt := h.cnt_weak_lt hb
    have hinc : incr blk.weak_cnt = blk.weak_cnt + 1 := incr_eq (by omega)
    refine ⟨?_, ?_, ?_, ?_, ?_⟩
    · intro b' blk' h'
      rw [block_setBlock hb] at h'
      simp only [cntS_setBlock]
      split at h'
      · rename_i hbb
        subst hbb
        have h'' := Option.some.inj h'
        subst h''
        exact h.strong b' blk hb
      · exact h.strong b' blk' h'
    · intro b' blk' h'
      rw [block_setBlock hb] at h'
      simp only [cntW_setBlock, List.count_cons, beq_iff_eq]
      split at h'
      · rename_i hbb
        subst hbb
        have h'' := Option.some.inj h'
        subst h''
        have := h.weak b' blk hb
        simp only [hinc, if_true]
        omega
      · rename_i hbb
        have := h.weak b' blk' h'
        have hne : ¬ b = b' := fun e => hbb e.symm
        simp only [hne, if_false]
        omega
    · intro b' h'
      rw [block_setBlock hb] at h'
      split at h'
      · cases h'
      · rename_i hbb
        have hne : ¬ b = b' := fun e => hbb e.symm
        have := h.dead b' h'
        simp only [List.count_cons, beq_iff_eq, hne, if_false, cntS_setBlock, cntW_setBlock]
        omega
    · intro b' blk' h'
      rw [block_setBlock hb] at h'
      split at h'
      · have h'' := Option.some.inj h'
        subst h''
        simp only [hinc]
        omega
      · exact h.used b' blk' h'
    · have := h.room
      simp only [live_setBlock, List.length_cons]
      omega

theorem Cnt.cnt_strongDec {s s' : Heap} {gs gw : List Nat} {k b : Nat} (h : Cnt s (b :: gs) gw k)
    (hw : b ∈ gw) (e : strongDec b s = some s') : Cnt s' gs gw k := by
  unfold SmartPtrs.strongDec at e
  cases hb : s.block b with
  | none => simp [hb] at e
  | some blk =>
    simp only [hb, Option.some.injEq] at e
    subst e
    have hlt := h.cnt_strong_lt hb
    have hs := h.strong b blk hb
    simp only [List.count_cons, beq_self_eq_true, if_true] at hs
    have hdec : decr blk.strong_cnt = blk.strong_cnt - 1 := decr_eq (by omega) (by omega)
    have hwpos : 0 < gw.count b := List.count_pos_iff.mpr hw
    refine ⟨?_, ?_, ?_, ?_, ?_⟩
    · intro b' blk' h'
      rw [block_setBlock hb] at h'
      simp only [cntS_setBlock]
      split at h'
      · rename_i hbb
        subst hbb
        have h'' := Option.some.inj h'
        subst h''
        simp only [hdec]
        omega
      · rename_i hbb
        have := h.strong b' blk' h'
        have hne : ¬ b = b' := fun e => hbb e.symm
        simp only [List.count_cons, beq_iff_eq, hne, if_false] at this
        omega
    · intro b' blk' h'
      rw [block_setBlock hb] at h'
      simp only [cntW_setBlock]
      split at h'
      · rename_i hbb
        subst hbb
        have h'' := Option.some.inj h'
        subst h''
        exact h.weak b' blk hb
      · exact h.weak b' blk' h'
    · intro b' h'
      rw [block_setBlock hb] at h'
      split at h'
      · cases h'
      · rename_i hbb
        have hne : ¬ b = b' := fun e => hbb e.symm
        have := h.dead b' h'
        simp only [List.count_cons, beq_iff_eq, hne, if_false] at this
        simp only [cntS_setBlock, cntW_setBlock]
        omega
    · intro b' blk' h'
      rw [block_setBlock hb] at h'
      split at h'
      · have h'' := Option.some.inj h'
        subst h''
        have := h.weak b blk hb
        simp only
        omega
      · exact h.used b' blk' h'
    · have := h.room
      simp only [live_setBlock, List.length_cons] at this ⊢
      omega

theorem Cnt.cnt_weakRelease {s s' : Heap} {gs gw : List Nat} {k b : Nat} (h : Cnt s gs (b :: gw) k)
    (e : WeakPtr.release b s = some s') : Cnt s' gs gw k := by
  unfold WeakPtr.release SmartPtrs.weakDec at e
  cases hb : s.block b with
  | none => simp [hb] at e
  | some blk =>
    simp only [hb] at e
    have hlt := h.cnt_weak_lt hb
    have hw := h.weak b blk hb
    have hs := h.strong b blk hb
    simp only [List.count_cons, beq_self_eq_true, if_true] at hw
    have hdec : decr blk.weak_cnt = blk.weak_cnt - 1 := decr_eq (by omega) (by omega)
    have hb1 : (s.setBlock b { blk with weak_cnt := decr blk.weak_cnt }).block b
        = some { blk with weak_cnt := decr blk.weak_cnt } := by
      rw [block_setBlock hb]; simp
    unfold deleteIfUnused at e
    simp only [hb1] at e
    split at e
    · rename_i hz
      simp only [Option.some.injEq] at e
      subst e
      simp only [hdec] at hz
      refine ⟨?_, ?_, ?_, ?_, ?_⟩
      · intro b' blk' h'
        rw [block_deleteBlock hb1, block_setBlock hb] at h'
        simp only [cntS_deleteBlock, cntS_setBlock]
        split at h'
        · cases h'
        ·           exact h.strong b' blk' h'
      · intro b' blk' h'
        rw [block_deleteBlock hb1, block_setBlock hb] at h'
        simp only [cntW_deleteBlock, cntW_setBlock]
        split at h'
        · cases h'
        · rename_i hbb
          have := h.weak b' blk' h'
          have hne : ¬ b = b' := fun e => hbb e.symm
          simp only [List.count_cons, beq_iff_eq, hne, if_false] at this
          omega
      · intro b' h'
        rw [block_deleteBlock hb1, block_setBlock hb] at h'
        simp only [cntS_deleteBlock, cntS_setBlock, cntW_deleteBlock, cntW_setBlock]
        split at h'
        · rename_i hbb
          subst hbb
          omega
        · rename_i hbb
          have := h.dead b' h'
          have hne : ¬ b = b' := fun e => hbb e.symm
          simp only [List.count_cons, beq_iff_eq, hne, if_false] at this
          omega
      · intro b' blk' h'
        rw [block_deleteBlock hb1, block_setBlock hb] at h'
        split at h'
        · cases h'
        ·           exact h.used b' blk' h'
      · have := h.room
        simp only [live_deleteBlock, live_setBlock, List.length_cons] at this ⊢
        omega
    · rename_i hz
      simp only [Option.some.injEq] at e
      subst e
      simp only [hdec] at hz
      refine ⟨?_, ?_, ?_, ?_, ?_⟩
      · intro b' blk' h'
        rw [block_setBlock hb] at h'
        simp only [cntS_setBlock]
        split at h'
        · rename_i hbb
          subst hbb
          cases h'
          exact hs
        · exact h.strong b' blk' h'
      · intro b' blk' h'
        rw [block_setBlock hb] at h'
        simp only [cntW_setBlock]
        split at h'
        · rename_i hbb
          subst hbb
          cases h'
          simp only [hdec]
          omega
        · rename_i hbb
          have := h.weak b' blk' h'
          have hne : ¬ b = b' := fun e => hbb e.symm
          simp only [List.count_cons, beq_iff_eq, hne, if_false] at this
          omega
      · intro b' h'
        rw [block_setBlock hb] at h'
        simp only [cntS_setBlock, cntW_setBlock]
        split at h'
        · cases h'
        · rename_i hbb
          have := h.dead b' h'
          have hne : ¬ b = b' := fun e => hbb e.symm
          simp only [List.count_cons, beq_iff_eq, hne, if_false] at this
          omega
      · intro b' blk' h'
        rw [block_setBlock hb] at h'
        split at h'
        · have h'' := Option.some.inj h'
          subst h''
          simp only [hdec]
          omega
        · exact h.used b' blk' h'
      · have := h.room
        simp only [live_setBlock, List.length_cons] at this ⊢
        omega


theorem Cnt.cnt_setShared {s : Heap} {gs gw : List Nat} {k i : Nat} {old : SharedPtr}
    (new : SharedPtr) (hi : s.sharedAt i = some old) (h : Cnt s (add new.block_ gs) gw (k + 1)) :
    Cnt (s.setShared i (some new)) (add old.block_ gs) gw k := by
  refine ⟨?_, ?_, ?_, ?_, ?_⟩
  · intro b blk hb
    have h1 := h.strong b blk hb
    have h2 := cntS_setShared hi new b
    rw [count_add] at h1 ⊢
    omega
  · intro b blk hb
    exact h.weak b blk hb
  · intro b hb
    have h1 := h.dead b hb
    have h2 := cntS_setShared hi new b
    rw [count_add] at h1 ⊢
    simp only [cntW_setShared]
    omega
  · intro b blk hb
    exact h.used b blk hb
  · have h1 := h.room
    have h2 := length_add_le old.block_ gs
    have h3 := length_add_ge new.block_ gs
    rw [live_setShared hi]
    omega

theorem Cnt.cnt_killShared {s : Heap} {gs gw : List Nat} {k i : Nat} {old : SharedPtr}
    (hi : s.sharedAt i = some old) (h : Cnt s gs gw k) :
    Cnt (s.setShared i none) (add old.block_ gs) gw k := by
  refine ⟨?_, ?_, ?_, ?_, ?_⟩
  · intro b blk hb
    have h1 := h.strong b blk hb
    have h2 := cntS_kill hi b
    rw [count_add]
    omega
  · intro b blk hb
    exact h.weak b blk hb
  · intro b hb
    have h1 := h.dead b hb
    have h2 := cntS_kill hi b
    rw [count_add]
    simp only [cntW_setShared]
    omega
  · intro b blk hb
    exact h.used b blk hb
  · have h1 := h.room
    have h2 := length_add_le old.block_ gs
    have h3 := live_killShared hi
    omega

theorem Cnt.cnt_pushShared {s : Heap} {gs gw : List Nat} {k : Nat} (new : SharedPtr)
    (h : Cnt s (add new.block_ gs) gw (k + 1)) : Cnt (s.pushShared new) gs gw k := by
  refine ⟨?_, ?_, ?_, ?_, ?_⟩
  · intro b blk hb
    have h1 := h.strong b blk hb
    rw [count_add] at h1
    rw [cntS_pushShared]
    omega
  · intro b blk hb
    exact h.weak b blk hb
  · intro b hb
    have h1 := h.dead b hb
    rw [count_add] at h1
    rw [cntS_pushShared]
    simp only [cntW_pushShared]
    omega
  · intro b blk hb
    exact h.used b blk hb
  · have h1 := h.room
    have h3 := length_add_ge new.block_ gs
    rw [live_pushShared]
    omega

theorem Cnt.cnt_setWeak {s : Heap} {gs gw : List Nat} {k w : Nat} {old : WeakPtr}
    (new : WeakPtr) (hw : s.weakAt w = some old) (h : Cnt s gs (add new.block_ gw) (k + 1)) :
    Cnt (s.setWeak w (some new)) gs (add old.block_ gw) k := by
  refine ⟨?_, ?_, ?_, ?_, ?_⟩
  · intro b blk hb
    exact h.strong b blk hb
  · intro b blk hb
    have h1 := h.weak b blk hb
    have h2 := cntW_setWeak hw new b
    rw [count_add] at h1 ⊢
    omega
  · intro b hb
    have h1 := h.dead b hb
    have h2 := cntW_setWeak hw new b
    rw [count_add] at h1 ⊢
    simp only [cntS_setWeak]
    omega
  · intro b blk hb
    exact h.used b blk hb
  · have h1 := h.room
    have h2 := length_add_le old.block_ gw
    have h3 := length_add_ge new.block_ gw
    rw [live_setWeak hw]
    omega

theorem Cnt.cnt_killWeak {s : Heap} {gs gw : List Nat} {k w : Nat} {old : WeakPtr}
    (hw : s.weakAt w = some old) (h : Cnt s gs gw k) :
    Cnt (s.setWeak w none) gs (add old.block_ gw) k := by
  refine ⟨?_, ?_, ?_, ?_, ?_⟩
  · intro b blk hb
    exact h.strong b blk hb
  · intro b blk hb
    have h1 := h.weak b blk hb
    have h2 := cntW_kill hw b
    rw [count_add]
    omega
  · intro b hb
    have h1 := h.dead b hb
    have h2 := cntW_kill hw b
    rw [count_add]
    simp only [cntS_setWeak]
    omega
  · intro b blk hb
    exact h.used b blk hb
  · have h1 := h.room
    have h2 := length_add_le old.block_ gw
    have h3 := live_killWeak hw
    omega

theorem Cnt.cnt_pushWeak {s : Heap} {gs gw : List Nat} {k : Nat} (new : WeakPtr)
    (h : Cnt s gs (add new.block_ gw) (k + 1)) : Cnt (s.pushWeak new) gs gw k := by
  refine ⟨?_, ?_, ?_, ?_, ?_⟩
  · intro b blk hb
    exact h.strong b blk hb
  · intro b blk hb
    have h1 := h.weak b blk hb
    rw [count_add] at h1
    rw [cntW_pushWeak]
    omega
  · intro b hb
    have h1 := h.dead b hb
    rw [count_add] at h1
    rw [cntW_pushWeak]
    simp only [cntS_pushWeak]
    omega
  · intro b blk hb
    exact h.used b blk hb
  · have h1 := h.room
    have h3 := length_add_ge new.block_ gw
    rw [live_pushWeak]
    omega

theorem Cnt.cnt_newBlock {s : Heap} {k : Nat} (d : Derived) (h : Cnt s [] [] (k + 1)) :
    Cnt (s.newBlock ⟨1, 0, d⟩) [s.blocks.length] [] k := by
  have hnone : s.block s.blocks.length = none := block_none_of_le (Nat.le_refl _)
  have hd := h.dead _ hnone
  refine ⟨?_, ?_, ?_, ?_, ?_⟩
  · intro b blk hb
    rw [block_newBlock] at hb
    simp only [cntS_newBlock, List.count_cons, List.count_nil, beq_iff_eq]
    split at hb
    · rename_i hbb
      subst hbb
      have hb' := Option.some.inj hb
      subst hb'
      simp only [if_true]
      omega
    · rename_i hbb
      have := h.strong b blk hb
      have hne : ¬ s.blocks.length = b := fun e => hbb e.symm
      simp only [hne, if_false]
      simpa using this
  · intro b blk hb
    rw [block_newBlock] at hb
    simp only [cntW_newBlock]
    split at hb
    · rename_i hbb
      subst hbb
      have hb' := Option.some.inj hb
      subst hb'
      simp only [List.count_nil]
      omega
    · exact h.weak b blk hb
  · intro b hb
    rw [block_newBlock] at hb
    split at hb
    · cases hb
    · rename_i hbb
      obtain ⟨h1, h2, _, _⟩ := h.dead b hb
      have hne : ¬ s.blocks.length = b := fun e => hbb e.symm
      refine ⟨h1, h2, ?_, rfl⟩
      simp [List.count_cons, hne]
  · intro b blk hb
    rw [block_newBlock] at hb
    split at hb
    · have hb' := Option.some.inj hb
      subst hb'
      simp
    · exact h.used b blk hb
  · have h1 := h.room
    simp only [live_newBlock, List.length_cons, List.length_nil] at h1 ⊢
    omega


/-- Event `x` occurs in `l` before every occurrence of `y`. -/
def Precedes (x y : Event) (l : List Event) : Prop :=
  ∀ l1 l2, l = l1 ++ y :: l2 → x ∈ l1

theorem Precedes.snoc {x y e : Event} {l : List Event} (h : Precedes x y l)
    (he : e = y → x ∈ l) : Precedes x y (l ++ [e]) := by
  intro l1 l2 hl
  rcases List.eq_nil_or_concat l2 with rfl | ⟨l2', z, rfl⟩
  · have := List.append_inj' hl rfl
    obtain ⟨h1, h2⟩ := this
    subst h1
    simp only [List.cons.injEq, and_true] at h2
    exact he h2
  · rw [List.concat_eq_append, ← List.cons_append, ← List.append_assoc] at hl
    have := List.append_inj' hl rfl
    exact h l1 l2' this.1

/-- What the log says about the blocks: the object of a block is destroyed exactly when
its strong counter is zero, a block is deleted exactly when it is gone, each at most
once, and `Destroy` comes before `Delete`. -/
structure Logged (s : Heap) : Prop where
  destroyed : ∀ b blk, s.block b = some blk →
    (blk.strong_cnt = 0 ↔ Event.Destroy b ∈ s.log)
  once : ∀ b, s.log.count (Event.Destroy b) ≤ 1
  freed : ∀ b, b < s.blocks.length → (s.block b = none ↔ Event.Delete b ∈ s.log)
  freed_once : ∀ b, s.log.count (Event.Delete b) ≤ 1
  fresh : ∀ b, s.blocks.length ≤ b → Event.Destroy b ∉ s.log ∧ Event.Delete b ∉ s.log
  order : ∀ b, Precedes (Event.Destroy b) (Event.Delete b) s.log

theorem Logged.log_of_eq {s s' : Heap} (h : Logged s) (hb : s'.blocks = s.blocks)
    (hl : s'.log = s.log) : Logged s' := by
  have hblock : ∀ b, s'.block b = s.block b := by
    intro b; unfold Heap.block; rw [hb]
  refine ⟨?_, ?_, ?_, ?_, ?_, ?_⟩
  · intro b blk h'
    rw [hblock] at h'
    rw [hl]
    exact h.destroyed b blk h'
  · intro b
    rw [hl]
    exact h.once b
  · intro b hlt
    rw [hblock, hl]
    rw [hb] at hlt
    exact h.freed b hlt
  · intro b
    rw [hl]
    exact h.freed_once b
  · intro b hle
    rw [hl]
    rw [hb] at hle
    exact h.fresh b hle
  · intro b
    rw [hl]
    exact h.order b

theorem length_setBlock (s : Heap) (b : Nat) (blk : ControlBlockBase) :
    (s.setBlock b blk).blocks.length = s.blocks.length := by
  simp [Heap.setBlock]

theorem Logged.log_setBlock {s : Heap} {b : Nat} {blk : ControlBlockBase} (blk' : ControlBlockBase)
    (h : Logged s) (hb : s.block b = some blk)
    (hz : blk'.strong_cnt = 0 ↔ blk.strong_cnt = 0) : Logged (s.setBlock b blk') := by
  refine ⟨?_, ?_, ?_, ?_, ?_, ?_⟩
  · intro c blk1 h'
    rw [block_setBlock hb] at h'
    split at h'
    · rename_i hc
      subst hc
      have h'' := Option.some.inj h'
      subst h''
      rw [hz]
      exact h.destroyed c blk hb
    · exact h.destroyed c blk1 h'
  · exact h.once
  · intro c hlt
    rw [length_setBlock] at hlt
    rw [block_setBlock hb]
    split
    · rename_i hc
      subst hc
      have := h.freed c hlt
      rw [hb] at this
      constructor
      · intro h0; cases h0
      · intro h0; exact absurd (this.mpr h0) (by simp)
    · exact h.freed c hlt
  · exact h.freed_once
  · intro c hle
    rw [length_setBlock] at hle
    exact h.fresh c hle
  · exact h.order

theorem Logged.log_destroyEmit {s : Heap} {b : Nat} {blk : ControlBlockBase}
    (blk' : ControlBlockBase) (h : Logged s) (hb : s.block b = some blk)
    (hpos : 0 < blk.strong_cnt) (hz : blk'.strong_cnt = 0) :
    Logged ((s.setBlock b blk').emit (Event.Destroy b)) := by
  have hnot : Event.Destroy b ∉ s.log := by
    intro hin
    have := (h.destroyed b blk hb).mpr hin
    omega
  have hlog : ((s.setBlock b blk').emit (Event.Destroy b)).log = s.log ++ [Event.Destroy b] := rfl
  refine ⟨?_, ?_, ?_, ?_, ?_, ?_⟩
  · intro c blk1 h'
    rw [block_emit, block_setBlock hb] at h'
    rw [hlog]
    split at h'
    · rename_i hc
      subst hc
      have h'' := Option.some.inj h'
      subst h''
      simp [hz]
    · rename_i hc
      have := h.destroyed c blk1 h'
      rw [this]
      simp [hc]
  · intro c
    rw [hlog, List.count_append]
    by_cases hc : c = b
    · subst hc
      have : s.log.count (Event.Destroy c) = 0 := List.count_eq_zero.mpr hnot
      simp [this]
    · have := h.once c
      have hne : ¬ (Event.Destroy b = Event.Destroy c) := by
        intro e; injection e with e; exact hc e.symm
      simp [List.count_cons, hne]
      exact this
  · intro c hlt
    have hlt' : c < s.blocks.length := by
      simpa [Heap.emit, Heap.setBlock] using hlt
    rw [block_emit, block_setBlock hb, hlog]
    have := h.freed c hlt'
    split
    · rename_i hc
      subst hc
      rw [hb] at this
      constructor
      · intro h0; cases h0
      · intro h0
        simp at h0
        exact absurd (this.mpr h0) (by simp)
    · rw [this]; simp
  · intro c
    rw [hlog, List.count_append]
    have := h.freed_once c
    simp [List.count_cons]
    exact this
  · intro c hle
    have hle' : s.blocks.length ≤ c := by
      simpa [Heap.emit, Heap.setBlock] using hle
    have := h.fresh c hle'
    have hlt := lt_of_block hb
    have hc : ¬ b = c := by omega
    have hc' : ¬ c = b := by omega
    rw [hlog]
    simp [this.1, this.2, hc, hc']
  · intro c
    rw [hlog]
    exact (h.order c).snoc (by intro e; cases e)

theorem Logged.log_emitDestruct {s : Heap} (a : Nat) (h : Logged s) :
    Logged (s.emit (Event.Destruct a)) := by
  have hlog : (s.emit (Event.Destruct a)).log = s.log ++ [Event.Destruct a] := rfl
  refine ⟨?_, ?_, ?_, ?_, ?_, ?_⟩
  · intro c blk1 h'
    rw [block_emit] at h'
    rw [hlog, h.destroyed c blk1 h']
    simp
  · intro c
    rw [hlog, List.count_append]
    have := h.once c
    simp [List.count_cons]
    exact this
  · intro c hlt
    have hlt' : c < s.blocks.length := by simpa [Heap.emit] using hlt
    rw [block_emit, hlog, h.freed c hlt']
    simp
  · intro c
    rw [hlog, List.count_append]
    have := h.freed_once c
    simp [List.count_cons]
    exact this
  · intro c hle
    have hle' : s.blocks.length ≤ c := by simpa [Heap.emit] using hle
    have := h.fresh c hle'
    rw [hlog]
    simp [this.1, this.2]
  · intro c
    rw [hlog]
    exact (h.order c).snoc (by intro e; cases e)

theorem Logged.log_deleteBlock {s : Heap} {b : Nat} {blk : ControlBlockBase} (h : Logged s)
    (hb : s.block b = some blk) (hz : blk.strong_cnt = 0) : Logged (s.deleteBlock b) := by
  have hlog : (s.deleteBlock b).log = s.log ++ [Event.Delete b] := rfl
  have hlt := lt_of_block hb
  have hlen : (s.deleteBlock b).blocks.length = s.blocks.length := by simp [Heap.deleteBlock]
  have hnot : Event.Delete b ∉ s.log := by
    intro hin
    have := (h.freed b hlt).mpr hin
    rw [hb] at this
    cases this
  refine ⟨?_, ?_, ?_, ?_, ?_, ?_⟩
  · intro c blk1 h'
    rw [block_deleteBlock hb] at h'
    split at h'
    · cases h'
    · rw [hlog, h.destroyed c blk1 h']
      simp
  · intro c
    rw [hlog, List.count_append]
    have := h.once c
    simp [List.count_cons]
    exact this
  · intro c hc
    rw [hlen] at hc
    rw [block_deleteBlock hb, hlog]
    split
    · rename_i hcb
      subst hcb
      simp
    · rename_i hcb
      rw [h.freed c hc]
      have hne : ¬ b = c := fun e => hcb e.symm
      simp [hne, hcb]
  · intro c
    rw [hlog, List.count_append]
    by_cases hc : c = b
    · subst hc
      have : s.log.count (Event.Delete c) = 0 := List.count_eq_zero.mpr hnot
      simp [this]
    · have := h.freed_once c
      have hne : ¬ (Event.Delete b = Event.Delete c) := by
        intro e; injection e with e; exact hc e.symm
      simp [List.count_cons, hne]
      exact this
  · intro c hle
    rw [hlen] at hle
    have := h.fresh c hle
    have hc : ¬ b = c := by omega
    have hc' : ¬ c = b := by omega
    rw [hlog]
    simp [this.1, this.2, hc, hc']
  · intro c
    rw [hlog]
    refine (h.order c).snoc ?_
    intro e
    injection e with e
    subst e
    exact (h.destroyed b blk hb).mp hz

theorem Logged.log_newBlock {s : Heap} (d : Derived) (h : Logged s) :
    Logged (s.newBlock ⟨1, 0, d⟩) := by
  have hlen : (s.newBlock ⟨1, 0, d⟩).blocks.length = s.blocks.length + 1 := by
    simp [Heap.newBlock]
  have hlog : (s.newBlock ⟨1, 0, d⟩).log = s.log := rfl
  have hf := h.fresh s.blocks.length (Nat.le_refl _)
  refine ⟨?_, ?_, ?_, ?_, ?_, ?_⟩
  · intro c blk1 h'
    rw [block_newBlock] at h'
    rw [hlog]
    split at h'
    · rename_i hc
      subst hc
      have h'' := Option.some.inj h'
      subst h''
      simp [hf.1]
    · exact h.destroyed c blk1 h'
  · exact h.once
  · intro c hc
    rw [hlen] at hc
    rw [block_newBlock, hlog]
    split
    · rename_i hcb
      subst hcb
      simp [hf.2]
    · rename_i hcb
      exact h.freed c (by omega)
  · exact h.freed_once
  · intro c hle
    rw [hlen] at hle
    rw [hlog]
    exact h.fresh c (by omega)
  · exact h.order


theorem Cnt.cnt_of_eq {s s' : Heap} {gs gw : List Nat} {k : Nat} (h : Cnt s gs gw k)
    (hb : s'.blocks = s.blocks) (hs : s'.shared = s.shared) (hw : s'.weak = s.weak) :
    Cnt s' gs gw k := by
  have hblock : ∀ b, s'.block b = s.block b := by
    intro b; unfold Heap.block; rw [hb]
  have hS : ∀ b, cntS s' b = cntS s b := by intro b; unfold cntS; rw [hs]
  have hW : ∀ b, cntW s' b = cntW s b := by intro b; unfold cntW; rw [hw]
  have hL : live s' = live s := by unfold live; rw [hs, hw]
  refine ⟨?_, ?_, ?_, ?_, ?_⟩
  · intro b blk h'
    rw [hblock] at h'
    rw [hS]
    exact h.strong b blk h'
  · intro b blk h'
    rw [hblock] at h'
    rw [hW]
    exact h.weak b blk h'
  · intro b h'
    rw [hblock] at h'
    rw [hS, hW]
    exact h.dead b h'
  · intro b blk h'
    rw [hblock] at h'
    exact h.used b blk h'
  · rw [hL]
    exact h.room

/-- The invariant of the handle API: the counters count the handles, and the log agrees
with the blocks. -/
def Inv (s : Heap) (gs gw : List Nat) (k : Nat) : Prop := Cnt s gs gw k ∧ Logged s

theorem Inv.mono {s : Heap} {gs gw : List Nat} {k k' : Nat} (h : Inv s gs gw k) (hk : k' ≤ k) :
    Inv s gs gw k' := ⟨h.1.cnt_mono hk, h.2⟩

theorem Inv.after_strongInc {s s' : Heap} {gs gw : List Nat} {k b : Nat} (h : Inv s gs gw (k + 1))
    (hpos : 0 < cntS s b + gs.count b) (e : strongInc b s = some s') :
    Inv s' (b :: gs) gw k := by
  refine ⟨h.1.cnt_strongInc e, ?_⟩
  unfold SmartPtrs.strongInc at e
  cases hb : s.block b with
  | none => simp [hb] at e
  | some blk =>
    simp only [hb, Option.some.injEq] at e
    subst e
    have hs := h.1.strong b blk hb
    have hlt := h.1.cnt_strong_lt hb
    have hinc : incr blk.strong_cnt = blk.strong_cnt + 1 := incr_eq (by omega)
    refine h.2.log_setBlock _ hb ?_
    simp only [hinc]
    omega

theorem Inv.after_weakInc {s s' : Heap} {gs gw : List Nat} {k b : Nat} (h : Inv s gs gw (k + 1))
    (e : weakInc b s = some s') : Inv s' gs (b :: gw) k := by
  refine ⟨h.1.cnt_weakInc e, ?_⟩
  unfold SmartPtrs.weakInc at e
  cases hb : s.block b with
  | none => simp [hb] at e
  | some blk =>
    simp only [hb, Option.some.injEq] at e
    subst e
    exact h.2.log_setBlock _ hb Iff.rfl

theorem Inv.after_strongIncIf {s s' : Heap} {gs gw : List Nat} {k : Nat} {r : Option Nat}
    (h : Inv s gs gw (k + 1)) (hpos : ∀ b, r = some b → 0 < cntS s b + gs.count b)
    (e : strongIncIf r s = some s') : Inv s' (add r gs) gw k := by
  cases r with
  | none =>
    simp only [SmartPtrs.strongIncIf, Option.some.injEq] at e
    subst e
    exact h.mono (by omega)
  | some b => exact h.after_strongInc (hpos b rfl) e

theorem Inv.after_weakIncIf {s s' : Heap} {gs gw : List Nat} {k : Nat} {r : Option Nat}
    (h : Inv s gs gw (k + 1)) (e : weakIncIf r s = some s') : Inv s' gs (add r gw) k := by
  cases r with
  | none =>
    simp only [SmartPtrs.weakIncIf, Option.some.injEq] at e
    subst e
    exact h.mono (by omega)
  | some b => exact h.after_weakInc e

theorem Inv.weakRelease {s s' : Heap} {gs gw : List Nat} {k b : Nat} (h : Inv s gs (b :: gw) k)
    (e : WeakPtr.release b s = some s') : Inv s' gs gw k := by
  refine ⟨h.1.cnt_weakRelease e, ?_⟩
  unfold WeakPtr.release SmartPtrs.weakDec at e
  cases hb : s.block b with
  | none => simp [hb] at e
  | some blk =>
    simp only [hb] at e
    have hb1 : (s.setBlock b { blk with weak_cnt := decr blk.weak_cnt }).block b
        = some { blk with weak_cnt := decr blk.weak_cnt } := by
      rw [block_setBlock hb]; simp
    have hl1 : Logged (s.setBlock b { blk with weak_cnt := decr blk.weak_cnt }) :=
      h.2.log_setBlock _ hb Iff.rfl
    unfold deleteIfUnused at e
    simp only [hb1] at e
    split at e
    · rename_i hz
      simp only [Option.some.injEq] at e
      subst e
      exact hl1.log_deleteBlock hb1 hz.1
    · simp only [Option.some.injEq] at e
      subst e
      exact hl1

theorem Inv.weakReleaseIf {s s' : Heap} {gs gw : List Nat} {k : Nat} {r : Option Nat}
    (h : Inv s gs (add r gw) k) (e : WeakPtr.releaseIf r s = some s') : Inv s' gs gw k := by
  cases r with
  | none =>
    simp only [WeakPtr.releaseIf, Option.some.injEq] at e
    subst e
    exact h
  | some b => exact Inv.weakRelease h e

theorem Inv.setShared {s : Heap} {gs gw : List Nat} {k i : Nat} {old : SharedPtr}
    (new : SharedPtr) (hi : s.sharedAt i = some old) (h : Inv s (add new.block_ gs) gw (k + 1)) :
    Inv (s.setShared i (some new)) (add old.block_ gs) gw k :=
  ⟨h.1.cnt_setShared new hi, h.2.log_of_eq rfl rfl⟩

theorem Inv.killShared {s : Heap} {gs gw : List Nat} {k i : Nat} {old : SharedPtr}
    (hi : s.sharedAt i = some old) (h : Inv s gs gw k) :
    Inv (s.setShared i none) (add old.block_ gs) gw k :=
  ⟨h.1.cnt_killShared hi, h.2.log_of_eq rfl rfl⟩

theorem Inv.pushShared {s : Heap} {gs gw : List Nat} {k : Nat} (new : SharedPtr)
    (h : Inv s (add new.block_ gs) gw (k + 1)) : Inv (s.pushShared new) gs gw k :=
  ⟨h.1.cnt_pushShared new, h.2.log_of_eq rfl rfl⟩

theorem Inv.setWeak {s : Heap} {gs gw : List Nat} {k w : Nat} {old : WeakPtr}
    (new : WeakPtr) (hw : s.weakAt w = some old) (h : Inv s gs (add new.block_ gw) (k + 1)) :
    Inv (s.setWeak w (some new)) gs (add old.block_ gw) k :=
  ⟨h.1.cnt_setWeak new hw, h.2.log_of_eq rfl rfl⟩

theorem Inv.killWeak {s : Heap} {gs gw : List Nat} {k w : Nat} {old : WeakPtr}
    (hw : s.weakAt w = some old) (h : Inv s gs gw k) :
    Inv (s.setWeak w none) gs (add old.block_ gw) k :=
  ⟨h.1.cnt_killWeak hw, h.2.log_of_eq rfl rfl⟩

theorem Inv.pushWeak {s : Heap} {gs gw : List Nat} {k : Nat} (new : WeakPtr)
    (h : Inv s gs (add new.block_ gw) (k + 1)) : Inv (s.pushWeak new) gs gw k :=
  ⟨h.1.cnt_pushWeak new, h.2.log_of_eq rfl rfl⟩

theorem Inv.newBlock {s : Heap} {k : Nat} (d : Derived) (h : Inv s [] [] (k + 1)) :
    Inv (s.newBlock ⟨1, 0, d⟩) [s.blocks.length] [] k :=
  ⟨h.1.cnt_newBlock d, h.2.log_newBlock d⟩

theorem Inv.weakDtor {s s' : Heap} {gs gw : List Nat} {k w : Nat} (h : Inv s gs gw k)
    (e : WeakPtr.dtor w s = some s') : Inv s' gs gw k := by
  unfold WeakPtr.dtor at e
  cases hw : s.weakAt w with
  | none => simp [hw] at e
  | some old =>
    simp only [hw] at e
    exact Inv.weakReleaseIf (h.killWeak hw) e

theorem Inv.after_destruct {s s' : Heap} {gs gw : List Nat} {k a : Nat} (h : Inv s gs gw k)
    (e : destruct a s = some s') : Inv s' gs gw k := by
  unfold SmartPtrs.destruct at e
  cases ho : s.object a with
  | none => simp [ho] at e
  | some o =>
    simp only [ho] at e
    split at e
    · have h0 : Logged (s.setObject a { o with alive := false }) := h.2.log_of_eq rfl rfl
      have h1 : Inv ((s.setObject a { o with alive := false }).emit (Event.Destruct a)) gs gw k :=
        ⟨h.1.cnt_of_eq rfl rfl rfl, h0.log_emitDestruct a⟩
      split at e
      · simp only [Option.some.injEq] at e
        subst e
        exact h1
      · exact h1.weakDtor e
    · cases e

theorem Inv.strongDrop {s s2 s3 : Heap} {gs gw : List Nat} {k b : Nat}
    (h : Inv s (b :: gs) gw k) (hw : b ∈ gw) (e2 : strongDec b s = some s2)
    (e3 : destroyIfZero b s2 = some s3) : Inv s3 gs gw k := by
  have hc2 := h.1.cnt_strongDec hw e2
  unfold SmartPtrs.strongDec at e2
  cases hb : s.block b with
  | none => simp [hb] at e2
  | some blk =>
    simp only [hb, Option.some.injEq] at e2
    subst e2
    have hs := h.1.strong b blk hb
    have hlt := h.1.cnt_strong_lt hb
    simp only [List.count_cons, beq_self_eq_true, if_true] at hs
    have hdec : decr blk.strong_cnt = blk.strong_cnt - 1 := decr_eq (by omega) (by omega)
    have hb2 : (s.setBlock b { blk with strong_cnt := decr blk.strong_cnt }).block b
        = some { blk with strong_cnt := decr blk.strong_cnt } := by
      rw [block_setBlock hb]; simp
    unfold destroyIfZero at e3
    simp only [hb2] at e3
    split at e3
    · rename_i hz
      unfold Destroy at e3
      simp only [hb2] at e3
      have h1 : Inv ((s.setBlock b { blk with strong_cnt := decr blk.strong_cnt }).emit
          (Event.Destroy b)) gs gw k :=
        ⟨hc2.cnt_of_eq rfl rfl rfl, h.2.log_destroyEmit _ hb (by omega) hz⟩
      split at e3
      · split at e3
        · simp only [Option.some.injEq] at e3
          subst e3
          exact h1
        · split at e3
          · cases e3
          · split at e3
            · cases e3
            · exact h1.after_destruct e3
      · exact h1.after_destruct e3
    · rename_i hz
      simp only [Option.some.injEq] at e3
      subst e3
      refine ⟨hc2, h.2.log_setBlock _ hb ?_⟩
      show decr blk.strong_cnt = 0 ↔ blk.strong_cnt = 0
      have hz' : ¬ decr blk.strong_cnt = 0 := hz
      constructor
      · intro h0; exact absurd h0 hz'
      · intro h0; omega

theorem release_eq (b : Nat) (s : Heap) :
    SharedPtr.release b s =
      (match weakInc b s with
      | none => none
      | some s1 =>
        match strongDec b s1 with
        | none => none
        | some s2 =>
          match destroyIfZero b s2 with
          | none => none
          | some s3 => WeakPtr.release b s3) := rfl

theorem Inv.strongRelease {s s' : Heap} {gs gw : List Nat} {k b : Nat}
    (h : Inv s (b :: gs) gw (k + 1)) (e : SharedPtr.release b s = some s') :
    Inv s' gs gw k := by
  rw [release_eq] at e
  cases e1 : SmartPtrs.weakInc b s with
  | none => simp [e1] at e
  | some s1 =>
    simp only [e1] at e
    cases e2 : SmartPtrs.strongDec b s1 with
    | none => simp [e2] at e
    | some s2 =>
      simp only [e2] at e
      cases e3 : SmartPtrs.destroyIfZero b s2 with
      | none => simp [e3] at e
      | some s3 =>
        simp only [e3] at e
        have h1 := h.after_weakInc e1
        have h3 := h1.strongDrop (List.mem_cons_self b gw) e2 e3
        exact h3.weakRelease e

theorem Inv.strongReleaseIf {s s' : Heap} {gs gw : List Nat} {k : Nat} {r : Option Nat}
    (h : Inv s (add r gs) gw (k + 1)) (e : SharedPtr.releaseIf r s = some s') :
    Inv s' gs gw k := by
  cases r with
  | none =>
    simp only [SharedPtr.releaseIf, Option.some.injEq] at e
    subst e
    exact h.mono (by omega)
  | some b => exact Inv.strongRelease h e


theorem strongIncIf_pushShared (r : Option Nat) (s : Heap) (h : SharedPtr) :
    strongIncIf r (s.pushShared h) = (strongIncIf r s).map (fun t => t.pushShared h) := by
  cases r with
  | none => rfl
  | some b =>
    simp only [strongIncIf, strongInc, block_pushShared]
    cases s.block b <;> rfl

theorem strongIncIf_setShared (r : Option Nat) (s : Heap) (i : Nat) (h : Option SharedPtr) :
    strongIncIf r (s.setShared i h) = (strongIncIf r s).map (fun t => t.setShared i h) := by
  cases r with
  | none => rfl
  | some b =>
    simp only [strongIncIf, strongInc, block_setShared]
    cases s.block b <;> rfl

theorem weakIncIf_pushWeak (r : Option Nat) (s : Heap) (h : WeakPtr) :
    weakIncIf r (s.pushWeak h) = (weakIncIf r s).map (fun t => t.pushWeak h) := by
  cases r with
  | none => rfl
  | some b =>
    simp only [weakIncIf, weakInc, block_pushWeak]
    cases s.block b <;> rfl

theorem weakIncIf_setWeak (r : Option Nat) (s : Heap) (w : Nat) (h : Option WeakPtr) :
    weakIncIf r (s.setWeak w h) = (weakIncIf r s).map (fun t => t.setWeak w h) := by
  cases r with
  | none => rfl
  | some b =>
    simp only [weakIncIf, weakInc, block_setWeak]
    cases s.block b <;> rfl

theorem sharedAt_strongIncIf {r : Option Nat} {s s' : Heap} (e : strongIncIf r s = some s')
    (i : Nat) : s'.sharedAt i = s.sharedAt i := by
  cases r with
  | none => simp only [strongIncIf, Option.some.injEq] at e; subst e; rfl
  | some b =>
    simp only [strongIncIf, strongInc] at e
    cases hb : s.block b with
    | none => simp [hb] at e
    | some blk => simp only [hb, Option.some.injEq] at e; subst e; rfl

theorem weakAt_weakIncIf {r : Option Nat} {s s' : Heap} (e : weakIncIf r s = some s')
    (w : Nat) : s'.weakAt w = s.weakAt w := by
  cases r with
  | none => simp only [weakIncIf, Option.some.injEq] at e; subst e; rfl
  | some b =>
    simp only [weakIncIf, weakInc] at e
    cases hb : s.block b with
    | none => simp [hb] at e
    | some blk => simp only [hb, Option.some.injEq] at e; subst e; rfl

theorem cntS_pos {s : Heap} {i b : Nat} {h : SharedPtr} (hi : s.sharedAt i = some h)
    (hb : h.block_ = some b) : 0 < cntS s b := by
  have := cntS_kill hi b
  simp only [hb, if_true] at this
  omega

theorem cntW_pos {s : Heap} {w b : Nat} {h : WeakPtr} (hw : s.weakAt w = some h)
    (hb : h.block_ = some b) : 0 < cntW s b := by
  have := cntW_kill hw b
  simp only [hb, if_true] at this
  omega

theorem Inv.pushSharedInc {s s' : Heap} {k : Nat} (h : SharedPtr) (hi : Inv s [] [] (k + 2))
    (hpos : ∀ b, h.block_ = some b → 0 < cntS s b)
    (e : strongIncIf h.block_ (s.pushShared h) = some s') : Inv s' [] [] k := by
  rw [strongIncIf_pushShared] at e
  cases e0 : strongIncIf h.block_ s with
  | none => simp [e0] at e
  | some s0 =>
    simp only [e0, Option.map_some', Option.some.injEq] at e
    subst e
    have h0 : Inv s0 (add h.block_ []) [] (k + 1) :=
      hi.after_strongIncIf (fun b hb => by have := hpos b hb; omega) e0
    exact h0.pushShared h

theorem Inv.setSharedInc {s s' : Heap} {k i : Nat} {old : SharedPtr} (new : SharedPtr)
    (hi : Inv s [] [] (k + 2)) (ho : s.sharedAt i = some old)
    (hpos : ∀ b, new.block_ = some b → 0 < cntS s b)
    (e : strongIncIf new.block_ (s.setShared i (some new)) = some s') :
    Inv s' (add old.block_ []) [] k := by
  rw [strongIncIf_setShared] at e
  cases e0 : strongIncIf new.block_ s with
  | none => simp [e0] at e
  | some s0 =>
    simp only [e0, Option.map_some', Option.some.injEq] at e
    subst e
    have h0 : Inv s0 (add new.block_ []) [] (k + 1) :=
      hi.after_strongIncIf (fun b hb => by have := hpos b hb; omega) e0
    exact h0.setShared new ((sharedAt_strongIncIf e0 i).trans ho)

theorem Inv.pushWeakInc {s s' : Heap} {k : Nat} (h : WeakPtr) (hi : Inv s [] [] (k + 2))
    (e : weakIncIf h.block_ (s.pushWeak h) = some s') : Inv s' [] [] k := by
  rw [weakIncIf_pushWeak] at e
  cases e0 : weakIncIf h.block_ s with
  | none => simp [e0] at e
  | some s0 =>
    simp only [e0, Option.map_some', Option.some.injEq] at e
    subst e
    have h0 : Inv s0 [] (add h.block_ []) (k + 1) := hi.after_weakIncIf e0
    exact h0.pushWeak h

theorem Inv.setWeakInc {s s' : Heap} {k w : Nat} {old : WeakPtr} (new : WeakPtr)
    (hi : Inv s [] [] (k + 2)) (ho : s.weakAt w = some old)
    (e : weakIncIf new.block_ (s.setWeak w (some new)) = some s') :
    Inv s' [] (add old.block_ []) k := by
  rw [weakIncIf_setWeak] at e
  cases e0 : weakIncIf new.block_ s with
  | none => simp [e0] at e
  | some s0 =>
    simp only [e0, Option.map_some', Option.some.injEq] at e
    subst e
    have h0 : Inv s0 [] (add new.block_ []) (k + 1) := hi.after_weakIncIf e0
    exact h0.setWeak new ((weakAt_weakIncIf e0 w).trans ho)

theorem sharedAt_setShared {s : Heap} {i : Nat} {old : SharedPtr} (hi : s.sharedAt i = some old)
    (v : Option SharedPtr) (j : Nat) :
    (s.setShared i v).sharedAt j = if j = i then v else s.sharedAt j := by
  have hlt := sharedAt_lt hi
  unfold Heap.sharedAt Heap.setShared
  simp only [List.getD_eq_getElem?_getD, List.getElem?_set]
  by_cases hb : i = j
  · subst hb; cases v <;> simp [hlt]
  · have : ¬ j = i := fun e => hb e.symm
    simp [hb, this]

theorem weakAt_setWeak {s : Heap} {w : Nat} {old : WeakPtr} (hw : s.weakAt w = some old)
    (v : Option WeakPtr) (j : Nat) :
    (s.setWeak w v).weakAt j = if j = w then v else s.weakAt j := by
  have hlt := weakAt_lt hw
  unfold Heap.weakAt Heap.setWeak
  simp only [List.getD_eq_getElem?_getD, List.getElem?_set]
  by_cases hb : w = j
  · subst hb; cases v <;> simp [hlt]
  · have : ¬ j = w := fun e => hb e.symm
    simp [hb, this]

theorem sharedAt_pushShared (s : Heap) (h : SharedPtr) (j : Nat) :
    (s.pushShared h).sharedAt j = if j = s.shared.length then some h else s.sharedAt j := by
  unfold Heap.sharedAt Heap.pushShared
  simp only [List.getD_eq_getElem?_getD]
  by_cases hb : j = s.shared.length
  · subst hb; simp
  · rcases Nat.lt_or_gt_of_ne hb with h1 | h1
    · simp [hb, List.getElem?_append_left h1]
    · rw [List.getElem?_eq_none (by simp; omega), List.getElem?_eq_none (by omega)]
      simp [hb]

theorem weakAt_pushWeak (s : Heap) (h : WeakPtr) (j : Nat) :
    (s.pushWeak h).weakAt j = if j = s.weak.length then some h else s.weakAt j := by
  unfold Heap.weakAt Heap.pushWeak
  simp only [List.getD_eq_getElem?_getD]
  by_cases hb : j = s.weak.length
  · subst hb; simp
  · rcases Nat.lt_or_gt_of_ne hb with h1 | h1
    · simp [hb, List.getElem?_append_left h1]
    · rw [List.getElem?_eq_none (by simp; omega), List.getElem?_eq_none (by omega)]
      simp [hb]


theorem Cnt.cnt_of_counts {s s' : Heap} {gs gw : List Nat} {k : Nat} (h : Cnt s gs gw k)
    (hb : s'.blocks = s.blocks) (hS : ∀ b, cntS s' b = cntS s b)
    (hW : ∀ b, cntW s' b = cntW s b) (hL : live s' = live s) : Cnt s' gs gw k := by
  have hblock : ∀ b, s'.block b = s.block b := by
    intro b; unfold Heap.block; rw [hb]
  refine ⟨?_, ?_, ?_, ?_, ?_⟩
  · intro b blk h'
    rw [hblock] at h'
    rw [hS]
    exact h.strong b blk h'
  · intro b blk h'
    rw [hblock] at h'
    rw [hW]
    exact h.weak b blk h'
  · intro b h'
    rw [hblock] at h'
    rw [hS, hW]
    exact h.dead b h'
  · intro b blk h'
    rw [hblock] at h'
    exact h.used b blk h'
  · rw [hL]
    exact h.room

theorem Inv.op_weak_ctor {s s' : Heap} {k : Nat} (h : Inv s [] [] (k + 1))
    (e : WeakPtr.ctor s = some s') : Inv s' [] [] k := by
  simp only [WeakPtr.ctor, Option.some.injEq] at e
  subst e
  exact Inv.pushWeak ⟨none, 0⟩ h

theorem Inv.op_weak_ctorCopy {s s' : Heap} {k w : Nat} (h : Inv s [] [] (k + 2))
    (e : WeakPtr.ctorCopy w s = some s') : Inv s' [] [] k := by
  unfold WeakPtr.ctorCopy at e
  split at e
  · cases e
  · exact Inv.pushWeakInc ⟨_, _⟩ h e

theorem Inv.op_weak_ctorCopyFrom {s s' : Heap} {k w : Nat} (h : Inv s [] [] (k + 2))
    (e : WeakPtr.ctorCopyFrom w s = some s') : Inv s' [] [] k := by
  unfold WeakPtr.ctorCopyFrom at e
  split at e
  · cases e
  · exact Inv.pushWeakInc ⟨_, _⟩ h e

theorem Inv.op_weak_ctorDemote {s s' : Heap} {k i : Nat} (h : Inv s [] [] (k + 2))
    (e : WeakPtr.ctorDemote i s = some s') : Inv s' [] [] k := by
  unfold WeakPtr.ctorDemote at e
  split at e
  · cases e
  · exact Inv.pushWeakInc ⟨_, _⟩ h e

theorem Inv.op_weak_Reset {s s' : Heap} {k w : Nat} (h : Inv s [] [] (k + 1))
    (e : WeakPtr.Reset w s = some s') : Inv s' [] [] k := by
  unfold WeakPtr.Reset at e
  split at e
  · cases e
  · rename_i old hw
    exact Inv.weakReleaseIf (Inv.setWeak ⟨none, 0⟩ hw h) e

theorem Inv.op_weak_ctorMoveFrom {s s' : Heap} {k w : Nat} (h : Inv s [] [] (k + 3))
    (e : WeakPtr.ctorMoveFrom w s = some s') : Inv s' [] [] k := by
  unfold WeakPtr.ctorMoveFrom at e
  split at e
  · cases e
  · split at e
    · cases e
    · rename_i s1 e1
      have h1 : Inv s1 [] [] (k + 1) := Inv.pushWeakInc ⟨_, _⟩ h e1
      exact h1.op_weak_Reset e

theorem Inv.op_weak_dtor {s s' : Heap} {k w : Nat} (h : Inv s [] [] k)
    (e : WeakPtr.dtor w s = some s') : Inv s' [] [] k := h.weakDtor e

theorem setWeak_comm (s : Heap) {w o : Nat} (hne : w ≠ o) (x y : Option WeakPtr) :
    (s.setWeak w x).setWeak o y = (s.setWeak o y).setWeak w x := by
  simp only [Heap.setWeak]
  rw [List.set_comm _ _ _ hne]

theorem setShared_comm (s : Heap) {i j : Nat} (hne : i ≠ j) (x y : Option SharedPtr) :
    (s.setShared i x).setShared j y = (s.setShared j y).setShared i x := by
  simp only [Heap.setShared]
  rw [List.set_comm _ _ _ hne]

theorem Inv.op_weak_ctorMove {s s' : Heap} {k w : Nat} (h : Inv s [] [] (k + 2))
    (e : WeakPtr.ctorMove w s = some s') : Inv s' [] [] k := by
  unfold WeakPtr.ctorMove at e
  split at e
  · cases e
  · rename_i other hw
    simp only [Option.some.injEq] at e
    subst e
    have hlt := weakAt_lt hw
    have hc : (s.pushWeak ⟨other.block_, other.ptr_⟩).setWeak w (some ⟨none, 0⟩)
        = (s.setWeak w (some ⟨none, 0⟩)).pushWeak ⟨other.block_, other.ptr_⟩ := by
      simp only [Heap.pushWeak, Heap.setWeak]
      rw [List.set_append_left _ _ hlt]
    rw [hc]
    have h1 : Inv (s.setWeak w (some ⟨none, 0⟩)) [] (add other.block_ []) (k + 1) :=
      Inv.setWeak ⟨none, 0⟩ hw h
    exact Inv.pushWeak ⟨other.block_, other.ptr_⟩ h1

theorem Inv.op_weak_assign {s s' : Heap} {k w o : Nat} (h : Inv s [] [] (k + 2))
    (e : WeakPtr.assign w o s = some s') : Inv s' [] [] k := by
  unfold WeakPtr.assign at e
  split at e
  · rename_i self other hw ho
    split at e
    · simp only [Option.some.injEq] at e
      subst e
      exact h.mono (by omega)
    · split at e
      · cases e
      · rename_i s1 e1
        have h1 : Inv s1 [] (add self.block_ []) k :=
          Inv.setWeakInc ⟨other.block_, other.ptr_⟩ h hw e1
        exact Inv.weakReleaseIf h1 e
  · cases e

theorem Inv.op_weak_assignMove {s s' : Heap} {k w o : Nat} (h : Inv s [] [] (k + 2))
    (e : WeakPtr.assignMove w o s = some s') : Inv s' [] [] k := by
  unfold WeakPtr.assignMove at e
  split at e
  · rename_i self other hw ho
    split at e
    · simp only [Option.some.injEq] at e
      subst e
      exact h.mono (by omega)
    · rename_i hne
      rw [setWeak_comm s hne] at e
      have h1 : Inv (s.setWeak o (some ⟨none, 0⟩)) [] (add other.block_ []) (k + 1) :=
        Inv.setWeak ⟨none, 0⟩ ho h
      have hw1 : (s.setWeak o (some ⟨none, 0⟩)).weakAt w = some self := by
        rw [weakAt_setWeak ho, if_neg hne]; exact hw
      have h2 := Inv.setWeak ⟨other.block_, other.ptr_⟩ hw1 h1
      exact Inv.weakReleaseIf h2 e
  · cases e

theorem cntW_swap {s : Heap} {w o : Nat} {self other : WeakPtr} (hw : s.weakAt w = some self)
    (ho : s.weakAt o = some other) (b : Nat) :
    cntW ((s.setWeak w (some ⟨other.block_, other.ptr_⟩)).setWeak o
      (some ⟨self.block_, self.ptr_⟩)) b = cntW s b := by
  have h1 := cntW_setWeak hw ⟨other.block_, other.ptr_⟩ b
  have ho1 := weakAt_setWeak hw (some ⟨other.block_, other.ptr_⟩) o
  by_cases hne : o = w
  · subst hne
    rw [if_pos rfl] at ho1
    have h2 := cntW_setWeak ho1 ⟨self.block_, self.ptr_⟩ b
    rw [hw] at ho
    cases ho
    simp only at h1 h2
    omega
  · rw [if_neg hne, ho] at ho1
    have h2 := cntW_setWeak ho1 ⟨self.block_, self.ptr_⟩ b
    simp only at h1 h2
    omega

theorem live_swapWeak {s : Heap} {w o : Nat} {self other : WeakPtr}
    (hw : s.weakAt w = some self) (ho : s.weakAt o = some other) (x y : WeakPtr) :
    live ((s.setWeak w (some x)).setWeak o (some y)) = live s := by
  have ho1 := weakAt_setWeak hw (some x) o
  by_cases hne : o = w
  · subst hne
    rw [if_pos rfl] at ho1
    rw [live_setWeak ho1, live_setWeak hw]
  · rw [if_neg hne, ho] at ho1
    rw [live_setWeak ho1, live_setWeak hw]

theorem Inv.op_weak_Swap {s s' : Heap} {k w o : Nat} (h : Inv s [] [] k)
    (e : WeakPtr.Swap w o s = some s') : Inv s' [] [] k := by
  unfold WeakPtr.Swap at e
  split at e
  · rename_i self other hw ho
    split at e
    · simp only [Option.some.injEq] at e
      subst e
      exact h
    · simp only [Option.some.injEq] at e
      subst e
      exact ⟨h.1.cnt_of_counts rfl (fun b => rfl) (cntW_swap hw ho) (live_swapWeak hw ho _ _),
        h.2.log_of_eq rfl rfl⟩
  · cases e


theorem Inv.op_InitWeakThis {s s' : Heap} {k i : Nat} (h : Inv s [] [] (k + 4))
    (e : InitWeakThis i s = some s') : Inv s' [] [] k := by
  unfold InitWeakThis at e
  split at e
  · cases e
  · split at e
    · cases e
    · rename_i s1 e1
      have h1 : Inv s1 [] [] (k + 2) := h.op_weak_ctorDemote e1
      simp only at e
      split at e
      · cases e
      · split at e
        · split at e
          · cases e
          · split at e
            · cases e
            · rename_i s2 e2
              have h2 : Inv s2 [] [] k := h1.op_weak_assignMove e2
              exact h2.op_weak_dtor e
        · cases e

theorem Inv.op_ESFT {s s' : Heap} {k i : Nat} {cap : Bool} (h : Inv s [] [] (k + 4))
    (e : ESFT cap i s = some s') : Inv s' [] [] k := by
  unfold ESFT at e
  split at e
  · exact h.op_InitWeakThis e
  · simp only [Option.some.injEq] at e
    subst e
    exact h.mono (by omega)

theorem Inv.op_newObject {s : Heap} {k : Nat} (cap emplaced : Bool) (h : Inv s [] [] (k + 1)) :
    Inv (newObject cap emplaced s).1 [] [] k := by
  unfold newObject
  cases cap with
  | true =>
    simp only [if_true]
    have h1 : Inv (s.pushWeak ⟨none, 0⟩) [] [] k := Inv.pushWeak ⟨none, 0⟩ h
    exact ⟨h1.1.cnt_of_eq rfl rfl rfl, h1.2.log_of_eq rfl rfl⟩
  | false =>
    simp only [Bool.false_eq_true, if_false]
    exact ⟨(h.1.cnt_mono (Nat.le_succ k)).cnt_of_eq rfl rfl rfl, h.2.log_of_eq rfl rfl⟩

theorem Inv.op_ctor {s s' : Heap} {k : Nat} {cap : Bool} (h : Inv s [] [] (k + 5))
    (e : SharedPtr.ctor cap s = some s') : Inv s' [] [] k := by
  unfold SharedPtr.ctor at e
  have h1 : Inv (s.pushShared ⟨none, 0⟩) [] [] (k + 4) := Inv.pushShared ⟨none, 0⟩ h
  exact h1.op_ESFT e

theorem Inv.op_ctorPtr {s s' : Heap} {k ptr : Nat} {cap : Bool} (h : Inv s [] [] (k + 6))
    (e : SharedPtr.ctorPtr cap ptr s = some s') : Inv s' [] [] k := by
  unfold SharedPtr.ctorPtr at e
  simp only at e
  have h1 := Inv.newBlock (Derived.ControlBlockPointer ptr) h
  have h2 : Inv ((s.newBlock ⟨1, 0, Derived.ControlBlockPointer ptr⟩).pushShared
      ⟨some s.blocks.length, ptr⟩) [] [] (k + 4) := Inv.pushShared ⟨some s.blocks.length, ptr⟩ h1
  exact h2.op_ESFT e

theorem Inv.op_MakeShared {s s' : Heap} {k : Nat} {cap : Bool} (h : Inv s [] [] (k + 7))
    (e : MakeShared cap s = some s') : Inv s' [] [] k := by
  unfold MakeShared at e
  simp only at e
  have h1 : Inv (newObject cap true s).1 [] [] (k + 6) := Inv.op_newObject cap true h
  have h2 := Inv.newBlock (Derived.ControlBlockEmplace (newObject cap true s).2) h1
  unfold SharedPtr.ctorEmplace at e
  have h3 := Inv.pushShared ⟨some (newObject cap true s).1.blocks.length,
    (newObject cap true s).2⟩ h2
  exact h3.op_ESFT e

theorem Inv.op_ctorCopy {s s' : Heap} {k i : Nat} {cap : Bool} (h : Inv s [] [] (k + 6))
    (e : SharedPtr.ctorCopy cap i s = some s') : Inv s' [] [] k := by
  unfold SharedPtr.ctorCopy at e
  split at e
  · cases e
  · rename_i other hi
    split at e
    · cases e
    · rename_i s1 e1
      have h1 : Inv s1 [] [] (k + 4) :=
        Inv.pushSharedInc ⟨other.block_, other.ptr_⟩ h (fun b hb => cntS_pos hi hb) e1
      exact h1.op_ESFT e

theorem Inv.op_ctorCopyFrom {s s' : Heap} {k i : Nat} {cap : Bool} (h : Inv s [] [] (k + 6))
    (e : SharedPtr.ctorCopyFrom cap i s = some s') : Inv s' [] [] k := by
  unfold SharedPtr.ctorCopyFrom at e
  split at e
  · cases e
  · rename_i other hi
    split at e
    · cases e
    · rename_i s1 e1
      have h1 : Inv s1 [] [] (k + 4) :=
        Inv.pushSharedInc ⟨other.GetBlock, other.Get⟩ h (fun b hb => cntS_pos hi hb) e1
      exact h1.op_ESFT e

theorem Inv.op_ctorAlias {s s' : Heap} {k i ptr : Nat} {cap : Bool} (h : Inv s [] [] (k + 6))
    (e : SharedPtr.ctorAlias cap i ptr s = some s') : Inv s' [] [] k := by
  unfold SharedPtr.ctorAlias at e
  split at e
  · cases e
  · rename_i other hi
    split at e
    · cases e
    · rename_i s1 e1
      have h1 : Inv s1 [] [] (k + 4) :=
        Inv.pushSharedInc ⟨other.GetBlock, ptr⟩ h (fun b hb => cntS_pos hi hb) e1
      exact h1.op_ESFT e

theorem Inv.op_ctorMove {s s' : Heap} {k i : Nat} {cap : Bool} (h : Inv s [] [] (k + 6))
    (e : SharedPtr.ctorMove cap i s = some s') : Inv s' [] [] k := by
  unfold SharedPtr.ctorMove at e
  split at e
  · cases e
  · rename_i other hi
    have hlt := sharedAt_lt hi
    have hc : (s.pushShared ⟨other.block_, other.ptr_⟩).setShared i (some ⟨none, 0⟩)
        = (s.setShared i (some ⟨none, 0⟩)).pushShared ⟨other.block_, other.ptr_⟩ := by
      simp only [Heap.pushShared, Heap.setShared]
      rw [List.set_append_left _ _ hlt]
    rw [hc] at e
    have h1 : Inv (s.setShared i (some ⟨none, 0⟩)) (add other.block_ []) [] (k + 5) :=
      Inv.setShared ⟨none, 0⟩ hi h
    have h2 := Inv.pushShared ⟨other.block_, other.ptr_⟩ h1
    exact h2.op_ESFT e

theorem Inv.op_Reset {s s' : Heap} {k i : Nat} (h : Inv s [] [] (k + 2))
    (e : SharedPtr.Reset i s = some s') : Inv s' [] [] k := by
  unfold SharedPtr.Reset at e
  split at e
  · cases e
  · rename_i old hi
    exact Inv.strongReleaseIf (Inv.setShared ⟨none, 0⟩ hi h) e

theorem Inv.op_ctorMoveFrom {s s' : Heap} {k i : Nat} {cap : Bool} (h : Inv s [] [] (k + 8))
    (e : SharedPtr.ctorMoveFrom cap i s = some s') : Inv s' [] [] k := by
  unfold SharedPtr.ctorMoveFrom at e
  split at e
  · cases e
  · rename_i other hi
    split at e
    · cases e
    · rename_i s1 e1
      have h1 : Inv s1 [] [] (k + 6) :=
        Inv.pushSharedInc ⟨other.GetBlock, other.Get⟩ h (fun b hb => cntS_pos hi hb) e1
      split at e
      · cases e
      · rename_i s2 e2
        have h2 : Inv s2 [] [] (k + 4) := h1.op_Reset e2
        exact h2.op_ESFT e

theorem Inv.op_dtor {s s' : Heap} {k i : Nat} (h : Inv s [] [] (k + 1))
    (e : SharedPtr.dtor i s = some s') : Inv s' [] [] k := by
  unfold SharedPtr.dtor at e
  split at e
  · cases e
  · rename_i old hi
    exact Inv.strongReleaseIf (h.killShared hi) e

theorem Inv.op_assign {s s' : Heap} {k i j : Nat} (h : Inv s [] [] (k + 3))
    (e : SharedPtr.assign i j s = some s') : Inv s' [] [] k := by
  unfold SharedPtr.assign at e
  split at e
  · rename_i self other hi hj
    split at e
    · simp only [Option.some.injEq] at e
      subst e
      exact h.mono (by omega)
    · split at e
      · cases e
      · rename_i s1 e1
        have h1 : Inv s1 (add self.block_ []) [] (k + 1) :=
          Inv.setSharedInc ⟨other.block_, other.ptr_⟩ h hi
            (fun b hb => cntS_pos hj hb) e1
        exact Inv.strongReleaseIf h1 e
  · cases e

theorem Inv.op_assignMove {s s' : Heap} {k i j : Nat} (h : Inv s [] [] (k + 3))
    (e : SharedPtr.assignMove i j s = some s') : Inv s' [] [] k := by
  unfold SharedPtr.assignMove at e
  split at e
  · rename_i self other hi hj
    split at e
    · simp only [Option.some.injEq] at e
      subst e
      exact h.mono (by omega)
    · rename_i hne
      rw [setShared_comm s hne] at e
      have h1 : Inv (s.setShared j (some ⟨none, 0⟩)) (add other.block_ []) [] (k + 2) :=
        Inv.setShared ⟨none, 0⟩ hj h
      have hi1 : (s.setShared j (some ⟨none, 0⟩)).sharedAt i = some self := by
        rw [sharedAt_setShared hj, if_neg hne]; exact hi
      have h2 := Inv.setShared ⟨other.block_, other.ptr_⟩ hi1 h1
      exact Inv.strongReleaseIf h2 e
  · cases e

theorem Inv.op_ResetPtr {s s' : Heap} {k i ptr : Nat} (h : Inv s [] [] (k + 3))
    (e : SharedPtr.ResetPtr i ptr s = some s') : Inv s' [] [] k := by
  unfold SharedPtr.ResetPtr at e
  split at e
  · cases e
  · rename_i self hi
    split at e
    · simp only [Option.some.injEq] at e
      subst e
      exact h.mono (by omega)
    · simp only at e
      have h1 := Inv.newBlock (Derived.ControlBlockPointer ptr) h
      have hi1 : (s.newBlock ⟨1, 0, Derived.ControlBlockPointer ptr⟩).sharedAt i = some self :=
        hi
      have h2 := Inv.setShared ⟨some s.blocks.length, ptr⟩ hi1 h1
      exact Inv.strongReleaseIf h2 e

theorem cntS_swap {s : Heap} {i j : Nat} {self other : SharedPtr}
    (hi : s.sharedAt i = some self) (hj : s.sharedAt j = some other) (b : Nat) :
    cntS ((s.setShared i (some ⟨other.block_, other.ptr_⟩)).setShared j
      (some ⟨self.block_, self.ptr_⟩)) b = cntS s b := by
  have h1 := cntS_setShared hi ⟨other.block_, other.ptr_⟩ b
  have ho1 := sharedAt_setShared hi (some ⟨other.block_, other.ptr_⟩) j
  by_cases hne : j = i
  · subst hne
    rw [if_pos rfl] at ho1
    have h2 := cntS_setShared ho1 ⟨self.block_, self.ptr_⟩ b
    rw [hi] at hj
    cases hj
    simp only at h1 h2
    omega
  · rw [if_neg hne, hj] at ho1
    have h2 := cntS_setShared ho1 ⟨self.block_, self.ptr_⟩ b
    simp only at h1 h2
    omega

theorem live_swapShared {s : Heap} {i j : Nat} {self other : SharedPtr}
    (hi : s.sharedAt i = some self) (hj : s.sharedAt j = some other) (x y : SharedPtr) :
    live ((s.setShared i (some x)).setShared j (some y)) = live s := by
  have ho1 := sharedAt_setShared hi (some x) j
  by_cases hne : j = i
  · subst hne
    rw [if_pos rfl] at ho1
    rw [live_setShared ho1, live_setShared hi]
  · rw [if_neg hne, hj] at ho1
    rw [live_setShared ho1, live_setShared hi]

theorem Inv.op_Swap {s s' : Heap} {k i j : Nat} (h : Inv s [] [] k)
    (e : SharedPtr.Swap i j s = some s') : Inv s' [] [] k := by
  unfold SharedPtr.Swap at e
  split at e
  · rename_i self other hi hj
    simp only [Option.some.injEq] at e
    subst e
    exact ⟨h.1.cnt_of_counts rfl (cntS_swap hi hj) (fun b => rfl) (live_swapShared hi hj _ _),
      h.2.log_of_eq rfl rfl⟩
  · cases e


theorem expired_false {h : WeakPtr} {s : Heap} (e : h.Expired s = some false) :
    ∃ b blk, h.block_ = some b ∧ s.block b = some blk ∧ blk.strong_cnt ≠ 0 := by
  unfold WeakPtr.Expired at e
  split at e
  · cases e
  · rename_i b hb
    split at e
    · cases e
    · rename_i blk hblk
      split at e
      · cases e
      · rename_i hz
        exact ⟨b, blk, hb, hblk, hz⟩

theorem heap_ofOption (o : Option Heap) : (Result.ofOption o).heap = o := by
  cases o <;> rfl

theorem Inv.op_ctorPromote {s s' : Heap} {k w : Nat} {cap : Bool} (h : Inv s [] [] (k + 6))
    (e : (SharedPtr.ctorPromote cap w s).heap = some s') : Inv s' [] [] k := by
  unfold SharedPtr.ctorPromote at e
  split at e
  · cases e
  · rename_i other hw
    split at e
    · cases e
    · simp only [Result.heap, Option.some.injEq] at e
      subst e
      exact h.mono (by omega)
    · rename_i hexp
      obtain ⟨b, blk, hb, hblk, hz⟩ := expired_false hexp
      split at e
      · cases e
      · rename_i s1 e1
        rw [heap_ofOption] at e
        have hs := h.1.strong b blk hblk
        simp only [List.count_nil, Nat.add_zero] at hs
        have h1 : Inv s1 [] [] (k + 4) :=
          Inv.pushSharedInc ⟨other.GetBlock, other.Get⟩ h
            (fun c hc => by
              have hc' : other.block_ = some c := hc
              rw [hb] at hc'
              cases hc'
              omega) e1
        exact h1.op_ESFT e

theorem Inv.op_Lock {s s' : Heap} {k w : Nat} {cap : Bool} (h : Inv s [] [] (k + 6))
    (e : (WeakPtr.Lock cap w s).heap = some s') : Inv s' [] [] k := by
  unfold WeakPtr.Lock at e
  split at e
  · cases e
  · split at e
    · cases e
    · exact h.op_ctorPromote e
    · rw [heap_ofOption] at e
      exact Inv.op_ctor (h.mono (by omega)) e

theorem Inv.op_SharedFromThis {s s' : Heap} {k a : Nat} (h : Inv s [] [] (k + 6))
    (e : (SharedFromThis a s).heap = some s') : Inv s' [] [] k := by
  unfold SharedFromThis at e
  split at e
  · cases e
  · split at e
    · split at e
      · cases e
      · exact h.op_Lock e
    · cases e

theorem Inv.op_WeakFromThis {s s' : Heap} {k a : Nat} (h : Inv s [] [] (k + 2))
    (e : WeakFromThis a s = some s') : Inv s' [] [] k := by
  unfold WeakFromThis at e
  split at e
  · cases e
  · split at e
    · split at e
      · cases e
      · exact h.op_weak_ctorCopy e
    · cases e

theorem Inv.op_step {s s' : Heap} {k : Nat} (op : Op) (h : Inv s [] [] (k + 8))
    (e : (step op s).heap = some s') : Inv s' [] [] k := by
  cases op <;> simp only [step, heap_ofOption] at e
  case newObject cap =>
    simp only [Result.heap, Option.some.injEq] at e
    subst e
    exact Inv.op_newObject cap false (h.mono (by omega))
  case MakeShared cap => exact Inv.op_MakeShared (h.mono (by omega)) e
  case SharedPtr_ctor cap => exact Inv.op_ctor (h.mono (by omega)) e
  case SharedPtr_ctorPtr cap ptr => exact Inv.op_ctorPtr (h.mono (by omega)) e
  case SharedPtr_ctorCopy cap i => exact Inv.op_ctorCopy (h.mono (by omega)) e
  case SharedPtr_ctorMove cap i => exact Inv.op_ctorMove (h.mono (by omega)) e
  case SharedPtr_ctorCopyFrom cap i => exact Inv.op_ctorCopyFrom (h.mono (by omega)) e
  case SharedPtr_ctorMoveFrom cap i => exact Inv.op_ctorMoveFrom (h.mono (by omega)) e
  case SharedPtr_ctorAlias cap i ptr => exact Inv.op_ctorAlias (h.mono (by omega)) e
  case SharedPtr_ctorPromote cap w => exact Inv.op_ctorPromote (h.mono (by omega)) e
  case SharedPtr_assign i j => exact Inv.op_assign (h.mono (by omega)) e
  case SharedPtr_assignMove i j => exact Inv.op_assignMove (h.mono (by omega)) e
  case SharedPtr_dtor i => exact Inv.op_dtor (h.mono (by omega)) e
  case SharedPtr_Reset i => exact Inv.op_Reset (h.mono (by omega)) e
  case SharedPtr_ResetPtr i ptr => exact Inv.op_ResetPtr (h.mono (by omega)) e
  case SharedPtr_Swap i j => exact Inv.op_Swap (h.mono (by omega)) e
  case WeakPtr_ctor => exact Inv.op_weak_ctor (h.mono (by omega)) e
  case WeakPtr_ctorCopy w => exact Inv.op_weak_ctorCopy (h.mono (by omega)) e
  case WeakPtr_ctorMove w => exact Inv.op_weak_ctorMove (h.mono (by omega)) e
  case WeakPtr_ctorCopyFrom w => exact Inv.op_weak_ctorCopyFrom (h.mono (by omega)) e
  case WeakPtr_ctorMoveFrom w => exact Inv.op_weak_ctorMoveFrom (h.mono (by omega)) e
  case WeakPtr_ctorDemote i => exact Inv.op_weak_ctorDemote (h.mono (by omega)) e
  case WeakPtr_assign w o => exact Inv.op_weak_assign (h.mono (by omega)) e
  case WeakPtr_assignMove w o => exact Inv.op_weak_assignMove (h.mono (by omega)) e
  case WeakPtr_dtor w => exact Inv.op_weak_dtor (h.mono (by omega)) e
  case WeakPtr_Reset w => exact Inv.op_weak_Reset (h.mono (by omega)) e
  case WeakPtr_Swap w o => exact Inv.op_weak_Swap (h.mono (by omega)) e
  case WeakPtr_Lock cap w => exact Inv.op_Lock (h.mono (by omega)) e
  case SharedFromThis a => exact Inv.op_SharedFromThis (h.mono (by omega)) e
  case WeakFromThis a => exact Inv.op_WeakFromThis (h.mono (by omega)) e

/-- The invariant at the boundary between two calls: no operation is running. -/
def Valid (s : Heap) : Prop := Inv s [] [] 8

theorem Valid.refit {s : Heap} {k : Nat} (h : Inv s [] [] k) (hf : Fits s) : Valid s := by
  refine ⟨⟨h.1.strong, h.1.weak, h.1.dead, h.1.used, ?_⟩, h.2⟩
  unfold Fits at hf
  simp only [List.length_nil, Nat.add_zero]
  unfold SIZE_MOD at hf ⊢
  omega

theorem Valid.empty : Valid Heap.empty := by
  refine ⟨⟨?_, ?_, ?_, ?_, ?_⟩, ⟨?_, ?_, ?_, ?_, ?_, ?_⟩⟩
  · intro b blk h; simp [Heap.block, Heap.empty] at h
  · intro b blk h; simp [Heap.block, Heap.empty] at h
  · intro b _; simp [cntS, cntW, Heap.empty]
  · intro b blk h; simp [Heap.block, Heap.empty] at h
  · simp [live, Heap.empty, SIZE_MOD]
  · intro b blk h; simp [Heap.block, Heap.empty] at h
  · intro b; simp [Heap.empty]
  · intro b h; simp [Heap.empty] at h
  · intro b; simp [Heap.empty]
  · intro b _; simp [Heap.empty]
  · intro b l1 l2 h
    simp [Heap.empty] at h

theorem Valid.exec {ops : List Op} {s s' : Heap} (h : Valid s) (e : exec ops s = some s') :
    Valid s' := by
  induction ops generalizing s with
  | nil =>
    simp only [SmartPtrs.exec, Option.some.injEq] at e
    subst e
    exact h
  | cons op ops ih =>
    simp only [SmartPtrs.exec] at e
    split at e
    · rename_i s1 hs
      split at e
      · rename_i hf
        exact ih (Valid.refit (Inv.op_step op h hs) hf) e
      · cases e
    · cases e


/-- A short program: a self-referencing object is created by `MakeShared`, its handle is
copied and demoted, and the first strong handle is destroyed. -/
def sampleRun : List Op :=
  [Op.MakeShared true, Op.SharedPtr_ctorCopy true 0, Op.WeakPtr_ctorDemote 0, Op.SharedPtr_dtor 0]

/-- The state `sampleRun` ends in. -/
def sampleHeap : Heap :=
  { blocks := [some ⟨1, 2, Derived.ControlBlockEmplace 1⟩],
    objects := [⟨true, true, some 0⟩],
    shared := [none, some ⟨some 0, 1⟩],
    weak := [some ⟨some 0, 1⟩, none, none, some ⟨some 0, 1⟩],
    log := [] }

/-- C1. Count invariant: in every state a program of handle operations reaches from the
empty state, each control block that has not been freed has `strong_cnt` equal to the
number of live `SharedPtr` handles whose `block_` it is, and `weak_cnt` equal to the
number of live `WeakPtr` handles whose `block_` it is, the `weak_this_` members of live
objects included. -/
theorem count_invariant (ops : List Op) (s : Heap) (h : exec ops Heap.empty = some s)
    (b : Nat) (blk : ControlBlockBase) (hb : s.block b = some blk) :
    blk.strong_cnt = cntS s b ∧ blk.weak_cnt = cntW s b := by
  have hv : Valid s := Valid.empty.exec h
  have h1 := hv.1.strong b blk hb
  have h2 := hv.1.weak b blk hb
  simp only [List.count_nil, Nat.add_zero] at h1 h2
  exact ⟨h1, h2⟩

theorem count_invariant_witness :
    exec sampleRun Heap.empty = some sampleHeap ∧
      sampleHeap.block 0 = some ⟨1, 2, Derived.ControlBlockEmplace 1⟩ ∧
      (1 = cntS sampleHeap 0 ∧ 2 = cntW sampleHeap 0) :=
  ⟨by decide, by decide,
    count_invariant sampleRun sampleHeap (by decide) 0 ⟨1, 2, Derived.ControlBlockEmplace 1⟩
      (by decide)⟩


/-- The number of calls of `Destroy()` on block `b` so far. -/
def destroys (s : Heap) (b : Nat) : Nat := s.log.count (Event.Destroy b)

/-- The number of `delete` statements executed on block `b` so far. -/
def deletes (s : Heap) (b : Nat) : Nat := s.log.count (Event.Delete b)

theorem log_weakInc {s s' : Heap} {b : Nat} (e : weakInc b s = some s') : s'.log = s.log := by
  unfold weakInc at e
  split at e
  · cases e
  · simp only [Option.some.injEq] at e
    subst e
    rfl

theorem log_strongDec {s s' : Heap} {b : Nat} (e : strongDec b s = some s') :
    s'.log = s.log := by
  unfold strongDec at e
  split at e
  · cases e
  · simp only [Option.some.injEq] at e
    subst e
    rfl

theorem log_strongInc {s s' : Heap} {b : Nat} (e : strongInc b s = some s') :
    s'.log = s.log := by
  unfold strongInc at e
  split at e
  · cases e
  · simp only [Option.some.injEq] at e
    subst e
    rfl

theorem destroys_releaseIf_none {s s' : Heap} (e : SharedPtr.releaseIf none s = some s') :
    s' = s := by
  simp only [SharedPtr.releaseIf, Option.some.injEq] at e
  exact e.symm

theorem log_strongIncIf {s s' : Heap} {r : Option Nat} (e : strongIncIf r s = some s') :
    s'.log = s.log := by
  cases r with
  | none =>
    simp only [strongIncIf, Option.some.injEq] at e
    subst e
    rfl
  | some b => exact log_strongInc e

theorem weakRelease_spec {s s' : Heap} {b : Nat} {blk : ControlBlockBase}
    (hb : s.block b = some blk) (e : WeakPtr.release b s = some s') :
    s' = (if blk.strong_cnt = 0 ∧ decr blk.weak_cnt = 0
      then (s.setBlock b { blk with weak_cnt := decr blk.weak_cnt }).deleteBlock b
      else s.setBlock b { blk with weak_cnt := decr blk.weak_cnt }) := by
  unfold WeakPtr.release weakDec at e
  simp only [hb] at e
  have hb1 : (s.setBlock b { blk with weak_cnt := decr blk.weak_cnt }).block b
      = some { blk with weak_cnt := decr blk.weak_cnt } := by
    rw [block_setBlock hb]; simp
  unfold deleteIfUnused at e
  simp only [hb1] at e
  split at e
  · rename_i hz
    simp only [Option.some.injEq] at e
    rw [if_pos hz]
    exact e.symm
  · rename_i hz
    simp only [Option.some.injEq] at e
    rw [if_neg hz]
    exact e.symm

/-- The log of `s'` is the log of `s` followed by `evs`. -/
def Extends (s s' : Heap) (evs : List Event) : Prop := s'.log = s.log ++ evs

theorem weakRelease_extends {s s' : Heap} {b : Nat} (e : WeakPtr.release b s = some s') :
    ∃ evs, Extends s s' evs ∧ Event.Destroy b ∉ evs := by
  cases hb : s.block b with
  | none =>
    unfold WeakPtr.release weakDec at e
    simp [hb] at e
  | some blk =>
    have h := weakRelease_spec hb e
    split at h
    · exact ⟨[Event.Delete b], by rw [h]; rfl, by simp⟩
    · exact ⟨[], by rw [h]; simp [Extends, Heap.setBlock], by simp⟩

theorem weakDtor_extends {s s' : Heap} {w : Nat} (e : WeakPtr.dtor w s = some s') :
    ∃ evs, Extends s s' evs := by
  unfold WeakPtr.dtor at e
  split at e
  · cases e
  · rename_i h hw
    cases hr : h.block_ with
    | none =>
      simp only [hr, WeakPtr.releaseIf, Option.some.injEq] at e
      subst e
      exact ⟨[], by simp [Extends, Heap.setWeak]⟩
    | some b =>
      simp only [hr, WeakPtr.releaseIf] at e
      obtain ⟨evs, h1, _⟩ := weakRelease_extends e
      exact ⟨evs, h1⟩

theorem destruct_extends {s s' : Heap} {a : Nat} (e : destruct a s = some s') :
    ∃ evs, Extends s s' evs := by
  unfold destruct at e
  split at e
  · cases e
  · split at e
    · split at e
      · simp only [Option.some.injEq] at e
        subst e
        exact ⟨[Event.Destruct a], rfl⟩
      · obtain ⟨evs, h1⟩ := weakDtor_extends e
        refine ⟨Event.Destruct a :: evs, ?_⟩
        unfold Extends at h1 ⊢
        rw [h1]
        simp [Heap.emit, Heap.setObject]
    · cases e

theorem Destroy_extends {s s' : Heap} {b : Nat} (e : Destroy b s = some s') :
    ∃ evs, Extends s s' (Event.Destroy b :: evs) := by
  unfold Destroy at e
  split at e
  · cases e
  · simp only at e
    have key : ∀ a, destruct a (s.emit (Event.Destroy b)) = some s' →
        ∃ evs, Extends s s' (Event.Destroy b :: evs) := by
      intro a ea
      obtain ⟨evs, h1⟩ := destruct_extends ea
      refine ⟨evs, ?_⟩
      unfold Extends at h1 ⊢
      rw [h1]
      simp [Heap.emit]
    split at e
    · split at e
      · simp only [Option.some.injEq] at e
        subst e
        exact ⟨[], rfl⟩
      · split at e
        · cases e
        · split at e
          · cases e
          · exact key _ e
    · exact key _ e

/-- In a strong release that takes `strong_cnt` from `1` to `0` and deletes the block, the
events of the release are `Destroy b`, what the destructor of the object does, and last
`Delete b`. -/
theorem release_order {s s' : Heap} {b : Nat} {blk : ControlBlockBase}
    (hb : s.block b = some blk) (h1 : blk.strong_cnt = 1)
    (e : SharedPtr.release b s = some s') (hd : s'.block b = none) :
    ∃ mid, s'.log = s.log ++ Event.Destroy b :: (mid ++ [Event.Delete b]) := by
  rw [release_eq] at e
  split at e
  · cases e
  · rename_i s1 e1
    split at e
    · cases e
    · rename_i s2 e2
      split at e
      · cases e
      · rename_i s3 e3
        have hl1 := log_weakInc e1
        have hl2 := log_strongDec e2
        unfold weakInc at e1
        simp only [hb, Option.some.injEq] at e1
        subst e1
        have hb1 : (s.setBlock b { blk with weak_cnt := incr blk.weak_cnt }).block b
            = some { blk with weak_cnt := incr blk.weak_cnt } := by
          rw [block_setBlock hb]; simp
        unfold strongDec at e2
        simp only [hb1, Option.some.injEq] at e2
        subst e2
        unfold destroyIfZero at e3
        rw [block_setBlock hb1] at e3
        have hz : decr blk.strong_cnt = 0 := by rw [h1]; decide
        simp only [if_true, hz] at e3
        obtain ⟨mid, hmid⟩ := Destroy_extends e3
        cases hb3 : s3.block b with
        | none =>
          unfold WeakPtr.release weakDec at e
          simp [hb3] at e
        | some blk3 =>
          have hs := weakRelease_spec hb3 e
          split at hs
          · refine ⟨mid, ?_⟩
            rw [hs]
            unfold Extends at hmid
            simp only [Heap.deleteBlock, Heap.setBlock, hmid]
            simp [Heap.setBlock]
          · rw [hs, block_setBlock hb3] at hd
            simp at hd

theorem length_weakRelease {s s' : Heap} {b : Nat} (e : WeakPtr.release b s = some s') :
    s'.blocks.length = s.blocks.length := by
  cases hb : s.block b with
  | none =>
    unfold WeakPtr.release weakDec at e
    simp [hb] at e
  | some blk =>
    have h := weakRelease_spec hb e
    split at h <;> (rw [h]; simp [Heap.deleteBlock, Heap.setBlock])

theorem length_weakDtor {s s' : Heap} {w : Nat} (e : WeakPtr.dtor w s = some s') :
    s'.blocks.length = s.blocks.length := by
  unfold WeakPtr.dtor at e
  split at e
  · cases e
  · rename_i h hw
    cases hr : h.block_ with
    | none =>
      simp only [hr, WeakPtr.releaseIf, Option.some.injEq] at e
      subst e
      rfl
    | some b =>
      simp only [hr, WeakPtr.releaseIf] at e
      rw [length_weakRelease e]
      rfl

theorem length_destruct {s s' : Heap} {a : Nat} (e : destruct a s = some s') :
    s'.blocks.length = s.blocks.length := by
  unfold destruct at e
  split at e
  · cases e
  · split at e
    · split at e
      · simp only [Option.some.injEq] at e
        subst e
        rfl
      · rw [length_weakDtor e]
        rfl
    · cases e

theorem length_Destroy {s s' : Heap} {b : Nat} (e : Destroy b s = some s') :
    s'.blocks.length = s.blocks.length := by
  unfold Destroy at e
  split at e
  · cases e
  · simp only at e
    split at e
    · split at e
      · simp only [Option.some.injEq] at e
        subst e
        rfl
      · split at e
        · cases e
        · split at e
          · cases e
          · rw [length_destruct e]
            rfl
    · rw [length_destruct e]
      rfl

theorem length_release {s s' : Heap} {b : Nat} (e : SharedPtr.release b s = some s') :
    s'.blocks.length = s.blocks.length := by
  rw [release_eq] at e
  split at e
  · cases e
  · rename_i s1 e1
    split at e
    · cases e
    · rename_i s2 e2
      split at e
      · cases e
      · rename_i s3 e3
        have h1 : s1.blocks.length = s.blocks.length := by
          unfold weakInc at e1
          split at e1
          · cases e1
          · simp only [Option.some.injEq] at e1
            subst e1
            exact length_setBlock _ _ _
        have h2 : s2.blocks.length = s1.blocks.length := by
          unfold strongDec at e2
          split at e2
          · cases e2
          · simp only [Option.some.injEq] at e2
            subst e2
            exact length_setBlock _ _ _
        have h3 : s3.blocks.length = s2.blocks.length := by
          unfold destroyIfZero at e3
          split at e3
          · cases e3
          · split at e3
            · exact length_Destroy e3
            · simp only [Option.some.injEq] at e3
              subst e3
              rfl
        rw [length_weakRelease e, h3, h2, h1]

/-- What a state between two calls says about block `b`: it is gone exactly when no
handle refers to it, its counters count the handles while it is there, and among the
blocks allocated so far it is gone exactly when its `delete` is in the log. -/
def Settled (s : Heap) (b : Nat) : Prop :=
  (s.block b = none ↔ cntS s b = 0 ∧ cntW s b = 0) ∧
    (∀ blk, s.block b = some blk → blk.strong_cnt = cntS s b ∧ blk.weak_cnt = cntW s b) ∧
    (b < s.blocks.length → (s.block b = none ↔ Event.Delete b ∈ s.log))

theorem Inv.settled {s : Heap} {k : Nat} (h : Inv s [] [] k) (b : Nat) : Settled s b := by
  refine ⟨?_, ?_, h.2.freed b⟩
  · constructor
    · intro hn
      have := h.1.dead b hn
      exact ⟨this.1, this.2.1⟩
    · intro hz
      cases hb : s.block b with
      | none => rfl
      | some blk =>
        have h1 := h.1.strong b blk hb
        have h2 := h.1.weak b blk hb
        have h3 := h.1.used b blk hb
        simp only [List.count_nil, Nat.add_zero] at h1 h2
        omega
  · intro blk hb
    have h1 := h.1.strong b blk hb
    have h2 := h.1.weak b blk hb
    simp only [List.count_nil, Nat.add_zero] at h1 h2
    exact ⟨h1, h2⟩

/-- C3. Block deallocation happens exactly once and only when both counters are zero.
In every reachable state a block is deleted at most once, it is gone exactly when no
strong and no weak handle refers to it, and its `delete` is preceded by its `Destroy()`.
After `~SharedPtr` or `~WeakPtr` of a handle on block `b` in a reachable state, `b` has
been deleted exactly when the release left both counters, that is both handle counts,
zero.  In any state the weak release deletes the block exactly when `strong_cnt` is zero
and the decremented `weak_cnt` is zero; and a strong release that takes `strong_cnt` from
`1` to `0` and deletes the block does so after `Destroy()`, as its last step. -/
theorem delete_exactly_when_unreferenced :
    (∀ (ops : List Op) (s : Heap) (b : Nat), exec ops Heap.empty = some s →
        deletes s b ≤ 1 ∧ Settled s b ∧
          Precedes (Event.Destroy b) (Event.Delete b) s.log) ∧
    (∀ (ops : List Op) (s s' : Heap) (i : Nat) (self : SharedPtr) (b : Nat),
        exec ops Heap.empty = some s → s.sharedAt i = some self → self.block_ = some b →
        SharedPtr.dtor i s = some s' →
        Event.Delete b ∉ s.log ∧ Settled s' b ∧ (s'.block b = none ↔ Event.Delete b ∈ s'.log)) ∧
    (∀ (ops : List Op) (s s' : Heap) (w : Nat) (self : WeakPtr) (b : Nat),
        exec ops Heap.empty = some s → s.weakAt w = some self → self.block_ = some b →
        WeakPtr.dtor w s = some s' →
        Event.Delete b ∉ s.log ∧ Settled s' b ∧ (s'.block b = none ↔ Event.Delete b ∈ s'.log)) ∧
    (∀ (s s' : Heap) (b : Nat) (blk : ControlBlockBase),
        s.block b = some blk → WeakPtr.release b s = some s' →
        (s'.block b = none ↔ blk.strong_cnt = 0 ∧ decr blk.weak_cnt = 0) ∧
          (s'.block b = none → s'.log = s.log ++ [Event.Delete b]) ∧
          (s'.block b ≠ none → s'.log = s.log)) ∧
    (∀ (s s' : Heap) (b : Nat) (blk : ControlBlockBase),
        s.block b = some blk → blk.strong_cnt = 1 → SharedPtr.release b s = some s' →
        s'.block b = none →
        ∃ mid, s'.log = s.log ++ Event.Destroy b :: (mid ++ [Event.Delete b])) := by
  refine ⟨?_, ?_, ?_, ?_, ?_⟩
  · intro ops s b hx
    have hv := Valid.empty.exec hx
    exact ⟨hv.2.freed_once b, Inv.settled hv b, hv.2.order b⟩
  · intro ops s s' i self b hx hi hs e
    have hv := Valid.empty.exec hx
    have hpos := cntS_pos hi hs
    have hlive : s.block b ≠ none := by
      intro hn
      have := hv.1.dead b hn
      omega
    have hlt : b < s.blocks.length := by
      cases hb : s.block b with
      | none => exact absurd hb hlive
      | some blk => exact lt_of_block hb
    have hv' : Inv s' [] [] 0 := Inv.op_dtor (hv.mono (by omega)) e
    have hlen : s'.blocks.length = s.blocks.length := by
      unfold SharedPtr.dtor at e
      simp only [hi, hs, SharedPtr.releaseIf] at e
      rw [length_release e]
      rfl
    refine ⟨?_, Inv.settled hv' b, hv'.2.freed b (by omega)⟩
    intro hin
    exact hlive ((hv.2.freed b hlt).mpr hin)
  · intro ops s s' w self b hx hw hs e
    have hv := Valid.empty.exec hx
    have hpos := cntW_pos hw hs
    have hlive : s.block b ≠ none := by
      intro hn
      have := hv.1.dead b hn
      omega
    have hlt : b < s.blocks.length := by
      cases hb : s.block b with
      | none => exact absurd hb hlive
      | some blk => exact lt_of_block hb
    have hv' : Inv s' [] [] 0 := Inv.op_weak_dtor (hv.mono (by omega)) e
    have hlen : s'.blocks.length = s.blocks.length := length_weakDtor e
    refine ⟨?_, Inv.settled hv' b, hv'.2.freed b (by omega)⟩
    intro hin
    exact hlive ((hv.2.freed b hlt).mpr hin)
  · intro s s' b blk hb e
    have h := weakRelease_spec hb e
    have hb1 : (s.setBlock b { blk with weak_cnt := decr blk.weak_cnt }).block b
        = some { blk with weak_cnt := decr blk.weak_cnt } := by
      rw [block_setBlock hb]; simp
    split at h
    · rename_i hz
      subst h
      refine ⟨?_, ?_, ?_⟩
      · rw [block_deleteBlock hb1]
        simp [hz]
      · intro _
        rfl
      · intro hn
        rw [block_deleteBlock hb1] at hn
        simp at hn
    · rename_i hz
      subst h
      refine ⟨?_, ?_, ?_⟩
      · rw [hb1]
        simp only [reduceCtorEq, false_iff]
        exact hz
      · intro hn
        rw [hb1] at hn
        cases hn
      · intro _
        rfl
  · intro s s' b blk hb h1 e hd
    exact release_order hb h1 e hd

/-- The state after `MakeShared` of a self-referencing object: one strong handle and the
object's own `weak_this_`. -/
def selfRefHeap : Heap :=
  { blocks := [some ⟨1, 1, Derived.ControlBlockEmplace 1⟩],
    objects := [⟨true, true, some 0⟩],
    shared := [some ⟨some 0, 1⟩],
    weak := [some ⟨some 0, 1⟩, none],
    log := [] }

/-- The state after the only strong handle of `selfRefHeap` is destroyed. -/
def selfRefGone : Heap :=
  { blocks := [none],
    objects := [⟨false, true, some 0⟩],
    shared := [none],
    weak := [none, none],
    log := [Event.Destroy 0, Event.Destruct 1, Event.Delete 0] }

theorem delete_exactly_when_unreferenced_witness :
    exec [Op.MakeShared true] Heap.empty = some selfRefHeap ∧
      SharedPtr.dtor 0 selfRefHeap = some selfRefGone ∧
      (Event.Delete 0 ∉ selfRefHeap.log ∧ Settled selfRefGone 0 ∧
        (selfRefGone.block 0 = none ↔ Event.Delete 0 ∈ selfRefGone.log)) :=
  ⟨by decide, by decide,
    delete_exactly_when_unreferenced.2.1 [Op.MakeShared true] selfRefHeap selfRefGone 0
      ⟨some 0, 1⟩ 0 (by decide) (by decide) rfl (by decide)⟩


@[simp] theorem object_setBlock (s : Heap) (b : Nat) (blk : ControlBlockBase) (c : Nat) :
    (s.setBlock b blk).object c = s.object c := rfl
@[simp] theorem sharedAt_setBlock (s : Heap) (b : Nat) (blk : ControlBlockBase) (c : Nat) :
    (s.setBlock b blk).sharedAt c = s.sharedAt c := rfl
@[simp] theorem weakAt_setBlock (s : Heap) (b : Nat) (blk : ControlBlockBase) (c : Nat) :
    (s.setBlock b blk).weakAt c = s.weakAt c := rfl
@[simp] theorem logOf_setBlock (s : Heap) (b : Nat) (blk : ControlBlockBase) :
    (s.setBlock b blk).log = s.log := rfl
@[simp] theorem object_deleteBlock (s : Heap) (b : Nat) (c : Nat) :
    (s.deleteBlock b).object c = s.object c := rfl
@[simp] theorem sharedAt_deleteBlock (s : Heap) (b : Nat) (c : Nat) :
    (s.deleteBlock b).sharedAt c = s.sharedAt c := rfl
@[simp] theorem weakAt_deleteBlock (s : Heap) (b : Nat) (c : Nat) :
    (s.deleteBlock b).weakAt c = s.weakAt c := rfl
@[simp] theorem object_newBlock (s : Heap) (blk : ControlBlockBase) (c : Nat) :
    (s.newBlock blk).object c = s.object c := rfl
@[simp] theorem sharedAt_newBlock (s : Heap) (blk : ControlBlockBase) (c : Nat) :
    (s.newBlock blk).sharedAt c = s.sharedAt c := rfl
@[simp] theorem weakAt_newBlock (s : Heap) (blk : ControlBlockBase) (c : Nat) :
    (s.newBlock blk).weakAt c = s.weakAt c := rfl
@[simp] theorem logOf_newBlock (s : Heap) (blk : ControlBlockBase) :
    (s.newBlock blk).log = s.log := rfl
@[simp] theorem sharedAt_setObject (s : Heap) (a : Nat) (o : Object) (c : Nat) :
    (s.setObject a o).sharedAt c = s.sharedAt c := rfl
@[simp] theorem weakAt_setObject (s : Heap) (a : Nat) (o : Object) (c : Nat) :
    (s.setObject a o).weakAt c = s.weakAt c := rfl
@[simp] theorem logOf_setObject (s : Heap) (a : Nat) (o : Object) :
    (s.setObject a o).log = s.log := rfl
@[simp] theorem object_setShared (s : Heap) (i : Nat) (h : Option SharedPtr) (c : Nat) :
    (s.setShared i h).object c = s.object c := rfl
@[simp] theorem weakAt_setShared (s : Heap) (i : Nat) (h : Option SharedPtr) (c : Nat) :
    (s.setShared i h).weakAt c = s.weakAt c := rfl
@[simp] theorem logOf_setShared (s : Heap) (i : Nat) (h : Option SharedPtr) :
    (s.setShared i h).log = s.log := rfl
@[simp] theorem object_pushShared (s : Heap) (h : SharedPtr) (c : Nat) :
    (s.pushShared h).object c = s.object c := rfl
@[simp] theorem weakAt_pushShared (s : Heap) (h : SharedPtr) (c : Nat) :
    (s.pushShared h).weakAt c = s.weakAt c := rfl
@[simp] theorem logOf_pushShared (s : Heap) (h : SharedPtr) :
    (s.pushShared h).log = s.log := rfl
@[simp] theorem object_setWeak (s : Heap) (w : Nat) (h : Option WeakPtr) (c : Nat) :
    (s.setWeak w h).object c = s.object c := rfl
@[simp] theorem sharedAt_setWeak (s : Heap) (w : Nat) (h : Option WeakPtr) (c : Nat) :
    (s.setWeak w h).sharedAt c = s.sharedAt c := rfl
@[simp] theorem logOf_setWeak (s : Heap) (w : Nat) (h : Option WeakPtr) :
    (s.setWeak w h).log = s.log := rfl
@[simp] theorem object_pushWeak (s : Heap) (h : WeakPtr) (c : Nat) :
    (s.pushWeak h).object c = s.object c := rfl
@[simp] theorem sharedAt_pushWeak (s : Heap) (h : WeakPtr) (c : Nat) :
    (s.pushWeak h).sharedAt c = s.sharedAt c := rfl
@[simp] theorem logOf_pushWeak (s : Heap) (h : WeakPtr) :
    (s.pushWeak h).log = s.log := rfl
@[simp] theorem object_emit (s : Heap) (e : Event) (c : Nat) :
    (s.emit e).object c = s.object c := rfl
@[simp] theorem sharedAt_emit (s : Heap) (e : Event) (c : Nat) :
    (s.emit e).sharedAt c = s.sharedAt c := rfl
@[simp] theorem weakAt_emit (s : Heap) (e : Event) (c : Nat) :
    (s.emit e).weakAt c = s.weakAt c := rfl

theorem decr_incr {n : Nat} (h : n < SIZE_MOD) : decr (incr n) = n := by
  unfold decr incr SIZE_MOD
  unfold SIZE_MOD at h
  omega

theorem weakInc_eq {s : Heap} {b : Nat} {blk : ControlBlockBase} (hb : s.block b = some blk) :
    weakInc b s = some (s.setBlock b { blk with weak_cnt := incr blk.weak_cnt }) := by
  unfold weakInc
  rw [hb]

theorem strongInc_eq {s : Heap} {b : Nat} {blk : ControlBlockBase} (hb : s.block b = some blk) :
    strongInc b s = some (s.setBlock b { blk with strong_cnt := incr blk.strong_cnt }) := by
  unfold strongInc
  rw [hb]

theorem block_setBlock_self {s : Heap} {b : Nat} {old : ControlBlockBase}
    (h : s.block b = some old) (blk : ControlBlockBase) :
    (s.setBlock b blk).block b = some blk := by
  rw [block_setBlock h, if_pos rfl]

/-- What the wiring step does when the handle in slot `i` has block `b` with a non-zero
strong counter and the `weak_this_` of the tracked object is the live weak handle `m`:
the marker observes the handle's block and address, the strong handles are untouched, and
`weak_cnt` of `b` stays as it was if the marker observed `b` before and is incremented
otherwise. -/
theorem InitWeakThis_spec {s s' : Heap} {i b m : Nat} {self : SharedPtr}
    {blk : ControlBlockBase} {o : Object} {old : WeakPtr}
    (hi : s.sharedAt i = some self) (hs : self.block_ = some b) (hb : s.block b = some blk)
    (hpos : blk.strong_cnt ≠ 0) (hlt : blk.weak_cnt < SIZE_MOD)
    (ho : s.object self.ptr_ = some o) (hm : o.weak_this_ = some m)
    (hw : s.weakAt m = some old) (e : InitWeakThis i s = some s') :
    s'.shared = s.shared ∧ s'.objects = s.objects ∧
      s'.block b = some { blk with
        weak_cnt := if old.block_ = some b then blk.weak_cnt else incr blk.weak_cnt } ∧
      s'.weakAt m = some ⟨some b, self.Get⟩ ∧
      (old.block_ = some b → s'.blocks = s.blocks ∧ s'.log = s.log) := by
  have hmlt := weakAt_lt hw
  have hne : m ≠ s.weak.length := Nat.ne_of_lt hmlt
  unfold InitWeakThis at e
  simp only [hi] at e
  unfold WeakPtr.ctorDemote at e
  simp only [hi, SharedPtr.GetBlock, hs, weakIncIf] at e
  rw [weakInc_eq (s := s.pushWeak ⟨some b, self.Get⟩) hb] at e
  simp only [object_setBlock, object_pushWeak, ho] at e
  split at e
  · simp only [hm] at e
    unfold WeakPtr.assignMove at e
    simp only [weakAt_setBlock, weakAt_pushWeak, if_neg hne, hw, if_true, if_neg hne] at e
    -- the state after the two field assignments of `operator=`
    generalize hst : (((s.pushWeak ⟨some b, self.Get⟩).setBlock b
      { blk with weak_cnt := incr blk.weak_cnt }).setWeak m (some ⟨some b, self.Get⟩)).setWeak
        s.weak.length (some ⟨none, 0⟩) = st at e
    have hst_shared : st.shared = s.shared := by subst hst; rfl
    have hst_objects : st.objects = s.objects := by subst hst; rfl
    have hst_log : st.log = s.log := by subst hst; rfl
    have hb0 : ((s.pushWeak ⟨some b, self.Get⟩).setBlock b
        { blk with weak_cnt := incr blk.weak_cnt }).block b
        = some { blk with weak_cnt := incr blk.weak_cnt } :=
      block_setBlock_self (s := s.pushWeak ⟨some b, self.Get⟩) hb _
    have hst_block : st.block b = some { blk with weak_cnt := incr blk.weak_cnt } := by
      subst hst; exact hb0
    have hst_blocks : st.blocks
        = (s.setBlock b { blk with weak_cnt := incr blk.weak_cnt }).blocks := by
      subst hst; rfl
    have hm0 : (s.pushWeak ⟨some b, self.Get⟩).weakAt m = some old := by
      rw [weakAt_pushWeak, if_neg hne]; exact hw
    have ht0 : ((s.pushWeak ⟨some b, self.Get⟩).setWeak m (some ⟨some b, self.Get⟩)).weakAt
        s.weak.length = some ⟨some b, self.Get⟩ := by
      rw [weakAt_setWeak hm0, if_neg (Ne.symm hne), weakAt_pushWeak, if_pos rfl]
    have hst_m : st.weakAt m = some ⟨some b, self.Get⟩ := by
      subst hst
      show (((s.pushWeak ⟨some b, self.Get⟩).setWeak m (some ⟨some b, self.Get⟩)).setWeak
        s.weak.length (some ⟨none, 0⟩)).weakAt m = _
      rw [weakAt_setWeak ht0, if_neg hne, weakAt_setWeak hm0, if_pos rfl]
    have hst_t : st.weakAt s.weak.length = some ⟨none, 0⟩ := by
      subst hst
      show (((s.pushWeak ⟨some b, self.Get⟩).setWeak m (some ⟨some b, self.Get⟩)).setWeak
        s.weak.length (some ⟨none, 0⟩)).weakAt s.weak.length = _
      rw [weakAt_setWeak ht0, if_pos rfl]
    split at e
    · cases e
    · rename_i s2 e2
      -- the temporary is empty: its destructor only ends its lifetime
      have key : ∀ (hs2w : s2.weakAt s.weak.length = some ⟨none, 0⟩), s' = s2.setWeak
          s.weak.length none := by
        intro hs2w
        unfold WeakPtr.dtor at e
        simp only [hs2w, WeakPtr.releaseIf, Option.some.injEq] at e
        exact e.symm
      cases hob : old.block_ with
      | none =>
        simp only [hob, WeakPtr.releaseIf, Option.some.injEq] at e2
        subst e2
        have := key hst_t
        subst this
        refine ⟨hst_shared, hst_objects, ?_, ?_, ?_⟩
        · rw [block_setWeak, hst_block]
          simp
        · rw [weakAt_setWeak hst_t, if_neg hne]
          exact hst_m
        · intro h; cases h
      | some c =>
        simp only [hob, WeakPtr.releaseIf] at e2
        by_cases hcb : c = b
        · subst hcb
          have hsp := weakRelease_spec hst_block e2
          simp only [hpos, false_and, if_false, decr_incr hlt] at hsp
          subst hsp
          have := key (by rw [weakAt_setBlock]; exact hst_t)
          subst this
          refine ⟨hst_shared, hst_objects, ?_, ?_, ?_⟩
          · rw [block_setWeak, block_setBlock_self hst_block]
            simp
          · rw [weakAt_setWeak (by rw [weakAt_setBlock]; exact hst_t), if_neg hne,
              weakAt_setBlock]
            exact hst_m
          · intro _
            refine ⟨?_, hst_log⟩
            show (st.blocks.set c _) = s.blocks
            rw [hst_blocks]
            simp only [Heap.setBlock, List.set_set]
            have hlt' := lt_of_block hb
            apply List.ext_getElem?
            intro n
            rw [List.getElem?_set]
            split
            · rename_i hn
              subst hn
              have : s.blocks.getD c none = some blk := hb
              rw [List.getD_eq_getElem?_getD] at this
              cases hg : s.blocks[c]? with
              | none => simp [hg] at this
              | some v =>
                simp only [hg, Option.getD_some] at this
                rw [this]
            · rfl
        · cases hc : st.block c with
          | none =>
            unfold WeakPtr.release weakDec at e2
            simp [hc] at e2
          | some blkc =>
            have hsp := weakRelease_spec hc e2
            have hs2b : s2.block b = some { blk with weak_cnt := incr blk.weak_cnt } := by
              rw [hsp]
              split
              · rw [block_deleteBlock (block_setBlock_self hc _), if_neg (Ne.symm hcb),
                  block_setBlock hc, if_neg (Ne.symm hcb)]
                exact hst_block
              · rw [block_setBlock hc, if_neg (Ne.symm hcb)]
                exact hst_block
            have hs2t : s2.weakAt s.weak.length = some ⟨none, 0⟩ := by
              rw [hsp]
              split <;> simpa using hst_t
            have hs2m : s2.weakAt m = some ⟨some b, self.Get⟩ := by
              rw [hsp]
              split <;> simpa using hst_m
            have hs2s : s2.shared = s.shared := by
              rw [hsp]
              split <;> exact hst_shared
            have hs2o : s2.objects = s.objects := by
              rw [hsp]
              split <;> exact hst_objects
            have := key hs2t
            subst this
            refine ⟨hs2s, hs2o, ?_, ?_, ?_⟩
            · rw [block_setWeak, hs2b]
              have : ¬ (some c = some b) := by
                intro h; injection h with h; exact hcb h
              simp [this]
            · rw [weakAt_setWeak hs2t, if_neg hne]
              exact hs2m
            · intro h
              injection h with h
              exact absurd h hcb
  · cases e


/-- A weak handle is stale: it has no block, or the strong counter of its block is zero. -/
def Stale (h : WeakPtr) (s : Heap) : Prop :=
  h.block_ = none ∨ ∃ b blk, h.block_ = some b ∧ s.block b = some blk ∧ blk.strong_cnt = 0

theorem Valid.block_of_weak {s : Heap} {w b : Nat} {h : WeakPtr} (hv : Valid s)
    (hw : s.weakAt w = some h) (hb : h.block_ = some b) : ∃ blk, s.block b = some blk := by
  cases hblk : s.block b with
  | none =>
    have := hv.1.dead b hblk
    have := cntW_pos hw hb
    omega
  | some blk => exact ⟨blk, rfl⟩

theorem Valid.block_of_shared {s : Heap} {i b : Nat} {h : SharedPtr} (hv : Valid s)
    (hi : s.sharedAt i = some h) (hb : h.block_ = some b) :
    ∃ blk, s.block b = some blk ∧ 0 < blk.strong_cnt := by
  cases hblk : s.block b with
  | none =>
    have := hv.1.dead b hblk
    have := cntS_pos hi hb
    omega
  | some blk =>
    have h1 := hv.1.strong b blk hblk
    have := cntS_pos hi hb
    exact ⟨blk, rfl, by omega⟩

theorem Valid.incr_strong {s : Heap} {b : Nat} {blk : ControlBlockBase} (hv : Valid s)
    (hb : s.block b = some blk) : incr blk.strong_cnt = blk.strong_cnt + 1 := by
  have := hv.1.cnt_strong_lt hb
  exact incr_eq (by omega)

theorem Valid.incr_weak {s : Heap} {b : Nat} {blk : ControlBlockBase} (hv : Valid s)
    (hb : s.block b = some blk) : incr blk.weak_cnt = blk.weak_cnt + 1 := by
  have := hv.1.cnt_weak_lt hb
  exact incr_eq (by omega)

theorem Valid.weak_lt {s : Heap} {b : Nat} {blk : ControlBlockBase} (hv : Valid s)
    (hb : s.block b = some blk) : blk.weak_cnt < SIZE_MOD := by
  have := hv.1.cnt_weak_lt hb
  omega

theorem expired_eq {h : WeakPtr} {s : Heap} {b : Nat} {blk : ControlBlockBase}
    (hb : h.block_ = some b) (hblk : s.block b = some blk) :
    h.Expired s = some (decide (blk.strong_cnt = 0)) := by
  unfold WeakPtr.Expired
  simp only [hb, hblk]
  split <;> simp [*]

theorem promote_of_live {s : Heap} (cap : Bool) {w b : Nat} {other : WeakPtr}
    {blk : ControlBlockBase} (hw : s.weakAt w = some other) (hb : other.block_ = some b)
    (hblk : s.block b = some blk) (hpos : blk.strong_cnt ≠ 0) :
    SharedPtr.ctorPromote cap w s = Result.ofOption (ESFT cap s.shared.length
      ((s.pushShared ⟨some b, other.ptr_⟩).setBlock b
        { blk with strong_cnt := incr blk.strong_cnt })) := by
  unfold SharedPtr.ctorPromote
  simp only [hw, expired_eq hb hblk, hpos, decide_False, WeakPtr.GetBlock, WeakPtr.Get, hb,
    strongIncIf]
  rw [strongInc_eq (s := s.pushShared ⟨some b, other.ptr_⟩) hblk]

theorem promote_of_stale {s : Heap} (cap : Bool) {w : Nat} {other : WeakPtr}
    (hw : s.weakAt w = some other) (hst : Stale other s) :
    SharedPtr.ctorPromote cap w s = Result.BadWeakPtr s := by
  unfold SharedPtr.ctorPromote
  simp only [hw]
  rcases hst with hn | ⟨b, blk, hb, hblk, hz⟩
  · simp [WeakPtr.Expired, hn]
  · simp [expired_eq hb hblk, hz]

/-- C4, amended. In a reachable state, the promoting constructor
`SharedPtr(const WeakPtr<T>&)` throws `BadWeakPtr` exactly when the weak handle is stale
(no block, or `strong_cnt == 0`), and then leaves the state as it was.  For a `T` without
the self-reference capability it returns whenever the handle is not stale: the new strong
handle has the weak handle's block and tracked address, `strong_cnt` of that block is one
greater than before, and nothing else changes, so `weak_cnt` is unchanged.  For a `T`
with the capability, when it returns and the tracked object's `weak_this_` is the live
weak handle `m`, the new strong handle and `strong_cnt` are as before, and the wiring
step leaves `weak_cnt` unchanged if `m` already observed this block and increments it
otherwise. -/
theorem promote_spec (ops : List Op) (s : Heap) (cap : Bool) (w : Nat) (other : WeakPtr)
    (hx : exec ops Heap.empty = some s) (hw : s.weakAt w = some other) :
    (SharedPtr.ctorPromote cap w s = Result.BadWeakPtr s ↔ Stale other s) ∧
    (∀ s1, SharedPtr.ctorPromote cap w s = Result.BadWeakPtr s1 → s1 = s) ∧
    (cap = false → ¬ Stale other s →
      ∃ b blk, other.block_ = some b ∧ s.block b = some blk ∧
        SharedPtr.ctorPromote cap w s = Result.ok
          ((s.pushShared ⟨some b, other.ptr_⟩).setBlock b
            { blk with strong_cnt := blk.strong_cnt + 1 })) ∧
    (∀ s' o m old, cap = true → SharedPtr.ctorPromote cap w s = Result.ok s' →
      s.object other.ptr_ = some o → o.weak_this_ = some m → s.weakAt m = some old →
      ∃ b blk, other.block_ = some b ∧ s.block b = some blk ∧
        s'.sharedAt s.shared.length = some ⟨some b, other.ptr_⟩ ∧
        s'.block b = some { blk with
          strong_cnt := blk.strong_cnt + 1,
          weak_cnt := if old.block_ = some b then blk.weak_cnt else blk.weak_cnt + 1 }) := by
  have hv : Valid s := Valid.empty.exec hx
  -- either stale, or the block is there with a non-zero strong counter
  have hcases : Stale other s ∨
      ∃ b blk, other.block_ = some b ∧ s.block b = some blk ∧ blk.strong_cnt ≠ 0 := by
    cases hb : other.block_ with
    | none => exact Or.inl (Or.inl hb)
    | some b =>
      obtain ⟨blk, hblk⟩ := hv.block_of_weak hw hb
      by_cases hz : blk.strong_cnt = 0
      · exact Or.inl (Or.inr ⟨b, blk, hb, hblk, hz⟩)
      · exact Or.inr ⟨b, blk, rfl, hblk, hz⟩
  rcases hcases with hst | ⟨b, blk, hb, hblk, hpos⟩
  · have hp := promote_of_stale cap hw hst
    refine ⟨⟨fun _ => hst, fun _ => hp⟩, ?_, ?_, ?_⟩
    · intro s1 h1
      rw [hp] at h1
      injection h1 with h1
      exact h1.symm
    · intro _ hns
      exact absurd hst hns
    · intro s' o m old _ h1
      rw [hp] at h1
      cases h1
  · have hp := promote_of_live cap hw hb hblk hpos
    have hns : ¬ Stale other s := by
      rintro (hn | ⟨b', blk', hb', hblk', hz⟩)
      · rw [hn] at hb; cases hb
      · rw [hb] at hb'
        injection hb' with hb'
        subst hb'
        rw [hblk] at hblk'
        injection hblk' with hblk'
        subst hblk'
        exact hpos hz
    have hinc := hv.incr_strong hblk
    have hwl : blk.weak_cnt < SIZE_MOD := hv.weak_lt hblk
    have hnb : ∀ s1, SharedPtr.ctorPromote cap w s ≠ Result.BadWeakPtr s1 := by
      intro s1 h1
      rw [hp] at h1
      cases hE : ESFT cap s.shared.length ((s.pushShared ⟨some b, other.ptr_⟩).setBlock b
          { blk with strong_cnt := incr blk.strong_cnt }) with
      | none => rw [hE] at h1; cases h1
      | some s2 => rw [hE] at h1; cases h1
    refine ⟨⟨fun h1 => absurd h1 (hnb s), fun h1 => absurd h1 hns⟩, ?_, ?_, ?_⟩
    · intro s1 h1
      exact absurd h1 (hnb s1)
    · intro hc _
      subst hc
      refine ⟨b, blk, hb, hblk, ?_⟩
      rw [hp, hinc]
      rfl
    · intro s' o m old hc h1 ho hm hold
      subst hc
      rw [hp] at h1
      have hE : InitWeakThis s.shared.length ((s.pushShared ⟨some b, other.ptr_⟩).setBlock b
          { blk with strong_cnt := incr blk.strong_cnt }) = some s' := by
        cases hE : InitWeakThis s.shared.length ((s.pushShared ⟨some b, other.ptr_⟩).setBlock b
            { blk with strong_cnt := incr blk.strong_cnt }) with
        | none =>
          simp only [ESFT, if_true, hE] at h1
          cases h1
        | some s2 =>
          simp only [ESFT, if_true, hE] at h1
          injection h1 with h1
          rw [h1]
      have hb1 : ((s.pushShared ⟨some b, other.ptr_⟩).setBlock b
          { blk with strong_cnt := incr blk.strong_cnt }).block b
          = some { blk with strong_cnt := incr blk.strong_cnt } :=
        block_setBlock_self (s := s.pushShared ⟨some b, other.ptr_⟩) hblk _
      have hi1 : ((s.pushShared ⟨some b, other.ptr_⟩).setBlock b
          { blk with strong_cnt := incr blk.strong_cnt }).sharedAt s.shared.length
          = some ⟨some b, other.ptr_⟩ := by
        rw [sharedAt_setBlock, sharedAt_pushShared, if_pos rfl]
      have hpos1 : incr blk.strong_cnt ≠ 0 := by rw [hinc]; omega
      have hsp := InitWeakThis_spec hi1 rfl hb1 hpos1 hwl ho hm hold hE
      obtain ⟨hsh, _, hblk', _, _⟩ := hsp
      refine ⟨b, blk, hb, hblk, ?_, ?_⟩
      · unfold Heap.sharedAt at hi1 ⊢
        rw [hsh]
        exact hi1
      · rw [hblk']
        simp only [hinc, hv.incr_weak hblk]

/-- Two self-referencing objects made by `MakeShared`, an aliasing handle that shares the
first object's block and tracks the second object, and a weak handle demoted from the
second object's own handle. -/
def retargetRun : List Op :=
  [Op.MakeShared true, Op.MakeShared true, Op.SharedPtr_ctorAlias true 0 2,
    Op.WeakPtr_ctorDemote 1]

/-- The state `retargetRun` ends in: the `weak_this_` of the second object (weak slot 2)
observes block `0`, the block of the aliasing handle. -/
def retargetHeap : Heap :=
  { blocks := [some ⟨2, 2, Derived.ControlBlockEmplace 1⟩,
      some ⟨1, 1, Derived.ControlBlockEmplace 2⟩],
    objects := [⟨true, true, some 0⟩, ⟨true, true, some 2⟩],
    shared := [some ⟨some 0, 1⟩, some ⟨some 1, 2⟩, some ⟨some 0, 2⟩],
    weak := [some ⟨some 0, 1⟩, none, some ⟨some 0, 2⟩, none, none, some ⟨some 1, 2⟩],
    log := [] }

/-- The state after the weak handle in slot `5` of `retargetHeap` is promoted. -/
def retargetPromoted : Heap :=
  { blocks := [some ⟨2, 1, Derived.ControlBlockEmplace 1⟩,
      some ⟨2, 2, Derived.ControlBlockEmplace 2⟩],
    objects := [⟨true, true, some 0⟩, ⟨true, true, some 2⟩],
    shared := [some ⟨some 0, 1⟩, some ⟨some 1, 2⟩, some ⟨some 0, 2⟩, some ⟨some 1, 2⟩],
    weak := [some ⟨some 0, 1⟩, none, some ⟨some 1, 2⟩, none, none, some ⟨some 1, 2⟩, none],
    log := [] }

/-- C4 as stated fails: promoting a live weak handle of a self-referencing type returns,
and `weak_cnt` of the handle's block goes from `1` to `2` while `weak_cnt` of another
block goes from `2` to `1`, because the wiring step re-targets `weak_this_`. -/
theorem promote_changes_weak_cnt :
    exec retargetRun Heap.empty = some retargetHeap ∧
      SharedPtr.ctorPromote true 5 retargetHeap = Result.ok retargetPromoted ∧
      retargetHeap.block 1 = some ⟨1, 1, Derived.ControlBlockEmplace 2⟩ ∧
      retargetPromoted.block 1 = some ⟨2, 2, Derived.ControlBlockEmplace 2⟩ ∧
      retargetHeap.block 0 = some ⟨2, 2, Derived.ControlBlockEmplace 1⟩ ∧
      retargetPromoted.block 0 = some ⟨2, 1, Derived.ControlBlockEmplace 1⟩ := by
  decide

theorem promote_spec_witness :
    exec retargetRun Heap.empty = some retargetHeap ∧
      retargetHeap.weakAt 5 = some ⟨some 1, 2⟩ ∧
      (SharedPtr.ctorPromote true 5 retargetHeap = Result.BadWeakPtr retargetHeap ↔
        Stale ⟨some 1, 2⟩ retargetHeap) :=
  ⟨by decide, by decide,
    (promote_spec retargetRun retargetHeap true 5 ⟨some 1, 2⟩ (by decide) (by decide)).1⟩


theorem object_null (s : Heap) : s.object 0 = none := by
  unfold Heap.object
  simp

/-- The wiring step of a handle whose tracked address is null dereferences a null
pointer. -/
theorem InitWeakThis_null {s : Heap} {i : Nat} {self : SharedPtr}
    (hi : s.sharedAt i = some self) (hp : self.ptr_ = 0) : InitWeakThis i s = none := by
  unfold InitWeakThis
  simp only [hi]
  split
  · rfl
  · rename_i s1 e1
    have ho : s1.object self.ptr_ = none := by
      rw [hp]
      exact object_null s1
    simp only [ho]

/-- `SharedPtr<T>()` for a `T` with the self-reference capability: `ESFT()` calls
`InitWeakThis(nullptr)`. -/
theorem ctor_capable_undefined (s : Heap) : SharedPtr.ctor true s = none := by
  unfold SharedPtr.ctor ESFT
  simp only [if_true]
  have hi : (s.pushShared ⟨none, 0⟩).sharedAt s.shared.length = some ⟨none, 0⟩ := by
    rw [sharedAt_pushShared, if_pos rfl]
  exact InitWeakThis_null hi rfl

/-- C5, failing input: for a type with the self-reference capability, `Lock()` on a
stale weak handle does not return an empty strong handle: the `SharedPtr<T>()` it builds
runs the wiring step on a null tracked address, which is undefined behaviour. -/
theorem Lock_stale_capable_undefined (s : Heap) (w : Nat) (self : WeakPtr)
    (hw : s.weakAt w = some self) (he : self.Expired s = some true) :
    WeakPtr.Lock true w s = Result.undefined := by
  unfold WeakPtr.Lock
  simp only [hw, he, ctor_capable_undefined]
  rfl

theorem Lock_stale_capable_undefined_witness :
    (Heap.empty.pushWeak ⟨none, 0⟩).weakAt 0 = some ⟨none, 0⟩ ∧
      WeakPtr.Expired ⟨none, 0⟩ (Heap.empty.pushWeak ⟨none, 0⟩) = some true ∧
      WeakPtr.Lock true 0 (Heap.empty.pushWeak ⟨none, 0⟩) = Result.undefined :=
  ⟨by decide, by decide,
    Lock_stale_capable_undefined (Heap.empty.pushWeak ⟨none, 0⟩) 0 ⟨none, 0⟩ (by decide)
      (by decide)⟩

/-- For a type without the self-reference capability `Lock()` is as C5 says: in a
reachable state it never throws and never fails; on a stale handle it returns an empty
strong handle and changes nothing else; otherwise it returns a strong handle with the
block and tracked address of the weak handle and `strong_cnt` of the block is one
greater. -/
theorem Lock_plain (ops : List Op) (s : Heap) (w : Nat) (self : WeakPtr)
    (hx : exec ops Heap.empty = some s) (hw : s.weakAt w = some self) :
    (Stale self s → WeakPtr.Lock false w s = Result.ok (s.pushShared ⟨none, 0⟩)) ∧
    (¬ Stale self s → ∃ b blk, self.block_ = some b ∧ s.block b = some blk ∧
      WeakPtr.Lock false w s = Result.ok ((s.pushShared ⟨some b, self.ptr_⟩).setBlock b
        { blk with strong_cnt := blk.strong_cnt + 1 })) := by
  have hp := promote_spec ops s false w self hx hw
  constructor
  · intro hst
    unfold WeakPtr.Lock
    simp only [hw]
    rcases hst with hn | ⟨b, blk, hb, hblk, hz⟩
    · simp [WeakPtr.Expired, hn, SharedPtr.ctor, ESFT, Result.ofOption]
    · simp [expired_eq hb hblk, hz, SharedPtr.ctor, ESFT, Result.ofOption]
  · intro hns
    obtain ⟨b, blk, hb, hblk, he⟩ := hp.2.2.1 rfl hns
    refine ⟨b, blk, hb, hblk, ?_⟩
    have hpos : blk.strong_cnt ≠ 0 := by
      intro hz
      exact hns (Or.inr ⟨b, blk, hb, hblk, hz⟩)
    unfold WeakPtr.Lock
    simp only [hw, expired_eq hb hblk, hpos, decide_False]
    exact he


/-- C6, failing input: for a type with the self-reference capability the aliasing
constructor called with a null address does not return: `ESFT()` calls
`InitWeakThis(nullptr)`, a null dereference, whatever the owner handle is. -/
theorem alias_null_capable_undefined (s : Heap) (i : Nat) :
    SharedPtr.ctorAlias true i 0 s = none := by
  unfold SharedPtr.ctorAlias
  split
  · rfl
  · rename_i other hi
    split
    · rfl
    · rename_i s1 e1
      have h1 : s1.sharedAt s.shared.length = some ⟨other.GetBlock, 0⟩ := by
        rw [sharedAt_strongIncIf e1, sharedAt_pushShared, if_pos rfl]
      unfold ESFT
      simp only [if_true]
      exact InitWeakThis_null h1 rfl

/-- The object a control block owns: `ptr` of a `ControlBlockPointer`, the embedded
storage of a `ControlBlockEmplace`. -/
def Derived.object : Derived → Nat
  | Derived.ControlBlockPointer ptr => ptr
  | Derived.ControlBlockEmplace storage => storage

theorem weakRelease_no_destruct {s s' : Heap} {b : Nat} (e : WeakPtr.release b s = some s') :
    ∃ evs, Extends s s' evs ∧ ∀ a, Event.Destruct a ∉ evs := by
  cases hb : s.block b with
  | none =>
    unfold WeakPtr.release weakDec at e
    simp [hb] at e
  | some blk =>
    have h := weakRelease_spec hb e
    split at h
    · exact ⟨[Event.Delete b], by rw [h]; rfl, by simp⟩
    · exact ⟨[], by rw [h]; simp [Extends, Heap.setBlock], by simp⟩

theorem weakDtor_no_destruct {s s' : Heap} {w : Nat} (e : WeakPtr.dtor w s = some s') :
    ∃ evs, Extends s s' evs ∧ ∀ a, Event.Destruct a ∉ evs := by
  unfold WeakPtr.dtor at e
  split at e
  · cases e
  · rename_i h hw
    cases hr : h.block_ with
    | none =>
      simp only [hr, WeakPtr.releaseIf, Option.some.injEq] at e
      subst e
      exact ⟨[], by simp [Extends, Heap.setWeak], by simp⟩
    | some b =>
      simp only [hr, WeakPtr.releaseIf] at e
      obtain ⟨evs, h1, h2⟩ := weakRelease_no_destruct e
      exact ⟨evs, h1, h2⟩

theorem destruct_only {s s' : Heap} {a : Nat} (e : destruct a s = some s') :
    ∃ evs, Extends s s' (Event.Destruct a :: evs) ∧ ∀ c, Event.Destruct c ∉ evs := by
  unfold destruct at e
  split at e
  · cases e
  · split at e
    · split at e
      · simp only [Option.some.injEq] at e
        subst e
        exact ⟨[], rfl, by simp⟩
      · obtain ⟨evs, h1, h2⟩ := weakDtor_no_destruct e
        refine ⟨evs, ?_, h2⟩
        unfold Extends at h1 ⊢
        rw [h1]
        simp [Heap.emit, Heap.setObject]
    · cases e

/-- What `Destroy()` of block `b` destroys: nothing for a `ControlBlockPointer` with a
null `ptr`, and otherwise the object the block owns and no other. -/
theorem Destroy_own_object {s s' : Heap} {b : Nat} {blk : ControlBlockBase}
    (hb : s.block b = some blk) (e : Destroy b s = some s') :
    ∃ evs, s'.log = s.log ++ Event.Destroy b :: evs ∧
      ∀ a, Event.Destruct a ∈ evs → a = blk.derived.object := by
  unfold Destroy at e
  simp only [hb] at e
  have key : ∀ a, a = blk.derived.object →
      destruct a (s.emit (Event.Destroy b)) = some s' →
      ∃ evs, s'.log = s.log ++ Event.Destroy b :: evs ∧
        ∀ c, Event.Destruct c ∈ evs → c = blk.derived.object := by
    intro a ha ea
    obtain ⟨evs, h1, h2⟩ := destruct_only ea
    refine ⟨Event.Destruct a :: evs, ?_, ?_⟩
    · unfold Extends at h1
      rw [h1]
      simp [Heap.emit]
    · intro c hc
      rcases List.mem_cons.mp hc with h | h
      · injection h with h
        rw [h, ha]
      · exact absurd h (h2 c)
  split at e
  · rename_i ptr hd
    split at e
    · simp only [Option.some.injEq] at e
      subst e
      exact ⟨[], rfl, by simp⟩
    · split at e
      · cases e
      · split at e
        · cases e
        · exact key ptr (by rw [hd]; rfl) e
  · rename_i storage hd
    exact key storage (by rw [hd]; rfl) e

/-- For a type without the self-reference capability, aliasing is as C6 says.  In a
reachable state, `SharedPtr(H, A)` for a handle `H` on block `b` returns a handle whose
`Get()` is `A` and whose block is `b`, with `strong_cnt` of `b` one greater and nothing
else changed.  In every reachable state, a block that some live strong handle refers to,
an aliasing one included, has not had `Destroy()` called.  And `Destroy()` destroys the
object the block owns, whatever address the handles track. -/
theorem alias_plain :
    (∀ (ops : List Op) (s : Heap) (i A b : Nat) (H : SharedPtr) (blk : ControlBlockBase),
      exec ops Heap.empty = some s → s.sharedAt i = some H → H.block_ = some b →
      s.block b = some blk →
      SharedPtr.ctorAlias false i A s = some ((s.pushShared ⟨some b, A⟩).setBlock b
        { blk with strong_cnt := blk.strong_cnt + 1 }) ∧
      SharedPtr.Get ⟨some b, A⟩ = A) ∧
    (∀ (ops : List Op) (s : Heap) (i b : Nat) (h : SharedPtr),
      exec ops Heap.empty = some s → s.sharedAt i = some h → h.block_ = some b →
      Event.Destroy b ∉ s.log) ∧
    (∀ (s s' : Heap) (b : Nat) (blk : ControlBlockBase),
      s.block b = some blk → Destroy b s = some s' →
      ∃ evs, s'.log = s.log ++ Event.Destroy b :: evs ∧
        ∀ a, Event.Destruct a ∈ evs → a = blk.derived.object) := by
  refine ⟨?_, ?_, ?_⟩
  · intro ops s i A b H blk hx hi hb hblk
    have hv : Valid s := Valid.empty.exec hx
    constructor
    · unfold SharedPtr.ctorAlias
      simp only [hi, SharedPtr.GetBlock, hb, strongIncIf]
      rw [strongInc_eq (s := s.pushShared ⟨some b, A⟩) hblk]
      simp only [ESFT, Bool.false_eq_true, if_false, hv.incr_strong hblk]
    · unfold SharedPtr.Get
      split
      · rfl
      · rename_i h
        simp only [ne_eq, not_not] at h
        exact h.symm
  · intro ops s i b h hx hi hb
    have hv : Valid s := Valid.empty.exec hx
    obtain ⟨blk, hblk, hpos⟩ := hv.block_of_shared hi hb
    intro hin
    have := (hv.2.destroyed b blk hblk).mpr hin
    omega
  · intro s s' b blk hb e
    exact Destroy_own_object hb e

theorem alias_plain_witness :
    exec [Op.MakeShared false] Heap.empty
        = some ⟨[some ⟨1, 0, Derived.ControlBlockEmplace 1⟩], [⟨true, true, none⟩],
          [some ⟨some 0, 1⟩], [], []⟩ ∧
      SharedPtr.ctorAlias false 0 7
          ⟨[some ⟨1, 0, Derived.ControlBlockEmplace 1⟩], [⟨true, true, none⟩],
            [some ⟨some 0, 1⟩], [], []⟩
        = some ⟨[some ⟨2, 0, Derived.ControlBlockEmplace 1⟩], [⟨true, true, none⟩],
          [some ⟨some 0, 1⟩, some ⟨some 0, 7⟩], [], []⟩ :=
  ⟨by decide,
    (alias_plain.1 [Op.MakeShared false]
      ⟨[some ⟨1, 0, Derived.ControlBlockEmplace 1⟩], [⟨true, true, none⟩],
        [some ⟨some 0, 1⟩], [], []⟩ 0 7 0 ⟨some 0, 1⟩ ⟨1, 0, Derived.ControlBlockEmplace 1⟩
      (by decide) (by decide) rfl (by decide)).1⟩


theorem weakRelease_eq {s : Heap} {b : Nat} {blk : ControlBlockBase}
    (hb : s.block b = some blk) :
    WeakPtr.release b s = some (if blk.strong_cnt = 0 ∧ decr blk.weak_cnt = 0
      then (s.setBlock b { blk with weak_cnt := decr blk.weak_cnt }).deleteBlock b
      else s.setBlock b { blk with weak_cnt := decr blk.weak_cnt }) := by
  unfold WeakPtr.release weakDec
  simp only [hb]
  unfold deleteIfUnused
  rw [block_setBlock_self hb]
  simp only
  split <;> rfl

/-- The wiring step returns when the handle in slot `i` has a block with a non-zero
strong counter and tracks a live object whose `weak_this_` is a live weak handle that
is empty or already observes that block. -/
theorem InitWeakThis_defined {s : Heap} {i b m : Nat} {self : SharedPtr}
    {blk : ControlBlockBase} {o : Object} {old : WeakPtr}
    (hi : s.sharedAt i = some self) (hs : self.block_ = some b) (hb : s.block b = some blk)
    (hpos : blk.strong_cnt ≠ 0)
    (ho : s.object self.ptr_ = some o) (ha : o.alive = true) (hm : o.weak_this_ = some m)
    (hw : s.weakAt m = some old) (hold : old.block_ = some b ∨ old.block_ = none) :
    ∃ s', InitWeakThis i s = some s' := by
  have hmlt := weakAt_lt hw
  have hne : m ≠ s.weak.length := Nat.ne_of_lt hmlt
  unfold InitWeakThis
  simp only [hi]
  unfold WeakPtr.ctorDemote
  simp only [hi, SharedPtr.GetBlock, hs, weakIncIf]
  rw [weakInc_eq (s := s.pushWeak ⟨some b, self.Get⟩) hb]
  simp only [object_setBlock, object_pushWeak, ho, ha, if_true, hm]
  unfold WeakPtr.assignMove
  simp only [weakAt_setBlock, weakAt_pushWeak, if_neg hne, hw, if_true]
  generalize hst : (((s.pushWeak ⟨some b, self.Get⟩).setBlock b
    { blk with weak_cnt := incr blk.weak_cnt }).setWeak m (some ⟨some b, self.Get⟩)).setWeak
      s.weak.length (some ⟨none, 0⟩) = st
  have hb0 : ((s.pushWeak ⟨some b, self.Get⟩).setBlock b
      { blk with weak_cnt := incr blk.weak_cnt }).block b
      = some { blk with weak_cnt := incr blk.weak_cnt } :=
    block_setBlock_self (s := s.pushWeak ⟨some b, self.Get⟩) hb _
  have hst_block : st.block b = some { blk with weak_cnt := incr blk.weak_cnt } := by
    subst hst; exact hb0
  have hm0 : (s.pushWeak ⟨some b, self.Get⟩).weakAt m = some old := by
    rw [weakAt_pushWeak, if_neg hne]; exact hw
  have ht0 : ((s.pushWeak ⟨some b, self.Get⟩).setWeak m (some ⟨some b, self.Get⟩)).weakAt
      s.weak.length = some ⟨some b, self.Get⟩ := by
    rw [weakAt_setWeak hm0, if_neg (Ne.symm hne), weakAt_pushWeak, if_pos rfl]
  have hst_t : st.weakAt s.weak.length = some ⟨none, 0⟩ := by
    subst hst
    show (((s.pushWeak ⟨some b, self.Get⟩).setWeak m (some ⟨some b, self.Get⟩)).setWeak
      s.weak.length (some ⟨none, 0⟩)).weakAt s.weak.length = _
    rw [weakAt_setWeak ht0, if_pos rfl]
  rcases hold with hold | hold
  · simp only [hold, WeakPtr.releaseIf]
    rw [weakRelease_eq hst_block]
    simp only [hpos, false_and, if_false]
    unfold WeakPtr.dtor
    rw [weakAt_setBlock, hst_t]
    exact ⟨_, rfl⟩
  · simp only [hold, WeakPtr.releaseIf]
    unfold WeakPtr.dtor
    simp only [hst_t, WeakPtr.releaseIf]
    exact ⟨_, rfl⟩

theorem SharedPtr.Get_eq (h : SharedPtr) : h.Get = h.ptr_ := by
  unfold SharedPtr.Get
  split
  · rfl
  · rename_i hn
    simp only [ne_eq, not_not] at hn
    exact hn.symm

theorem useCount_of_block {s : Heap} {h : SharedPtr} {b : Nat} {blk : ControlBlockBase}
    (hb : h.block_ = some b) (hblk : s.block b = some blk) :
    h.UseCount s = some blk.strong_cnt := by
  unfold SharedPtr.UseCount
  simp only [hb, hblk]

/-- What `MakeShared` of a self-referencing type leaves: a strong handle on a new block
that tracks a new live object, whose `weak_this_` observes that block and the object. -/
theorem MakeShared_wires (s : Heap) :
    ∃ s', MakeShared true s = some s' ∧
      s'.sharedAt s.shared.length = some ⟨some s.blocks.length, s.objects.length + 1⟩ ∧
      s'.object (s.objects.length + 1) = some ⟨true, true, some s.weak.length⟩ ∧
      s'.weakAt s.weak.length = some ⟨some s.blocks.length, s.objects.length + 1⟩ ∧
      s'.block s.blocks.length
        = some ⟨1, 1, Derived.ControlBlockEmplace (s.objects.length + 1)⟩ := by
  generalize hs2 : (({ s.pushWeak ⟨none, 0⟩ with
      objects := s.objects ++ [⟨true, true, some s.weak.length⟩] } : Heap).newBlock
      ⟨1, 0, Derived.ControlBlockEmplace (s.objects.length + 1)⟩).pushShared
      ⟨some s.blocks.length, s.objects.length + 1⟩ = s2
  have hM : MakeShared true s = InitWeakThis s.shared.length s2 := by
    subst hs2
    rfl
  have hi : s2.sharedAt s.shared.length
      = some ⟨some s.blocks.length, s.objects.length + 1⟩ := by
    subst hs2
    rw [sharedAt_pushShared]
    exact if_pos rfl
  have hb : s2.block s.blocks.length
      = some ⟨1, 0, Derived.ControlBlockEmplace (s.objects.length + 1)⟩ := by
    subst hs2
    rw [block_pushShared, block_newBlock]
    exact if_pos rfl
  have ho : s2.object (s.objects.length + 1) = some ⟨true, true, some s.weak.length⟩ := by
    subst hs2
    simp [Heap.object, Heap.pushShared, Heap.newBlock, Heap.pushWeak]
  have hw : s2.weakAt s.weak.length = some ⟨none, 0⟩ := by
    subst hs2
    simp [Heap.weakAt, Heap.pushShared, Heap.newBlock, Heap.pushWeak]
  obtain ⟨s', hE⟩ := InitWeakThis_defined hi rfl hb (by simp) ho rfl rfl hw (Or.inr rfl)
  have hsp := InitWeakThis_spec hi rfl hb (by simp) (by simp [SIZE_MOD]) ho rfl hw hE
  obtain ⟨hsh, hob, hblk', hmk, _⟩ := hsp
  refine ⟨s', by rw [hM]; exact hE, ?_, ?_, ?_, ?_⟩
  · unfold Heap.sharedAt at hi ⊢
    rw [hsh]
    exact hi
  · unfold Heap.object at ho ⊢
    rw [hob]
    exact ho
  · rw [hmk, SharedPtr.Get_eq]
  · rw [hblk']
    simp [incr, SIZE_MOD]

theorem SharedFromThis_marked (ops : List Op) (s : Heap) (a m b : Nat) (o : Object)
    (blk : ControlBlockBase) (hx : exec ops Heap.empty = some s)
    (ho : s.object a = some o) (ha : o.alive = true) (hm : o.weak_this_ = some m)
    (hw : s.weakAt m = some ⟨some b, a⟩) (hb : s.block b = some blk)
    (hpos : blk.strong_cnt ≠ 0) :
    ∃ s', SharedFromThis a s = Result.ok s' ∧
      s'.shared = s.shared ++ [some ⟨some b, a⟩] ∧
      s'.block b = some { blk with strong_cnt := blk.strong_cnt + 1 } ∧
      s'.weakAt m = some ⟨some b, a⟩ ∧
      (∀ i h, s'.sharedAt i = some h → h.block_ = some b →
        h.UseCount s' = some (blk.strong_cnt + 1)) := by
  have hv : Valid s := Valid.empty.exec hx
  have hinc := hv.incr_strong hb
  have hwl : blk.weak_cnt < SIZE_MOD := hv.weak_lt hb
  have hp := promote_of_live true hw rfl hb hpos
  have hb1 : ((s.pushShared ⟨some b, a⟩).setBlock b
      { blk with strong_cnt := incr blk.strong_cnt }).block b
      = some { blk with strong_cnt := incr blk.strong_cnt } :=
    block_setBlock_self (s := s.pushShared ⟨some b, a⟩) hb _
  have hi1 : ((s.pushShared ⟨some b, a⟩).setBlock b
      { blk with strong_cnt := incr blk.strong_cnt }).sharedAt s.shared.length
      = some ⟨some b, a⟩ := by
    rw [sharedAt_setBlock, sharedAt_pushShared, if_pos rfl]
  have hpos1 : incr blk.strong_cnt ≠ 0 := by rw [hinc]; omega
  obtain ⟨s', hE⟩ := InitWeakThis_defined hi1 rfl hb1 hpos1 ho ha hm hw (Or.inl rfl)
  have hsp := InitWeakThis_spec hi1 rfl hb1 hpos1 hwl ho hm hw hE
  obtain ⟨hsh, _, hblk', hmk, _⟩ := hsp
  have hblk2 : s'.block b = some { blk with strong_cnt := blk.strong_cnt + 1 } := by
    rw [hblk']
    simp only [if_true, hinc]
  refine ⟨s', ?_, ?_, hblk2, ?_, ?_⟩
  · unfold SharedFromThis
    simp only [ho, ha, if_true, hm]
    unfold WeakPtr.Lock
    simp only [hw, expired_eq (h := ⟨some b, a⟩) rfl hb, hpos, decide_False]
    rw [hp]
    simp only [ESFT, if_true, hE]
    rfl
  · rw [hsh]
    rfl
  · rw [hmk, SharedPtr.Get_eq]
  · intro i h _ hhb
    exact useCount_of_block hhb hblk2


/-- Two self-referencing objects made by `MakeShared` and an aliasing handle that shares
the second object's block and tracks the first object. -/
def strayRun : List Op :=
  [Op.MakeShared true, Op.MakeShared true, Op.SharedPtr_ctorAlias true 1 1]

/-- The state `strayRun` ends in: the `weak_this_` of the first object (weak slot 0)
observes block `1`, not the block `0` of the handle that wrapped the object. -/
def strayHeap : Heap :=
  { blocks := [some ⟨1, 0, Derived.ControlBlockEmplace 1⟩,
      some ⟨2, 2, Derived.ControlBlockEmplace 2⟩],
    objects := [⟨true, true, some 0⟩, ⟨true, true, some 2⟩],
    shared := [some ⟨some 0, 1⟩, some ⟨some 1, 2⟩, some ⟨some 1, 1⟩],
    weak := [some ⟨some 1, 1⟩, none, some ⟨some 1, 2⟩, none, none],
    log := [] }

/-- The state after `SharedFromThis()` of the first object of `strayHeap`. -/
def strayShared : Heap :=
  { blocks := [some ⟨1, 0, Derived.ControlBlockEmplace 1⟩,
      some ⟨3, 2, Derived.ControlBlockEmplace 2⟩],
    objects := [⟨true, true, some 0⟩, ⟨true, true, some 2⟩],
    shared := [some ⟨some 0, 1⟩, some ⟨some 1, 2⟩, some ⟨some 1, 1⟩, some ⟨some 1, 1⟩],
    weak := [some ⟨some 1, 1⟩, none, some ⟨some 1, 2⟩, none, none, none],
    log := [] }

/-- C7 as stated fails: the first object was wrapped by the handle in slot `0` through
`MakeShared` and is alive, yet `SharedFromThis()` returns a handle on block `1`, not on
the block `0` of that handle, and the two handles report use counts `3` and `1`. -/
theorem SharedFromThis_other_block :
    exec strayRun Heap.empty = some strayHeap ∧
      strayHeap.sharedAt 0 = some ⟨some 0, 1⟩ ∧
      strayHeap.object 1 = some ⟨true, true, some 0⟩ ∧
      SharedFromThis 1 strayHeap = Result.ok strayShared ∧
      strayShared.sharedAt 3 = some ⟨some 1, 1⟩ ∧
      SharedPtr.UseCount ⟨some 1, 1⟩ strayShared = some 3 ∧
      SharedPtr.UseCount ⟨some 0, 1⟩ strayShared = some 1 := by
  decide

/-- `UseCount()` of the strong handle in slot `i`. -/
def useCountAt (i : Nat) (s : Heap) : Option Nat :=
  (s.sharedAt i).bind (fun h => h.UseCount s)

/-- `UseCount()` of the weak handle in slot `w`. -/
def weakUseCountAt (w : Nat) (s : Heap) : Option Nat :=
  (s.weakAt w).bind (fun h => h.UseCount s)

/-- `Expired()` of the weak handle in slot `w`. -/
def expiredAt (w : Nat) (s : Heap) : Option Bool :=
  (s.weakAt w).bind (fun h => h.Expired s)

/-- The scenario of the specification for an object type `X` with or without the
self-reference capability: `S1 = MakeShared<X>()`, copy `S1` to `S2`, demote `S1` to
`W1`, destroy `S1`, destroy `S2`. -/
def scenarioRun (cap : Bool) : List Op :=
  [Op.MakeShared cap, Op.SharedPtr_ctorCopy cap 0, Op.WeakPtr_ctorDemote 0,
    Op.SharedPtr_dtor 0, Op.SharedPtr_dtor 1]

/-- The state after the scenario for a plain `X`: the object destroyed, the block kept
by `W1` with `strong_cnt == 0` and `weak_cnt == 1`. -/
def scenarioHeap : Heap :=
  { blocks := [some ⟨0, 1, Derived.ControlBlockEmplace 1⟩],
    objects := [⟨false, true, none⟩],
    shared := [none, none],
    weak := [some ⟨some 0, 1⟩],
    log := [Event.Destroy 0, Event.Destruct 1] }

/-- The scenario of the specification as a trace, for an object type `X` without the
self-reference capability, where it runs as specified:
`S1 = MakeShared<X>()` has use count `1`; after the copy to `S2` both have use count `2`;
demoting `S1` to `W1` leaves it at `2`; after `S1` and `S2` are destroyed, `X` has been
destroyed exactly once, the block has not been deleted, `W1.UseCount()` is `0`,
`W1.Expired()` is true, and `W1.Lock()` returns an empty strong handle. -/
theorem spec_scenario :
    (exec ((scenarioRun false).take 1) Heap.empty).bind (useCountAt 0) = some 1 ∧
    (exec ((scenarioRun false).take 2) Heap.empty).bind (useCountAt 0) = some 2 ∧
    (exec ((scenarioRun false).take 2) Heap.empty).bind (useCountAt 1) = some 2 ∧
    (exec ((scenarioRun false).take 3) Heap.empty).bind (useCountAt 0) = some 2 ∧
    (exec ((scenarioRun false).take 3) Heap.empty).bind (weakUseCountAt 0) = some 2 ∧
    (exec ((scenarioRun false).take 4) Heap.empty).bind (useCountAt 1) = some 1 ∧
    exec (scenarioRun false) Heap.empty = some scenarioHeap ∧
    destroys scenarioHeap 0 = 1 ∧
    scenarioHeap.log.count (Event.Destruct 1) = 1 ∧
    scenarioHeap.object 1 = some ⟨false, true, none⟩ ∧
    deletes scenarioHeap 0 = 0 ∧
    scenarioHeap.block 0 = some ⟨0, 1, Derived.ControlBlockEmplace 1⟩ ∧
    weakUseCountAt 0 scenarioHeap = some 0 ∧
    expiredAt 0 scenarioHeap = some true ∧
    WeakPtr.Lock false 0 scenarioHeap = Result.ok (scenarioHeap.pushShared ⟨none, 0⟩) ∧
    (scenarioHeap.pushShared ⟨none, 0⟩).sharedAt 2 = some ⟨none, 0⟩ ∧
    useCountAt 2 (scenarioHeap.pushShared ⟨none, 0⟩) = some 0 := by
  decide

/-- C8, failing input: the scenario of the specification for an object type `X` that
derives from `EnableSharedFromThis`.  `S1 = MakeShared<X>()` has use count `1`; after the
copy to `S2` the use count is `2`; demoting `S1` to `W1` leaves it at `2`; after `S1` and
`S2` are destroyed, `X` has been destroyed exactly once, the block has not been deleted,
`W1.UseCount()` is `0` and `W1.Expired()` is true; but `W1.Lock()` does not return an empty
strong handle: it builds `SharedPtr<X>()`, whose wiring step dereferences a null tracked
address, which is undefined. -/
theorem spec_scenario_capable :
    (exec ((scenarioRun true).take 1) Heap.empty).bind (useCountAt 0) = some 1 ∧
    (exec ((scenarioRun true).take 2) Heap.empty).bind (useCountAt 1) = some 2 ∧
    (exec ((scenarioRun true).take 3) Heap.empty).bind (weakUseCountAt 3) = some 2 ∧
    (exec (scenarioRun true) Heap.empty).bind (weakUseCountAt 3) = some 0 ∧
    (exec (scenarioRun true) Heap.empty).bind (expiredAt 3) = some true ∧
    (exec (scenarioRun true) Heap.empty).map (fun s => destroys s 0) = some 1 ∧
    (exec (scenarioRun true) Heap.empty).map (fun s => deletes s 0) = some 0 ∧
    (exec (scenarioRun true) Heap.empty).map (WeakPtr.Lock true 3)
      = some Result.undefined := by
  decide

theorem Heap.ext_fields {s t : Heap} (h1 : s.blocks = t.blocks) (h2 : s.objects = t.objects)
    (h3 : s.shared = t.shared) (h4 : s.weak = t.weak) (h5 : s.log = t.log) : s = t := by
  cases s
  cases t
  simp only at h1 h2 h3 h4 h5
  subst h1 h2 h3 h4 h5
  rfl

theorem blocks_set_restore {s : Heap} {b : Nat} {blk : ControlBlockBase}
    (hb : s.block b = some blk) (x : Option ControlBlockBase) :
    (s.blocks.set b x).set b (some blk) = s.blocks := by
  rw [List.set_set]
  apply List.ext_getElem?
  intro n
  rw [List.getElem?_set]
  split
  · rename_i hn
    subst hn
    have : s.blocks.getD b none = some blk := hb
    rw [List.getD_eq_getElem?_getD] at this
    cases hg : s.blocks[b]? with
    | none => simp [hg] at this
    | some v =>
      simp only [hg, Option.getD_some] at this
      rw [this]
      simp [lt_of_block hb]
  · rfl

theorem strongDec_eq {s : Heap} {b : Nat} {blk : ControlBlockBase} (hb : s.block b = some blk) :
    strongDec b s = some (s.setBlock b { blk with strong_cnt := decr blk.strong_cnt }) := by
  unfold strongDec
  rw [hb]

theorem weakDec_eq {s : Heap} {b : Nat} {blk : ControlBlockBase} (hb : s.block b = some blk) :
    weakDec b s = some (s.setBlock b { blk with weak_cnt := decr blk.weak_cnt }) := by
  unfold weakDec
  rw [hb]

theorem destroyIfZero_pos {s : Heap} {b : Nat} {blk : ControlBlockBase}
    (hb : s.block b = some blk) (h : blk.strong_cnt ≠ 0) : destroyIfZero b s = some s := by
  unfold destroyIfZero
  rw [hb]
  exact if_neg h

theorem destroyIfZero_zero {s : Heap} {b : Nat} {blk : ControlBlockBase}
    (hb : s.block b = some blk) (h : blk.strong_cnt = 0) : destroyIfZero b s = Destroy b s := by
  unfold destroyIfZero
  rw [hb]
  exact if_pos h

theorem deleteIfUnused_used {s : Heap} {b : Nat} {blk : ControlBlockBase}
    (hb : s.block b = some blk) (h : ¬ (blk.strong_cnt = 0 ∧ blk.weak_cnt = 0)) :
    deleteIfUnused b s = some s := by
  unfold deleteIfUnused
  rw [hb]
  exact if_neg h

theorem deleteIfUnused_unused {s : Heap} {b : Nat} {blk : ControlBlockBase}
    (hb : s.block b = some blk) (h : blk.strong_cnt = 0 ∧ blk.weak_cnt = 0) :
    deleteIfUnused b s = some (s.deleteBlock b) := by
  unfold deleteIfUnused
  rw [hb]
  exact if_pos h

theorem setBlock_setBlock (s : Heap) (b : Nat) (x y : ControlBlockBase) :
    (s.setBlock b x).setBlock b y = s.setBlock b y := by
  unfold Heap.setBlock
  simp only [List.set_set]

/-- A strong release that is not the last one only decrements `strong_cnt`. -/
theorem release_not_last {s : Heap} {b : Nat} {blk : ControlBlockBase}
    (hb : s.block b = some blk) (h2 : 2 ≤ blk.strong_cnt) (hlt : blk.strong_cnt < SIZE_MOD)
    (hw : blk.weak_cnt < SIZE_MOD) :
    SharedPtr.release b s
      = some (s.setBlock b { blk with strong_cnt := blk.strong_cnt - 1 }) := by
  have hdec : decr blk.strong_cnt = blk.strong_cnt - 1 := decr_eq (by omega) hlt
  have hnz : decr blk.strong_cnt ≠ 0 := by rw [hdec]; omega
  have h1 := block_setBlock_self hb { blk with weak_cnt := incr blk.weak_cnt }
  have h2 := block_setBlock_self h1
    { blk with weak_cnt := incr blk.weak_cnt, strong_cnt := decr blk.strong_cnt }
  have h3 := block_setBlock_self h2
    { blk with weak_cnt := decr (incr blk.weak_cnt), strong_cnt := decr blk.strong_cnt }
  rw [release_eq, weakInc_eq hb]
  show (match strongDec b _ with
    | none => none
    | some s2 =>
      match destroyIfZero b s2 with
      | none => none
      | some s3 =>
        match weakDec b s3 with
        | none => none
        | some s4 => deleteIfUnused b s4) = _
  rw [strongDec_eq h1]
  show (match destroyIfZero b _ with
    | none => none
    | some s3 =>
      match weakDec b s3 with
      | none => none
      | some s4 => deleteIfUnused b s4) = _
  rw [destroyIfZero_pos h2 hnz]
  show (match weakDec b _ with
    | none => none
    | some s4 => deleteIfUnused b s4) = _
  rw [weakDec_eq h2]
  show deleteIfUnused b _ = _
  rw [deleteIfUnused_used h3 (fun h => hnz h.1), setBlock_setBlock, setBlock_setBlock,
    decr_incr hw, hdec]

/-- The state a move construction from the handle `src` in slot `i` leaves before the
wiring step: a new handle with the fields of `src`, and `src` empty. -/
def moved (s : Heap) (i : Nat) (src : SharedPtr) : Heap :=
  (s.pushShared ⟨src.block_, src.ptr_⟩).setShared i (some ⟨none, 0⟩)

theorem ctorMove_eq {s : Heap} {i : Nat} {src : SharedPtr} (cap : Bool)
    (hi : s.sharedAt i = some src) :
    SharedPtr.ctorMove cap i s = ESFT cap s.shared.length (moved s i src) := by
  unfold SharedPtr.ctorMove
  simp only [hi]
  rfl

theorem ctorMoveFrom_eq {s : Heap} {i : Nat} {src : SharedPtr} (cap : Bool) (hv : Valid s)
    (hi : s.sharedAt i = some src) :
    SharedPtr.ctorMoveFrom cap i s = ESFT cap s.shared.length (moved s i src) := by
  have hlt := sharedAt_lt hi
  have hne : i ≠ s.shared.length := Nat.ne_of_lt hlt
  unfold SharedPtr.ctorMoveFrom
  simp only [hi, SharedPtr.GetBlock, SharedPtr.Get_eq]
  cases hb : src.block_ with
  | none =>
    simp only [strongIncIf]
    unfold SharedPtr.Reset
    simp only [sharedAt_pushShared, if_neg hne, hi, hb, SharedPtr.releaseIf]
    unfold moved
    rw [hb]
  | some b =>
    obtain ⟨blk, hblk, hpos⟩ := hv.block_of_shared hi hb
    have hinc := hv.incr_strong hblk
    have hsl := hv.1.cnt_strong_lt hblk
    simp only [strongIncIf]
    rw [strongInc_eq (s := s.pushShared ⟨some b, src.ptr_⟩) hblk]
    simp only
    unfold SharedPtr.Reset
    rw [sharedAt_setBlock, sharedAt_pushShared, if_neg hne, hi]
    simp only [hb, SharedPtr.releaseIf]
    have hb1 : (((s.pushShared ⟨some b, src.ptr_⟩).setBlock b
        { blk with strong_cnt := incr blk.strong_cnt }).setShared i (some ⟨none, 0⟩)).block b
        = some { blk with strong_cnt := incr blk.strong_cnt } :=
      block_setBlock_self (s := s.pushShared ⟨some b, src.ptr_⟩) hblk _
    have hwl : blk.weak_cnt < SIZE_MOD := hv.weak_lt hblk
    rw [release_not_last hb1 (by simp only [hinc]; omega) (by simp only [hinc]; omega) hwl]
    simp only [hinc, Nat.add_sub_cancel]
    have : ((((s.pushShared ⟨some b, src.ptr_⟩).setBlock b
        { blk with strong_cnt := blk.strong_cnt + 1 }).setShared i (some ⟨none, 0⟩)).setBlock b
        { strong_cnt := blk.strong_cnt, weak_cnt := blk.weak_cnt, derived := blk.derived })
        = moved s i src := by
      unfold moved
      rw [hb]
      apply Heap.ext_fields
      · exact blocks_set_restore hblk _
      · rfl
      · rfl
      · rfl
      · rfl
    rw [this]

theorem moved_facts {s : Heap} {i : Nat} {src : SharedPtr} (hi : s.sharedAt i = some src) :
    (moved s i src).sharedAt s.shared.length = some ⟨src.block_, src.ptr_⟩ ∧
      (moved s i src).sharedAt i = some ⟨none, 0⟩ ∧
      (moved s i src).blocks = s.blocks ∧ (moved s i src).log = s.log ∧
      (moved s i src).objects = s.objects ∧ (moved s i src).weak = s.weak := by
  have hlt := sharedAt_lt hi
  have hne : i ≠ s.shared.length := Nat.ne_of_lt hlt
  have hi' : (s.pushShared ⟨src.block_, src.ptr_⟩).sharedAt i = some src := by
    rw [sharedAt_pushShared, if_neg hne]; exact hi
  refine ⟨?_, ?_, rfl, rfl, rfl, rfl⟩
  · unfold moved
    rw [sharedAt_setShared hi', if_neg (Ne.symm hne), sharedAt_pushShared, if_pos rfl]
  · unfold moved
    rw [sharedAt_setShared hi', if_pos rfl]

/-- Two self-referencing objects made by `MakeShared` and an aliasing handle that shares
the first object's block and tracks the second object. -/
def crossRun : List Op :=
  [Op.MakeShared true, Op.MakeShared true, Op.SharedPtr_ctorAlias true 0 2]

/-- The state `crossRun` ends in: the `weak_this_` of the second object (weak slot 2)
observes block `0`; the handle in slot `1` owns block `1` and tracks the second object. -/
def crossHeap : Heap :=
  { blocks := [some ⟨2, 2, Derived.ControlBlockEmplace 1⟩,
      some ⟨1, 0, Derived.ControlBlockEmplace 2⟩],
    objects := [⟨true, true, some 0⟩, ⟨true, true, some 2⟩],
    shared := [some ⟨some 0, 1⟩, some ⟨some 1, 2⟩, some ⟨some 0, 2⟩],
    weak := [some ⟨some 0, 1⟩, none, some ⟨some 0, 2⟩, none, none],
    log := [] }

/-- The state after a handle is move-constructed from slot `1` of `crossHeap`. -/
def crossMoved : Heap :=
  { blocks := [some ⟨2, 1, Derived.ControlBlockEmplace 1⟩,
      some ⟨1, 1, Derived.ControlBlockEmplace 2⟩],
    objects := [⟨true, true, some 0⟩, ⟨true, true, some 2⟩],
    shared := [some ⟨some 0, 1⟩, some ⟨none, 0⟩, some ⟨some 0, 2⟩, some ⟨some 1, 2⟩],
    weak := [some ⟨some 0, 1⟩, none, some ⟨some 1, 2⟩, none, none, none],
    log := [] }

/-- C9 as stated fails: move construction of a handle of a self-referencing type changes
`weak_cnt` of the source's block from `0` to `1` and of another block from `2` to `1`,
because the wiring step re-targets `weak_this_`; and move construction from the emptied
source is undefined. -/
theorem move_changes_weak_cnt :
    exec crossRun Heap.empty = some crossHeap ∧
      SharedPtr.ctorMove true 1 crossHeap = some crossMoved ∧
      SharedPtr.ctorMoveFrom true 1 crossHeap = some crossMoved ∧
      crossHeap.block 1 = some ⟨1, 0, Derived.ControlBlockEmplace 2⟩ ∧
      crossMoved.block 1 = some ⟨1, 1, Derived.ControlBlockEmplace 2⟩ ∧
      crossHeap.block 0 = some ⟨2, 2, Derived.ControlBlockEmplace 1⟩ ∧
      crossMoved.block 0 = some ⟨2, 1, Derived.ControlBlockEmplace 1⟩ ∧
      crossMoved.sharedAt 1 = some ⟨none, 0⟩ ∧
      SharedPtr.ctorMove true 1 crossMoved = none := by
  decide

theorem shared_weakRelease {s s' : Heap} {b : Nat} (e : WeakPtr.release b s = some s') :
    s'.shared = s.shared := by
  cases hb : s.block b with
  | none =>
    unfold WeakPtr.release weakDec at e
    simp [hb] at e
  | some blk =>
    have h := weakRelease_spec hb e
    split at h <;> (rw [h]; rfl)

theorem shared_weakDtor {s s' : Heap} {w : Nat} (e : WeakPtr.dtor w s = some s') :
    s'.shared = s.shared := by
  unfold WeakPtr.dtor at e
  split at e
  · cases e
  · rename_i h hw
    cases hr : h.block_ with
    | none =>
      simp only [hr, WeakPtr.releaseIf, Option.some.injEq] at e
      subst e
      rfl
    | some b =>
      simp only [hr, WeakPtr.releaseIf] at e
      rw [shared_weakRelease e]
      rfl

theorem shared_destruct {s s' : Heap} {a : Nat} (e : destruct a s = some s') :
    s'.shared = s.shared := by
  unfold destruct at e
  split at e
  · cases e
  · split at e
    · split at e
      · simp only [Option.some.injEq] at e
        subst e
        rfl
      · rw [shared_weakDtor e]
        rfl
    · cases e

theorem shared_Destroy {s s' : Heap} {b : Nat} (e : Destroy b s = some s') :
    s'.shared = s.shared := by
  unfold Destroy at e
  split at e
  · cases e
  · simp only at e
    split at e
    · split at e
      · simp only [Option.some.injEq] at e
        subst e
        rfl
      · split at e
        · cases e
        · split at e
          · cases e
          · rw [shared_destruct e]
            rfl
    · rw [shared_destruct e]
      rfl

/-- The strong release protocol writes no strong handle. -/
theorem shared_release {s s' : Heap} {b : Nat} (e : SharedPtr.release b s = some s') :
    s'.shared = s.shared := by
  rw [release_eq] at e
  split at e
  · cases e
  · rename_i s1 e1
    split at e
    · cases e
    · rename_i s2 e2
      split at e
      · cases e
      · rename_i s3 e3
        have h1 : s1.shared = s.shared := by
          unfold weakInc at e1
          split at e1
          · cases e1
          · simp only [Option.some.injEq] at e1
            subst e1
            rfl
        have h2 : s2.shared = s1.shared := by
          unfold strongDec at e2
          split at e2
          · cases e2
          · simp only [Option.some.injEq] at e2
            subst e2
            rfl
        have h3 : s3.shared = s2.shared := by
          unfold destroyIfZero at e3
          split at e3
          · cases e3
          · split at e3
            · exact shared_Destroy e3
            · simp only [Option.some.injEq] at e3
              subst e3
              rfl
        rw [shared_weakRelease e, h3, h2, h1]

theorem shared_releaseIf {r : Option Nat} {s s' : Heap}
    (e : SharedPtr.releaseIf r s = some s') : s'.shared = s.shared := by
  cases r with
  | none =>
    simp only [SharedPtr.releaseIf, Option.some.injEq] at e
    subst e
    rfl
  | some b => exact shared_release e

/-- C10: in every reachable state, for two distinct live strong handles `a` (slot `i`)
and `b` (slot `j`): the copy assignment `a = b` first reaches the state `s1` in which `a`
has the fields of `b`, `b` and every other handle are as before, and `strong_cnt` of the
block of `b` is one greater, and then is the strong release protocol applied once to the
former block of `a` when it is non-null, which writes no strong handle.  The move
assignment `a = std::move(b)` first reaches the state `s1` in which `a` has the fields of
`b`, `b` is empty and no block has changed, and then is the same release. -/
theorem assign_adopt_then_release (ops : List Op) (s : Heap) (i j : Nat) (a b : SharedPtr)
    (hr : exec ops Heap.empty = some s) (hi : s.sharedAt i = some a)
    (hj : s.sharedAt j = some b) (hne : i ≠ j) :
    (∃ s1, SharedPtr.assign i j s = SharedPtr.releaseIf a.block_ s1 ∧
      s1.sharedAt i = some b ∧ s1.sharedAt j = some b ∧
      (∀ k, k ≠ i → s1.sharedAt k = s.sharedAt k) ∧
      (∀ c, s1.block c = if b.block_ = some c
        then (s.block c).map (fun blk => { blk with strong_cnt := blk.strong_cnt + 1 })
        else s.block c) ∧
      s1.objects = s.objects ∧ s1.weak = s.weak ∧ s1.log = s.log ∧
      (a.block_ = none → SharedPtr.assign i j s = some s1) ∧
      ∀ s', SharedPtr.assign i j s = some s' → s'.shared = s1.shared) ∧
    (∃ s1, SharedPtr.assignMove i j s = SharedPtr.releaseIf a.block_ s1 ∧
      s1.sharedAt i = some b ∧ s1.sharedAt j = some ⟨none, 0⟩ ∧
      (∀ k, k ≠ i → k ≠ j → s1.sharedAt k = s.sharedAt k) ∧
      s1.blocks = s.blocks ∧ s1.objects = s.objects ∧ s1.weak = s.weak ∧ s1.log = s.log ∧
      (a.block_ = none → SharedPtr.assignMove i j s = some s1) ∧
      ∀ s', SharedPtr.assignMove i j s = some s' → s'.shared = s1.shared) := by
  have hv : Valid s := Valid.empty.exec hr
  have hji : j ≠ i := Ne.symm hne
  have hi1 : (s.setShared i (some ⟨b.block_, b.ptr_⟩)).sharedAt i = some b := by
    rw [sharedAt_setShared hi, if_pos rfl]
  have hj1 : (s.setShared i (some ⟨b.block_, b.ptr_⟩)).sharedAt j = some b := by
    rw [sharedAt_setShared hi, if_neg hji]
    exact hj
  have hk1 : ∀ k, k ≠ i → (s.setShared i (some ⟨b.block_, b.ptr_⟩)).sharedAt k
      = s.sharedAt k := by
    intro k hk
    rw [sharedAt_setShared hi, if_neg hk]
  constructor
  · cases hb : b.block_ with
    | none =>
      refine ⟨s.setShared i (some ⟨b.block_, b.ptr_⟩), ?_, hi1, hj1, hk1, ?_, rfl, rfl, rfl,
        ?_, ?_⟩
      · unfold SharedPtr.assign
        simp only [hi, hj, if_neg hne, hb, strongIncIf]
      · intro c
        rw [if_neg (by simp)]
        rfl
      · intro ha
        unfold SharedPtr.assign
        simp only [hi, hj, if_neg hne, hb, strongIncIf, ha, SharedPtr.releaseIf]
      · intro s' e
        unfold SharedPtr.assign at e
        simp only [hi, hj, if_neg hne, hb, strongIncIf] at e
        rw [shared_releaseIf e, hb]
    | some c =>
      obtain ⟨blk, hblk, hpos⟩ := hv.block_of_shared hj hb
      have hinc := hv.incr_strong hblk
      have hblk1 : (s.setShared i (some ⟨b.block_, b.ptr_⟩)).block c = some blk := hblk
      have hs1 : strongInc c (s.setShared i (some ⟨b.block_, b.ptr_⟩))
          = some ((s.setShared i (some ⟨b.block_, b.ptr_⟩)).setBlock c
            { blk with strong_cnt := blk.strong_cnt + 1 }) := by
        rw [strongInc_eq hblk1, hinc]
      have hasg : SharedPtr.assign i j s = SharedPtr.releaseIf a.block_
          ((s.setShared i (some ⟨b.block_, b.ptr_⟩)).setBlock c
            { blk with strong_cnt := blk.strong_cnt + 1 }) := by
        unfold SharedPtr.assign
        simp only [hi, hj, if_neg hne]
        rw [hb] at hs1 ⊢
        simp only [strongIncIf, hs1]
      refine ⟨(s.setShared i (some ⟨b.block_, b.ptr_⟩)).setBlock c
        { blk with strong_cnt := blk.strong_cnt + 1 }, hasg, ?_, ?_, ?_, ?_, rfl, rfl, rfl,
        ?_, ?_⟩
      · rw [sharedAt_setBlock]
        exact hi1
      · rw [sharedAt_setBlock]
        exact hj1
      · intro k hk
        rw [sharedAt_setBlock]
        exact hk1 k hk
      · intro d
        rw [block_setBlock hblk1]
        by_cases hd : d = c
        · subst hd
          rw [if_pos rfl, if_pos rfl, hblk]
          rfl
        · rw [if_neg hd, if_neg (by intro h; exact hd (Option.some.inj h).symm)]
          rfl
      · intro ha
        rw [hasg, ha]
        rfl
      · intro s' e
        rw [hasg] at e
        rw [shared_releaseIf e]
  · have hi2 : ((s.setShared i (some ⟨b.block_, b.ptr_⟩)).setShared j
        (some ⟨none, 0⟩)).sharedAt i = some b := by
      rw [sharedAt_setShared hj1, if_neg hne]
      exact hi1
    have hj2 : ((s.setShared i (some ⟨b.block_, b.ptr_⟩)).setShared j
        (some ⟨none, 0⟩)).sharedAt j = some ⟨none, 0⟩ := by
      rw [sharedAt_setShared hj1, if_pos rfl]
    have hmv : SharedPtr.assignMove i j s = SharedPtr.releaseIf a.block_
        ((s.setShared i (some ⟨b.block_, b.ptr_⟩)).setShared j (some ⟨none, 0⟩)) := by
      unfold SharedPtr.assignMove
      simp only [hi, hj, if_neg hne]
    refine ⟨(s.setShared i (some ⟨b.block_, b.ptr_⟩)).setShared j (some ⟨none, 0⟩), hmv, hi2,
      hj2, ?_, rfl, rfl, rfl, rfl, ?_, ?_⟩
    · intro k hki hkj
      rw [sharedAt_setShared hj1, if_neg hkj]
      exact hk1 k hki
    · intro ha
      rw [hmv, ha]
      rfl
    · intro s' e
      rw [hmv] at e
      rw [shared_releaseIf e]

/-- Two objects made by `MakeShared`, each with its own handle. -/
def pairHeap : Heap :=
  { blocks := [some ⟨1, 0, Derived.ControlBlockEmplace 1⟩,
      some ⟨1, 0, Derived.ControlBlockEmplace 2⟩],
    objects := [⟨true, true, none⟩, ⟨true, true, none⟩],
    shared := [some ⟨some 0, 1⟩, some ⟨some 1, 2⟩],
    weak := [],
    log := [] }

theorem assign_adopt_then_release_witness :
    exec [Op.MakeShared false, Op.MakeShared false] Heap.empty = some pairHeap ∧
      (∃ s1, SharedPtr.assign 0 1 pairHeap = SharedPtr.releaseIf (some 0) s1 ∧
        s1.sharedAt 0 = some ⟨some 1, 2⟩ ∧ s1.sharedAt 1 = some ⟨some 1, 2⟩) ∧
      SharedPtr.assign 0 1 pairHeap
        = some ⟨[none, some ⟨2, 0, Derived.ControlBlockEmplace 2⟩],
          [⟨false, true, none⟩, ⟨true, true, none⟩],
          [some ⟨some 1, 2⟩, some ⟨some 1, 2⟩], [],
          [Event.Destroy 0, Event.Destruct 1, Event.Delete 0]⟩ ∧
      SharedPtr.assignMove 0 1 pairHeap
        = some ⟨[none, some ⟨1, 0, Derived.ControlBlockEmplace 2⟩],
          [⟨false, true, none⟩, ⟨true, true, none⟩],
          [some ⟨some 1, 2⟩, some ⟨none, 0⟩], [],
          [Event.Destroy 0, Event.Destruct 1, Event.Delete 0]⟩ := by
  refine ⟨by decide, ?_, by decide, by decide⟩
  obtain ⟨s1, h1, h2, h3, _⟩ := (assign_adopt_then_release
    [Op.MakeShared false, Op.MakeShared false] pairHeap 0 1 ⟨some 0, 1⟩ ⟨some 1, 2⟩
    (by decide) (by decide) (by decide) (by decide)).1
  exact ⟨s1, h1, h2, h3⟩

theorem block_weakRelease_ne {s s' : Heap} {b c : Nat} (e : WeakPtr.release b s = some s')
    (hc : c ≠ b) : s'.block c = s.block c := by
  cases hb : s.block b with
  | none =>
    unfold WeakPtr.release weakDec at e
    simp [hb] at e
  | some blk =>
    have h := weakRelease_spec hb e
    split at h
    · rw [h, block_deleteBlock (block_setBlock_self hb _), if_neg hc, block_setBlock hb,
        if_neg hc]
    · rw [h, block_setBlock hb, if_neg hc]

theorem block_weakDtor_frame {s s' : Heap} {w c : Nat} (e : WeakPtr.dtor w s = some s')
    (hw : cntW s c = 0) : s'.block c = s.block c := by
  unfold WeakPtr.dtor at e
  split at e
  · cases e
  · rename_i h hh
    cases hr : h.block_ with
    | none =>
      simp only [hr, WeakPtr.releaseIf, Option.some.injEq] at e
      subst e
      rfl
    | some b =>
      simp only [hr, WeakPtr.releaseIf] at e
      have hne : c ≠ b := by
        intro hcb
        subst hcb
        have := cntW_pos hh hr
        omega
      rw [block_weakRelease_ne e hne]
      rfl

theorem block_destruct_frame {s s' : Heap} {a c : Nat} (e : destruct a s = some s')
    (hw : cntW s c = 0) : s'.block c = s.block c := by
  unfold destruct at e
  split at e
  · cases e
  · split at e
    · split at e
      · simp only [Option.some.injEq] at e
        subst e
        rfl
      · rw [block_weakDtor_frame e hw]
        rfl
    · cases e

theorem block_Destroy_frame {s s' : Heap} {b c : Nat} (e : Destroy b s = some s')
    (hw : cntW s c = 0) : s'.block c = s.block c := by
  unfold Destroy at e
  split at e
  · cases e
  · simp only at e
    split at e
    · split at e
      · simp only [Option.some.injEq] at e
        subst e
        rfl
      · split at e
        · cases e
        · split at e
          · cases e
          · rw [block_destruct_frame e hw]
            rfl
    · rw [block_destruct_frame e hw]
      rfl

/-- The strong release of block `b` leaves alone every other block that no weak handle
observes. -/
theorem block_release_frame {s s' : Heap} {b c : Nat} (e : SharedPtr.release b s = some s')
    (hc : c ≠ b) (hw : cntW s c = 0) : s'.block c = s.block c := by
  rw [release_eq] at e
  split at e
  · cases e
  · rename_i s1 e1
    split at e
    · cases e
    · rename_i s2 e2
      split at e
      · cases e
      · rename_i s3 e3
        have h1 : s1.block c = s.block c ∧ cntW s1 c = cntW s c := by
          unfold weakInc at e1
          split at e1
          · cases e1
          · rename_i blk hb
            simp only [Option.some.injEq] at e1
            subst e1
            exact ⟨by rw [block_setBlock hb, if_neg hc], rfl⟩
        have h2 : s2.block c = s1.block c ∧ cntW s2 c = cntW s1 c := by
          unfold strongDec at e2
          split at e2
          · cases e2
          · rename_i blk hb
            simp only [Option.some.injEq] at e2
            subst e2
            exact ⟨by rw [block_setBlock hb, if_neg hc], rfl⟩
        have h3 : s3.block c = s2.block c := by
          unfold destroyIfZero at e3
          split at e3
          · cases e3
          · split at e3
            · exact block_Destroy_frame e3 (by rw [h2.2, h1.2]; exact hw)
            · simp only [Option.some.injEq] at e3
              subst e3
              rfl
        rw [block_weakRelease_ne e hc, h3, h2.1, h1.1]

/-- C11 (amended): in every reachable state, for the live strong handle `h` in slot `i`
and an address `p`: when `p` is the address `h` tracks, `Reset(p)` does nothing; otherwise
`Reset(p)` first reaches the state `s1` in which `h` has a new `ControlBlockPointer` for
`p` with counters `1` and `0` and tracks `p` and nothing else has changed, and then is the
strong release protocol applied once to the former block of `h` when it is non-null; when
the call returns, `h` tracks `p`, `Get()` is `p`, `UseCount()` is `1` and the new block
still has counters `1` and `0`. -/
theorem ResetPtr_spec (ops : List Op) (s : Heap) (i p : Nat) (h : SharedPtr)
    (hr : exec ops Heap.empty = some s) (hi : s.sharedAt i = some h) :
    (h.ptr_ = p → SharedPtr.ResetPtr i p s = some s) ∧
    (h.ptr_ ≠ p → ∃ s1, SharedPtr.ResetPtr i p s = SharedPtr.releaseIf h.block_ s1 ∧
      s.block s.blocks.length = none ∧
      s1.block s.blocks.length = some ⟨1, 0, Derived.ControlBlockPointer p⟩ ∧
      (∀ c, c ≠ s.blocks.length → s1.block c = s.block c) ∧
      s1.sharedAt i = some ⟨some s.blocks.length, p⟩ ∧
      (∀ k, k ≠ i → s1.sharedAt k = s.sharedAt k) ∧
      s1.objects = s.objects ∧ s1.weak = s.weak ∧ s1.log = s.log ∧
      (h.block_ = none → SharedPtr.ResetPtr i p s = some s1) ∧
      ∀ s', SharedPtr.ResetPtr i p s = some s' →
        s'.sharedAt i = some ⟨some s.blocks.length, p⟩ ∧
        SharedPtr.Get ⟨some s.blocks.length, p⟩ = p ∧
        SharedPtr.UseCount ⟨some s.blocks.length, p⟩ s' = some 1 ∧
        s'.block s.blocks.length = some ⟨1, 0, Derived.ControlBlockPointer p⟩) := by
  have hv : Valid s := Valid.empty.exec hr
  constructor
  · intro hp
    unfold SharedPtr.ResetPtr
    simp only [hi, hp, if_true]
  · intro hp
    have hnone : s.block s.blocks.length = none := block_none_of_le (Nat.le_refl _)
    have hi0 : (s.newBlock ⟨1, 0, Derived.ControlBlockPointer p⟩).sharedAt i = some h := hi
    have hblk1 : ((s.newBlock ⟨1, 0, Derived.ControlBlockPointer p⟩).setShared i
        (some ⟨some s.blocks.length, p⟩)).block s.blocks.length
        = some ⟨1, 0, Derived.ControlBlockPointer p⟩ := by
      rw [block_setShared, block_newBlock, if_pos rfl]
    have hi1 : ((s.newBlock ⟨1, 0, Derived.ControlBlockPointer p⟩).setShared i
        (some ⟨some s.blocks.length, p⟩)).sharedAt i = some ⟨some s.blocks.length, p⟩ := by
      rw [sharedAt_setShared hi0, if_pos rfl]
    have hrs : SharedPtr.ResetPtr i p s = SharedPtr.releaseIf h.block_
        ((s.newBlock ⟨1, 0, Derived.ControlBlockPointer p⟩).setShared i
          (some ⟨some s.blocks.length, p⟩)) := by
      unfold SharedPtr.ResetPtr
      simp only [hi, if_neg hp]
    refine ⟨_, hrs, hnone, hblk1, ?_, hi1, ?_, rfl, rfl, rfl, ?_, ?_⟩
    · intro c hc
      rw [block_setShared, block_newBlock, if_neg hc]
    · intro k hk
      rw [sharedAt_setShared hi0, if_neg hk]
      rfl
    · intro hb
      rw [hrs, hb]
      rfl
    · intro s' e
      rw [hrs] at e
      have hsh := shared_releaseIf e
      have hblk' : s'.block s.blocks.length
          = some ⟨1, 0, Derived.ControlBlockPointer p⟩ := by
        cases hb : h.block_ with
        | none =>
          rw [hb] at e
          simp only [SharedPtr.releaseIf, Option.some.injEq] at e
          subst e
          exact hblk1
        | some b =>
          rw [hb] at e
          obtain ⟨blk, hblk, _⟩ := hv.block_of_shared hi hb
          have hlt := lt_of_block hblk
          have hne : s.blocks.length ≠ b := by omega
          have hw0 : cntW ((s.newBlock ⟨1, 0, Derived.ControlBlockPointer p⟩).setShared i
              (some ⟨some s.blocks.length, p⟩)) s.blocks.length = 0 :=
            (hv.1.dead _ hnone).2.1
          rw [block_release_frame e hne hw0]
          exact hblk1
      refine ⟨?_, SharedPtr.Get_eq _, useCount_of_block rfl hblk', hblk'⟩
      unfold Heap.sharedAt
      rw [hsh]
      exact hi1

/-- One object made by `MakeShared` with two handles. -/
def twinHeap : Heap :=
  { blocks := [some ⟨2, 0, Derived.ControlBlockEmplace 1⟩],
    objects := [⟨true, true, none⟩],
    shared := [some ⟨some 0, 1⟩, some ⟨some 0, 1⟩],
    weak := [],
    log := [] }

/-- C11 as stated fails: `Reset(p)` with the address the handle already tracks returns at
once; no block is allocated, the handle keeps its `ControlBlockEmplace`, and `UseCount()`
is `2`. -/
theorem ResetPtr_same_address :
    exec [Op.MakeShared false, Op.SharedPtr_ctorCopy false 0] Heap.empty = some twinHeap ∧
      twinHeap.sharedAt 0 = some ⟨some 0, 1⟩ ∧
      SharedPtr.ResetPtr 0 1 twinHeap = some twinHeap ∧
      SharedPtr.UseCount ⟨some 0, 1⟩ twinHeap = some 2 ∧
      twinHeap.block 0 = some ⟨2, 0, Derived.ControlBlockEmplace 1⟩ := by
  decide

theorem ResetPtr_spec_witness :
    exec [Op.MakeShared false, Op.SharedPtr_ctorCopy false 0, Op.newObject false]
        Heap.empty
        = some ⟨[some ⟨2, 0, Derived.ControlBlockEmplace 1⟩],
          [⟨true, true, none⟩, ⟨true, false, none⟩],
          [some ⟨some 0, 1⟩, some ⟨some 0, 1⟩], [], []⟩ ∧
      SharedPtr.ResetPtr 0 2 ⟨[some ⟨2, 0, Derived.ControlBlockEmplace 1⟩],
          [⟨true, true, none⟩, ⟨true, false, none⟩],
          [some ⟨some 0, 1⟩, some ⟨some 0, 1⟩], [], []⟩
        = some ⟨[some ⟨1, 0, Derived.ControlBlockEmplace 1⟩,
            some ⟨1, 0, Derived.ControlBlockPointer 2⟩],
          [⟨true, true, none⟩, ⟨true, false, none⟩],
          [some ⟨some 1, 2⟩, some ⟨some 0, 1⟩], [], []⟩ ∧
      SharedPtr.UseCount ⟨some 1, 2⟩ ⟨[some ⟨1, 0, Derived.ControlBlockEmplace 1⟩,
            some ⟨1, 0, Derived.ControlBlockPointer 2⟩],
          [⟨true, true, none⟩, ⟨true, false, none⟩],
          [some ⟨some 1, 2⟩, some ⟨some 0, 1⟩], [], []⟩ = some 1 := by
  refine ⟨by decide, by decide, ?_⟩
  obtain ⟨s1, _, _, _, _, _, _, _, _, _, _, h⟩ := (ResetPtr_spec
    [Op.MakeShared false, Op.SharedPtr_ctorCopy false 0, Op.newObject false]
    ⟨[some ⟨2, 0, Derived.ControlBlockEmplace 1⟩], [⟨true, true, none⟩, ⟨true, false, none⟩],
      [some ⟨some 0, 1⟩, some ⟨some 0, 1⟩], [], []⟩ 0 2 ⟨some 0, 1⟩
    (by decide) (by decide)).2 (by decide)
  exact (h _ (by decide)).2.2.1

theorem list_ext_getD {α : Type} {l l' : List (Option α)} (hlen : l.length = l'.length)
    (h : ∀ k, l.getD k none = l'.getD k none) : l = l' := by
  apply List.ext_getElem hlen
  intro n h1 h2
  have := h n
  rw [List.getD_eq_getElem l none h1, List.getD_eq_getElem l' none h2] at this
  exact this

/-- Exchanging the fields of two live strong handles, twice, restores the state. -/
theorem swap_shared_twice {s : Heap} {i j : Nat} {a b : SharedPtr}
    (hi : s.sharedAt i = some a) (hj : s.sharedAt j = some b) :
    (((s.setShared i (some b)).setShared j (some a)).setShared i (some a)).setShared j (some b)
      = s := by
  have h1 : (s.setShared i (some b)).sharedAt j = some (if j = i then b else b) := by
    rw [sharedAt_setShared hi]
    split
    · rfl
    · exact hj
  have h2 : ((s.setShared i (some b)).setShared j (some a)).sharedAt i
      = some (if i = j then a else b) := by
    rw [sharedAt_setShared h1]
    split
    · rfl
    · rw [sharedAt_setShared hi, if_pos rfl]
  have h3 : (((s.setShared i (some b)).setShared j (some a)).setShared i (some a)).sharedAt j
      = some a := by
    rw [sharedAt_setShared h2]
    split
    · rfl
    · rw [sharedAt_setShared h1, if_pos rfl]
  apply Heap.ext_fields
  · rfl
  · rfl
  · apply list_ext_getD
    · simp only [Heap.setShared, List.length_set]
    · intro k
      show ((((s.setShared i (some b)).setShared j (some a)).setShared i
        (some a)).setShared j (some b)).sharedAt k = s.sharedAt k
      rw [sharedAt_setShared h3, sharedAt_setShared h2, sharedAt_setShared h1,
        sharedAt_setShared hi]
      by_cases hkj : k = j
      · rw [if_pos hkj, hkj, hj]
      · rw [if_neg hkj]
        by_cases hki : k = i
        · rw [if_pos hki, hki, hi]
        · rw [if_neg hki, if_neg hkj, if_neg hki]
  · rfl
  · rfl

/-- Exchanging the fields of two live weak handles, twice, restores the state. -/
theorem swap_weak_twice {s : Heap} {i j : Nat} {a b : WeakPtr}
    (hi : s.weakAt i = some a) (hj : s.weakAt j = some b) :
    (((s.setWeak i (some b)).setWeak j (some a)).setWeak i (some a)).setWeak j (some b)
      = s := by
  have h1 : (s.setWeak i (some b)).weakAt j = some (if j = i then b else b) := by
    rw [weakAt_setWeak hi]
    split
    · rfl
    · exact hj
  have h2 : ((s.setWeak i (some b)).setWeak j (some a)).weakAt i
      = some (if i = j then a else b) := by
    rw [weakAt_setWeak h1]
    split
    · rfl
    · rw [weakAt_setWeak hi, if_pos rfl]
  have h3 : (((s.setWeak i (some b)).setWeak j (some a)).setWeak i (some a)).weakAt j
      = some a := by
    rw [weakAt_setWeak h2]
    split
    · rfl
    · rw [weakAt_setWeak h1, if_pos rfl]
  apply Heap.ext_fields
  · rfl
  · rfl
  · rfl
  · apply list_ext_getD
    · simp only [Heap.setWeak, List.length_set]
    · intro k
      show ((((s.setWeak i (some b)).setWeak j (some a)).setWeak i
        (some a)).setWeak j (some b)).weakAt k = s.weakAt k
      rw [weakAt_setWeak h3, weakAt_setWeak h2, weakAt_setWeak h1, weakAt_setWeak hi]
      by_cases hkj : k = j
      · rw [if_pos hkj, hkj, hj]
      · rw [if_neg hkj]
        by_cases hki : k = i
        · rw [if_pos hki, hki, hi]
        · rw [if_neg hki, if_neg hkj, if_neg hki]
  · rfl

/-- C12: `Swap` of two live strong handles (slots `i`, `j`, the same slot allowed) returns;
afterwards each handle has the other's former block and address, every other handle, every
block with its counters, every object, every weak handle and the log are as before, and a
second `Swap` gives back the first state.  The same holds for `Swap` of two live weak
handles. -/
theorem Swap_exchange :
    (∀ (s : Heap) (i j : Nat) (a b : SharedPtr),
      s.sharedAt i = some a → s.sharedAt j = some b →
      ∃ s', SharedPtr.Swap i j s = some s' ∧
        s'.sharedAt i = some b ∧ s'.sharedAt j = some a ∧
        (∀ k, k ≠ i → k ≠ j → s'.sharedAt k = s.sharedAt k) ∧
        s'.blocks = s.blocks ∧ s'.objects = s.objects ∧ s'.weak = s.weak ∧
        s'.log = s.log ∧ SharedPtr.Swap i j s' = some s) ∧
    (∀ (s : Heap) (i j : Nat) (a b : WeakPtr),
      s.weakAt i = some a → s.weakAt j = some b →
      ∃ s', WeakPtr.Swap i j s = some s' ∧
        s'.weakAt i = some b ∧ s'.weakAt j = some a ∧
        (∀ k, k ≠ i → k ≠ j → s'.weakAt k = s.weakAt k) ∧
        s'.blocks = s.blocks ∧ s'.objects = s.objects ∧ s'.shared = s.shared ∧
        s'.log = s.log ∧ WeakPtr.Swap i j s' = some s) := by
  constructor
  · intro s i j a b hi hj
    have h1 : (s.setShared i (some b)).sharedAt j = some (if j = i then b else b) := by
      rw [sharedAt_setShared hi]
      split
      · rfl
      · exact hj
    have hj' : ((s.setShared i (some b)).setShared j (some a)).sharedAt j = some a := by
      rw [sharedAt_setShared h1, if_pos rfl]
    have hi' : ((s.setShared i (some b)).setShared j (some a)).sharedAt i = some b := by
      rw [sharedAt_setShared h1]
      split
      · rename_i hij
        subst hij
        rw [hi] at hj
        exact hj
      · rw [sharedAt_setShared hi, if_pos rfl]
    refine ⟨(s.setShared i (some b)).setShared j (some a), ?_, hi', hj', ?_, rfl, rfl, rfl,
      rfl, ?_⟩
    · unfold SharedPtr.Swap
      simp only [hi, hj]
    · intro k hki hkj
      rw [sharedAt_setShared h1, if_neg hkj, sharedAt_setShared hi, if_neg hki]
    · unfold SharedPtr.Swap
      simp only [hi', hj']
      exact congrArg some (swap_shared_twice hi hj)
  · intro s i j a b hi hj
    by_cases hij : i = j
    · subst hij
      rw [hi] at hj
      have hab : a = b := Option.some.inj hj
      subst hab
      have hsw : WeakPtr.Swap i i s = some s := by
        unfold WeakPtr.Swap
        simp only [hi, if_true]
      exact ⟨s, hsw, hi, hi, fun _ _ _ => rfl, rfl, rfl, rfl, rfl, hsw⟩
    · have hji : ¬ j = i := fun h => hij h.symm
      have h1 : (s.setWeak i (some b)).weakAt j = some (if j = i then b else b) := by
        rw [weakAt_setWeak hi]
        split
        · rfl
        · exact hj
      have hj' : ((s.setWeak i (some b)).setWeak j (some a)).weakAt j = some a := by
        rw [weakAt_setWeak h1, if_pos rfl]
      have hi' : ((s.setWeak i (some b)).setWeak j (some a)).weakAt i = some b := by
        rw [weakAt_setWeak h1, if_neg hij, weakAt_setWeak hi, if_pos rfl]
      refine ⟨(s.setWeak i (some b)).setWeak j (some a), ?_, hi', hj', ?_, rfl, rfl, rfl,
        rfl, ?_⟩
      · unfold WeakPtr.Swap
        simp only [hi, hj, if_neg hij]
      · intro k hki hkj
        rw [weakAt_setWeak h1, if_neg hkj, weakAt_setWeak hi, if_neg hki]
      · unfold WeakPtr.Swap
        simp only [hi', hj', if_neg hij]
        exact congrArg some (swap_weak_twice hi hj)

theorem Swap_exchange_witness :
    pairHeap.sharedAt 0 = some ⟨some 0, 1⟩ ∧ pairHeap.sharedAt 1 = some ⟨some 1, 2⟩ ∧
      ∃ s', SharedPtr.Swap 0 1 pairHeap = some s' ∧
        s'.sharedAt 0 = some ⟨some 1, 2⟩ ∧ s'.sharedAt 1 = some ⟨some 0, 1⟩ ∧
        s'.blocks = pairHeap.blocks ∧ s'.log = pairHeap.log ∧
        SharedPtr.Swap 0 1 s' = some pairHeap := by
  refine ⟨by decide, by decide, ?_⟩
  obtain ⟨s', h1, h2, h3, _, h5, _, _, h8, h9⟩ :=
    Swap_exchange.1 pairHeap 0 1 ⟨some 0, 1⟩ ⟨some 1, 2⟩ (by decide) (by decide)
  exact ⟨s', h1, h2, h3, h5, h8, h9⟩

/-- C13: in every reachable state, for a live weak handle `w`: `Expired()` returns, and
returns true exactly when `w` has no block or the `strong_cnt` of its block is `0`;
`UseCount()` returns `0` when `w` has no block and the `strong_cnt` of its block
otherwise, and every live strong handle with the same block reports the same
`UseCount()`. -/
theorem weak_observers (ops : List Op) (s : Heap) (m : Nat) (w : WeakPtr)
    (hr : exec ops Heap.empty = some s) (hw : s.weakAt m = some w) :
    (∃ r, w.Expired s = some r ∧ (r = true ↔ Stale w s)) ∧
    (∃ n, w.UseCount s = some n ∧ (w.block_ = none → n = 0) ∧
      (∀ b blk, w.block_ = some b → s.block b = some blk → n = blk.strong_cnt) ∧
      ∀ i (h : SharedPtr), s.sharedAt i = some h → h.block_ = w.block_ →
        h.UseCount s = some n) := by
  have hv : Valid s := Valid.empty.exec hr
  cases hb : w.block_ with
  | none =>
    constructor
    · refine ⟨true, ?_, ?_⟩
      · unfold WeakPtr.Expired
        simp only [hb]
      · constructor
        · intro _
          exact Or.inl hb
        · intro _
          rfl
    · refine ⟨0, ?_, fun _ => rfl, ?_, ?_⟩
      · unfold WeakPtr.UseCount
        simp only [hb]
      · intro b blk h
        cases h
      · intro i h _ hh
        unfold SharedPtr.UseCount
        simp only [hh]
  | some b =>
    obtain ⟨blk, hblk⟩ := hv.block_of_weak hw hb
    constructor
    · refine ⟨decide (blk.strong_cnt = 0), expired_eq hb hblk, ?_⟩
      constructor
      · intro h
        exact Or.inr ⟨b, blk, hb, hblk, of_decide_eq_true h⟩
      · intro h
        rcases h with h | ⟨c, blk', hc, hblk', hz⟩
        · rw [hb] at h
          cases h
        · rw [hb] at hc
          have hcb := Option.some.inj hc
          subst hcb
          rw [hblk] at hblk'
          have hbb := Option.some.inj hblk'
          subst hbb
          exact decide_eq_true hz
    · refine ⟨blk.strong_cnt, ?_, ?_, ?_, ?_⟩
      · unfold WeakPtr.UseCount
        simp only [hb, hblk]
      · intro h
        cases h
      · intro c blk' hc hblk'
        have hcb := Option.some.inj hc
        subst hcb
        rw [hblk] at hblk'
        have hbb := Option.some.inj hblk'
        subst hbb
        rfl
      · intro i h _ hh
        exact useCount_of_block hh hblk

theorem weak_observers_witness :
    exec [Op.MakeShared false, Op.WeakPtr_ctorDemote 0, Op.SharedPtr_dtor 0] Heap.empty
        = some ⟨[some ⟨0, 1, Derived.ControlBlockEmplace 1⟩], [⟨false, true, none⟩], [none],
          [some ⟨some 0, 1⟩], [Event.Destroy 0, Event.Destruct 1]⟩ ∧
      (∃ r, WeakPtr.Expired ⟨some 0, 1⟩
          ⟨[some ⟨0, 1, Derived.ControlBlockEmplace 1⟩], [⟨false, true, none⟩], [none],
            [some ⟨some 0, 1⟩], [Event.Destroy 0, Event.Destruct 1]⟩ = some r ∧
        (r = true ↔ Stale ⟨some 0, 1⟩
          ⟨[some ⟨0, 1, Derived.ControlBlockEmplace 1⟩], [⟨false, true, none⟩], [none],
            [some ⟨some 0, 1⟩], [Event.Destroy 0, Event.Destruct 1]⟩)) ∧
      WeakPtr.Expired ⟨some 0, 1⟩
          ⟨[some ⟨0, 1, Derived.ControlBlockEmplace 1⟩], [⟨false, true, none⟩], [none],
            [some ⟨some 0, 1⟩], [Event.Destroy 0, Event.Destruct 1]⟩ = some true ∧
      WeakPtr.UseCount ⟨some 0, 1⟩
          ⟨[some ⟨0, 1, Derived.ControlBlockEmplace 1⟩], [⟨false, true, none⟩], [none],
            [some ⟨some 0, 1⟩], [Event.Destroy 0, Event.Destruct 1]⟩ = some 0 :=
  ⟨by decide,
    (weak_observers [Op.MakeShared false, Op.WeakPtr_ctorDemote 0, Op.SharedPtr_dtor 0]
      ⟨[some ⟨0, 1, Derived.ControlBlockEmplace 1⟩], [⟨false, true, none⟩], [none],
        [some ⟨some 0, 1⟩], [Event.Destroy 0, Event.Destruct 1]⟩ 0 ⟨some 0, 1⟩
      (by decide) (by decide)).1,
    by decide, by decide⟩

/-- The effect of one weak release of block `B`, whose value before was `blk`, from state
`t` to state `t'`: `weak_cnt` is one less and `strong_cnt` as before; the block is deleted
exactly when both counters are then zero; the log gains the `Delete` and nothing else; no
handle, no object and no other block changes. -/
def WeakReleased (t t' : Heap) (B : Nat) (blk : ControlBlockBase) : Prop :=
  t'.shared = t.shared ∧ t'.weak = t.weak ∧ t'.objects = t.objects ∧
    (∀ c, c ≠ B → t'.block c = t.block c) ∧
    (if blk.strong_cnt = 0 ∧ blk.weak_cnt - 1 = 0
      then t'.block B = none ∧ t'.log = t.log ++ [Event.Delete B]
      else t'.block B = some { blk with weak_cnt := blk.weak_cnt - 1 } ∧ t'.log = t.log)

theorem weakRelease_released {t : Heap} {B : Nat} {blk : ControlBlockBase}
    (hblk : t.block B = some blk) (h1 : 0 < blk.weak_cnt) (hlt : blk.weak_cnt < SIZE_MOD) :
    ∃ t', WeakPtr.release B t = some t' ∧ WeakReleased t t' B blk := by
  rw [weakRelease_eq hblk, decr_eq h1 hlt]
  by_cases hc : blk.strong_cnt = 0 ∧ blk.weak_cnt - 1 = 0
  · rw [if_pos hc]
    refine ⟨_, rfl, rfl, rfl, rfl, ?_, ?_⟩
    · intro c hcB
      rw [block_deleteBlock (block_setBlock_self hblk _), if_neg hcB, block_setBlock hblk,
        if_neg hcB]
    · rw [if_pos hc]
      refine ⟨?_, rfl⟩
      rw [block_deleteBlock (block_setBlock_self hblk _), if_pos rfl]
  · rw [if_neg hc]
    refine ⟨_, rfl, rfl, rfl, rfl, ?_, ?_⟩
    · intro c hcB
      rw [block_setBlock hblk, if_neg hcB]
    · rw [if_neg hc]
      exact ⟨block_setBlock_self hblk _, rfl⟩

/-- C14: in every reachable state, for a live weak handle `w` (slot `m`) whose block `B`
has the value `blk`: `weak_cnt` of `B` is at least one; `~WeakPtr()` and `Reset()` return
and are one weak release of `B` from the state in which the handle is gone, or empty;
copy and move assignment from another live handle return and are one weak release of `B`
from the state in which `w` has the other handle's fields (and, for the copy, `weak_cnt`
of the other handle's block is one greater; for the move, the other handle is empty);
assignment of the handle to itself leaves the state as it is. -/
theorem weak_release_protocol (ops : List Op) (s : Heap) (m B : Nat) (w : WeakPtr)
    (blk : ControlBlockBase) (hr : exec ops Heap.empty = some s)
    (hw : s.weakAt m = some w) (hb : w.block_ = some B) (hblk : s.block B = some blk) :
    0 < blk.weak_cnt ∧
    (∃ s', WeakPtr.dtor m s = some s' ∧ WeakReleased (s.setWeak m none) s' B blk ∧
      (s.setWeak m none).block B = some blk) ∧
    (∃ s', WeakPtr.Reset m s = some s' ∧
      WeakReleased (s.setWeak m (some ⟨none, 0⟩)) s' B blk ∧
      (s.setWeak m (some ⟨none, 0⟩)).block B = some blk) ∧
    (∀ o other, o ≠ m → s.weakAt o = some other →
      (∃ s1 blk1 s', weakIncIf other.block_ (s.setWeak m (some other)) = some s1 ∧
        s1.block B = some blk1 ∧ blk1.strong_cnt = blk.strong_cnt ∧
        blk1.weak_cnt = blk.weak_cnt + (if other.block_ = some B then 1 else 0) ∧
        WeakPtr.assign m o s = some s' ∧ WeakReleased s1 s' B blk1) ∧
      (∃ s', WeakPtr.assignMove m o s = some s' ∧
        WeakReleased ((s.setWeak m (some other)).setWeak o (some ⟨none, 0⟩)) s' B blk ∧
        ((s.setWeak m (some other)).setWeak o (some ⟨none, 0⟩)).block B = some blk)) ∧
    WeakPtr.assign m m s = some s ∧ WeakPtr.assignMove m m s = some s := by
  have hv : Valid s := Valid.empty.exec hr
  have hpos : 0 < blk.weak_cnt := by
    have h1 := hv.1.weak B blk hblk
    have h2 := cntW_pos hw hb
    omega
  have hlt := hv.1.cnt_weak_lt hblk
  have hlt' : blk.weak_cnt < SIZE_MOD := by omega
  refine ⟨hpos, ?_, ?_, ?_, ?_, ?_⟩
  · have hblk0 : (s.setWeak m none).block B = some blk := hblk
    obtain ⟨s', e, hrel⟩ := weakRelease_released hblk0 hpos hlt'
    refine ⟨s', ?_, hrel, hblk0⟩
    unfold WeakPtr.dtor
    simp only [hw, hb, WeakPtr.releaseIf]
    exact e
  · have hblk0 : (s.setWeak m (some ⟨none, 0⟩)).block B = some blk := hblk
    obtain ⟨s', e, hrel⟩ := weakRelease_released hblk0 hpos hlt'
    refine ⟨s', ?_, hrel, hblk0⟩
    unfold WeakPtr.Reset
    simp only [hw, hb, WeakPtr.releaseIf]
    exact e
  · intro o other hom ho
    have hmo : m ≠ o := Ne.symm hom
    constructor
    · cases hob : other.block_ with
      | none =>
        have hblk0 : (s.setWeak m (some ⟨other.block_, other.ptr_⟩)).block B = some blk :=
          hblk
        obtain ⟨s', e, hrel⟩ := weakRelease_released hblk0 hpos hlt'
        refine ⟨s.setWeak m (some other), blk, s', ?_, hblk0, rfl, ?_, ?_, hrel⟩
        · rfl
        · rw [if_neg (by simp)]
          rfl
        · unfold WeakPtr.assign
          simp only [hw, ho, if_neg hmo, hob, weakIncIf, hb, WeakPtr.releaseIf]
          rw [hob] at e
          exact e
      | some c =>
        obtain ⟨blkc, hblkc⟩ := hv.block_of_weak ho hob
        have hincc := hv.incr_weak hblkc
        have hblkc0 : (s.setWeak m (some ⟨other.block_, other.ptr_⟩)).block c = some blkc :=
          hblkc
        have hs1 : weakInc c (s.setWeak m (some ⟨other.block_, other.ptr_⟩))
            = some ((s.setWeak m (some ⟨other.block_, other.ptr_⟩)).setBlock c
              { blkc with weak_cnt := blkc.weak_cnt + 1 }) := by
          rw [weakInc_eq hblkc0, hincc]
        have hasg : WeakPtr.assign m o s = WeakPtr.release B
            ((s.setWeak m (some ⟨other.block_, other.ptr_⟩)).setBlock c
              { blkc with weak_cnt := blkc.weak_cnt + 1 }) := by
          unfold WeakPtr.assign
          simp only [hw, ho, if_neg hmo, hb]
          rw [hob] at hs1 ⊢
          simp only [weakIncIf, hs1, WeakPtr.releaseIf]
        by_cases hcB : c = B
        · subst hcB
          rw [hblk] at hblkc
          have hbb := Option.some.inj hblkc
          subst hbb
          have hblk1 : ((s.setWeak m (some ⟨other.block_, other.ptr_⟩)).setBlock c
              { blk with weak_cnt := blk.weak_cnt + 1 }).block c
              = some { blk with weak_cnt := blk.weak_cnt + 1 } :=
            block_setBlock_self hblkc0 _
          have hlt1 : blk.weak_cnt + 1 < SIZE_MOD := by omega
          obtain ⟨s', e, hrel⟩ := weakRelease_released hblk1 (Nat.succ_pos _) hlt1
          refine ⟨_, _, s', ?_, hblk1, rfl, ?_, ?_, hrel⟩
          · show weakInc c (s.setWeak m (some ⟨other.block_, other.ptr_⟩)) = _
            exact hs1
          · rw [if_pos rfl]
          · rw [hasg]
            exact e
        · have hBc : B ≠ c := fun h => hcB h.symm
          have hblk1 : ((s.setWeak m (some ⟨other.block_, other.ptr_⟩)).setBlock c
              { blkc with weak_cnt := blkc.weak_cnt + 1 }).block B = some blk := by
            rw [block_setBlock hblkc0, if_neg hBc]
            exact hblk
          obtain ⟨s', e, hrel⟩ := weakRelease_released hblk1 hpos hlt'
          refine ⟨_, _, s', ?_, hblk1, rfl, ?_, ?_, hrel⟩
          · show weakInc c (s.setWeak m (some ⟨other.block_, other.ptr_⟩)) = _
            exact hs1
          · rw [if_neg (by intro h; exact hcB (Option.some.inj h))]
            rfl
          · rw [hasg]
            exact e
    · have hblk0 : ((s.setWeak m (some ⟨other.block_, other.ptr_⟩)).setWeak o
          (some ⟨none, 0⟩)).block B = some blk := hblk
      obtain ⟨s', e, hrel⟩ := weakRelease_released hblk0 hpos hlt'
      refine ⟨s', ?_, hrel, hblk0⟩
      unfold WeakPtr.assignMove
      simp only [hw, ho, if_neg hmo, hb, WeakPtr.releaseIf]
      exact e
  · unfold WeakPtr.assign
    simp only [hw, if_true]
  · unfold WeakPtr.assignMove
    simp only [hw, if_true]

theorem weak_release_protocol_witness :
    exec [Op.MakeShared false, Op.WeakPtr_ctorDemote 0, Op.SharedPtr_dtor 0] Heap.empty
        = some ⟨[some ⟨0, 1, Derived.ControlBlockEmplace 1⟩], [⟨false, true, none⟩], [none],
          [some ⟨some 0, 1⟩], [Event.Destroy 0, Event.Destruct 1]⟩ ∧
      (∃ s', WeakPtr.dtor 0 ⟨[some ⟨0, 1, Derived.ControlBlockEmplace 1⟩],
          [⟨false, true, none⟩], [none], [some ⟨some 0, 1⟩],
          [Event.Destroy 0, Event.Destruct 1]⟩ = some s' ∧
        WeakReleased (Heap.setWeak ⟨[some ⟨0, 1, Derived.ControlBlockEmplace 1⟩],
          [⟨false, true, none⟩], [none], [some ⟨some 0, 1⟩],
          [Event.Destroy 0, Event.Destruct 1]⟩ 0 none) s' 0
          ⟨0, 1, Derived.ControlBlockEmplace 1⟩) ∧
      WeakPtr.dtor 0 ⟨[some ⟨0, 1, Derived.ControlBlockEmplace 1⟩],
          [⟨false, true, none⟩], [none], [some ⟨some 0, 1⟩],
          [Event.Destroy 0, Event.Destruct 1]⟩
        = some ⟨[none], [⟨false, true, none⟩], [none], [none],
          [Event.Destroy 0, Event.Destruct 1, Event.Delete 0]⟩ := by
  refine ⟨by decide, ?_, by decide⟩
  obtain ⟨s', h1, h2, _⟩ := (weak_release_protocol
    [Op.MakeShared false, Op.WeakPtr_ctorDemote 0, Op.SharedPtr_dtor 0]
    ⟨[some ⟨0, 1, Derived.ControlBlockEmplace 1⟩], [⟨false, true, none⟩], [none],
      [some ⟨some 0, 1⟩], [Event.Destroy 0, Event.Destruct 1]⟩ 0 0 ⟨some 0, 1⟩
    ⟨0, 1, Derived.ControlBlockEmplace 1⟩ (by decide) (by decide) rfl (by decide)).2.1
  exact ⟨s', h1, h2⟩

/-- The wiring step `ESFT()` of a self-referencing type on a handle whose tracked address
is null is undefined. -/
theorem ESFT_null {s : Heap} {i : Nat} {self : SharedPtr}
    (hi : s.sharedAt i = some self) (hp : self.ptr_ = 0) : ESFT true i s = none := by
  unfold ESFT
  simp only [if_true]
  exact InitWeakThis_null hi hp

/-- C15, failing input: for a type with the self-reference capability the constructors
`SharedPtr()` and `SharedPtr(nullptr)`, the constructor from a null raw address, the
aliasing constructor with a null address, and copy, move, converting copy and converting
move from a handle that tracks null, all run the wiring step on a null tracked address,
which is undefined behaviour; promotion of a weak handle that tracks null never returns
a handle. -/
theorem wiring_null_undefined (s : Heap) :
    SharedPtr.ctor true s = none ∧ SharedPtr.ctorPtr true 0 s = none ∧
      (∀ i, SharedPtr.ctorAlias true i 0 s = none) ∧
      (∀ block, SharedPtr.ctorEmplace true 0 block s = none) ∧
      (∀ i h, s.sharedAt i = some h → h.ptr_ = 0 →
        SharedPtr.ctorCopy true i s = none ∧ SharedPtr.ctorMove true i s = none ∧
        SharedPtr.ctorCopyFrom true i s = none ∧ SharedPtr.ctorMoveFrom true i s = none) ∧
      (∀ w h, s.weakAt w = some h → h.ptr_ = 0 →
        ∀ s', SharedPtr.ctorPromote true w s ≠ Result.ok s') := by
  refine ⟨ctor_capable_undefined s, ?_, ?_, ?_, ?_, ?_⟩
  · unfold SharedPtr.ctorPtr
    have hi : ((s.newBlock ⟨1, 0, Derived.ControlBlockPointer 0⟩).pushShared
        ⟨some s.blocks.length, 0⟩).sharedAt s.shared.length
        = some ⟨some s.blocks.length, 0⟩ := by
      rw [sharedAt_pushShared]
      exact if_pos rfl
    exact ESFT_null hi rfl
  · intro i
    unfold SharedPtr.ctorAlias
    split
    · rfl
    · rename_i other hi
      split
      · rfl
      · rename_i s1 e1
        have h1 : s1.sharedAt s.shared.length = some ⟨other.GetBlock, 0⟩ := by
          rw [sharedAt_strongIncIf e1, sharedAt_pushShared, if_pos rfl]
        exact ESFT_null h1 rfl
  · intro block
    unfold SharedPtr.ctorEmplace
    have hi : (s.pushShared ⟨some block, 0⟩).sharedAt s.shared.length
        = some ⟨some block, 0⟩ := by
      rw [sharedAt_pushShared, if_pos rfl]
    exact ESFT_null hi rfl
  · intro i h hi hp
    have hlt := sharedAt_lt hi
    have hne : i ≠ s.shared.length := Nat.ne_of_lt hlt
    refine ⟨?_, ?_, ?_, ?_⟩
    · unfold SharedPtr.ctorCopy
      simp only [hi]
      split
      · rfl
      · rename_i s1 e1
        have h1 : s1.sharedAt s.shared.length = some ⟨h.block_, h.ptr_⟩ := by
          rw [sharedAt_strongIncIf e1, sharedAt_pushShared, if_pos rfl]
        exact ESFT_null h1 hp
    · rw [ctorMove_eq true hi]
      exact ESFT_null (moved_facts hi).1 hp
    · unfold SharedPtr.ctorCopyFrom
      simp only [hi]
      split
      · rfl
      · rename_i s1 e1
        have h1 : s1.sharedAt s.shared.length = some ⟨h.GetBlock, h.Get⟩ := by
          rw [sharedAt_strongIncIf e1, sharedAt_pushShared, if_pos rfl]
        exact ESFT_null h1 (by rw [SharedPtr.Get_eq]; exact hp)
    · unfold SharedPtr.ctorMoveFrom
      simp only [hi]
      split
      · rfl
      · rename_i s1 e1
        have h1 : s1.sharedAt s.shared.length = some ⟨h.GetBlock, h.Get⟩ := by
          rw [sharedAt_strongIncIf e1, sharedAt_pushShared, if_pos rfl]
        have hi1 : s1.sharedAt i = some h := by
          rw [sharedAt_strongIncIf e1, sharedAt_pushShared, if_neg hne]
          exact hi
        split
        · rfl
        · rename_i s2 e2
          unfold SharedPtr.Reset at e2
          simp only [hi1] at e2
          have h2 : s2.sharedAt s.shared.length = some ⟨h.GetBlock, h.Get⟩ := by
            unfold Heap.sharedAt
            rw [shared_releaseIf e2]
            show (s1.setShared i (some ⟨none, 0⟩)).sharedAt s.shared.length = _
            rw [sharedAt_setShared hi1, if_neg (Ne.symm hne)]
            exact h1
          exact ESFT_null h2 (by rw [SharedPtr.Get_eq]; exact hp)
  · intro w h hw hp s'
    unfold SharedPtr.ctorPromote
    simp only [hw]
    split
    · intro hc
      cases hc
    · intro hc
      cases hc
    · split
      · intro hc
        cases hc
      · rename_i s1 e1
        have h1 : s1.sharedAt s.shared.length = some ⟨h.GetBlock, h.Get⟩ := by
          rw [sharedAt_strongIncIf e1, sharedAt_pushShared, if_pos rfl]
        rw [ESFT_null h1 hp]
        intro hc
        cases hc

theorem wiring_null_undefined_witness :
    crossMoved.sharedAt 1 = some ⟨none, 0⟩ ∧
      SharedPtr.ctorCopy true 1 crossMoved = none ∧
      SharedPtr.ctorMove true 1 crossMoved = none ∧
      SharedPtr.ctorCopyFrom true 1 crossMoved = none ∧
      SharedPtr.ctorMoveFrom true 1 crossMoved = none :=
  ⟨by decide, (wiring_null_undefined crossMoved).2.2.2.2.1 1 ⟨none, 0⟩ (by decide) rfl⟩

/-! ## UniquePtr (unique.h)

The primary template and the array specialisation have the same bodies; they differ in
the default deleter only (`delete` or `delete[]`).  A deleter is user code; the model
records each call of one and covers deleters that touch no `UniquePtr`. -/

/-- The member `CompressedPair<T*, Deleter> pair_` of a `UniquePtr` (unique.h 157):
`first` is `pair_.GetFirst()`, the owned address with `0` for `nullptr`; `second` names
the deleter `pair_.GetSecond()`. -/
structure UniquePtr where
  first : Nat
  second : Nat
  deriving DecidableEq, Repr

/-- A call `GetDeleter()(ptr)`: the deleter, its argument, and the address the calling
handle holds in `pair_.GetFirst()` when the call is made. -/
structure Call where
  deleter : Nat
  ptr : Nat
  held : Nat
  deriving DecidableEq, Repr

/-- A `UniquePtr` object `self` with the deleter calls made so far in the program. -/
structure Unique where
  self : UniquePtr
  calls : List Call
  deriving DecidableEq, Repr

/-- The expression `GetDeleter()(ptr)` evaluated by the handle of `u`. -/
def Unique.call (u : Unique) (ptr : Nat) : Unique :=
  { u with calls := u.calls ++ [⟨u.self.second, ptr, u.self.first⟩] }

/-- The constructor `UniquePtr(T* ptr = nullptr)` (unique.h 49-51); the deleter is
default-constructed, named `0`. -/
def UniquePtr.ctor (ptr : Nat) : UniquePtr := ⟨ptr, 0⟩

/-- The constructor `UniquePtr(T* ptr, Deleter deleter)` (unique.h 52-55). -/
def UniquePtr.ctorDeleter (ptr deleter : Nat) : UniquePtr := ⟨ptr, deleter⟩

/-- The observer `UniquePtr::Get` (unique.h 135-137). -/
def UniquePtr.Get (u : UniquePtr) : Nat := u.first

/-- The observer `UniquePtr::GetDeleter` (unique.h 138-143). -/
def UniquePtr.GetDeleter (u : UniquePtr) : Nat := u.second

/-- The conversion `explicit operator bool` (unique.h 144-149). -/
def UniquePtr.toBool (u : UniquePtr) : Bool := if u.first = 0 then false else true

/-- The destructor `~UniquePtr()` (unique.h 96-100). -/
def UniquePtr.dtor (u : Unique) : Unique :=
  if u.self.first ≠ 0 then u.call u.self.first else u

/-- The method `UniquePtr::Release` (unique.h 105-109); the second component is the
value returned. -/
def UniquePtr.Release (u : Unique) : Unique × Nat :=
  let tmp := u.self.first
  ({ u with self := { u.self with first := 0 } }, tmp)

/-- The method `UniquePtr::Reset(T* ptr = nullptr)` (unique.h 110-116). -/
def UniquePtr.Reset (ptr : Nat) (u : Unique) : Unique :=
  let old_ptr := u.self.first
  let u1 : Unique := { u with self := { u.self with first := ptr } }
  if old_ptr ≠ 0 then u1.call old_ptr else u1

/-- The assignment `operator=(std::nullptr_t)` (unique.h 87-91). -/
def UniquePtr.assignNull (u : Unique) : Unique :=
  let u1 := u.call u.self.first
  { u1 with self := { u1.self with first := 0 } }

/-- The move assignment `operator=(UniquePtr&& other)` (unique.h 75-86) for
`this != &other`; the second component is `other` afterwards.  Moving from the deleter
of `other` leaves it as it is. -/
def UniquePtr.assignMove (other : UniquePtr) (u : Unique) : Unique × UniquePtr :=
  let tmp := u.self.first
  let u1 : Unique := { u with self := { u.self with first := other.first } }
  let u2 := if tmp ≠ 0 then u1.call tmp else u1
  ({ u2 with self := { u2.self with second := other.second } }, { other with first := 0 })

/-- The move assignment `operator=(UniquePtr&& other)` (unique.h 75-78) for
`this == &other`. -/
def UniquePtr.assignSelf (u : Unique) : Unique := u

/-- The move constructor `UniquePtr(UniquePtr&& other)` (unique.h 58-62); the second
component is `other` afterwards. -/
def UniquePtr.ctorMove (other : UniquePtr) : UniquePtr × UniquePtr :=
  (⟨other.first, other.second⟩, { other with first := 0 })

/-- The converting move constructor `UniquePtr(UniquePtr<S, SDeleter>&& other)`
(unique.h 64-68): the deleter is default-constructed. -/
def UniquePtr.ctorMoveFrom (other : UniquePtr) : UniquePtr × UniquePtr :=
  (⟨other.first, 0⟩, { other with first := 0 })

/-- The method `UniquePtr::Swap` (unique.h 117-124), as the two handles afterwards. -/
def UniquePtr.Swap (self other : UniquePtr) : UniquePtr × UniquePtr :=
  (⟨other.first, other.second⟩, ⟨self.first, self.second⟩)

/-- C16: for every handle `u` and every history of deleter calls, `Release()` returns the
address `u` held, leaves `u` holding null with its deleter (`Get()` is null, the boolean
conversion is false), makes no deleter call, and the destructor of `u` run afterwards
makes no deleter call either. -/
theorem Release_surrenders (u : Unique) :
    (UniquePtr.Release u).2 = u.self.first ∧
      (UniquePtr.Release u).1.self.Get = 0 ∧
      (UniquePtr.Release u).1.self.toBool = false ∧
      (UniquePtr.Release u).1.self.second = u.self.second ∧
      (UniquePtr.Release u).1.calls = u.calls ∧
      (UniquePtr.dtor (UniquePtr.Release u).1).calls = u.calls ∧
      UniquePtr.dtor (UniquePtr.Release u).1 = (UniquePtr.Release u).1 := by
  refine ⟨rfl, rfl, rfl, rfl, rfl, ?_, ?_⟩
  · unfold UniquePtr.dtor UniquePtr.Release
    simp
  · unfold UniquePtr.dtor UniquePtr.Release
    simp

/-- C17 (amended): for every handle `u` and every address `addr`, after `Reset(addr)`
the handle holds `addr` with the same deleter; when the address held before is not null
the deleter is called exactly once, with that address, while the handle already holds
`addr`; when it is null no call is made. -/
theorem Reset_swaps (u : Unique) (addr : Nat) :
    (UniquePtr.Reset addr u).self.Get = addr ∧
      (UniquePtr.Reset addr u).self.second = u.self.second ∧
      (UniquePtr.Reset addr u).calls
        = u.calls ++ (if u.self.first ≠ 0 then [⟨u.self.second, u.self.first, addr⟩] else []) := by
  unfold UniquePtr.Reset
  by_cases h : u.self.first = 0
  · simp [h, UniquePtr.Get]
  · simp [h, UniquePtr.Get, Unique.call]

/-- C17 as stated fails: `Reset(addr)` of a handle that holds null calls no deleter, and
`Reset(addr)` of a handle that holds `addr` calls the deleter with `addr`. -/
theorem Reset_null_or_same :
    (UniquePtr.Reset 5 ⟨⟨0, 1⟩, []⟩).calls = [] ∧
      (UniquePtr.Reset 5 ⟨⟨0, 1⟩, []⟩).self.Get = 5 ∧
      (UniquePtr.Reset 5 ⟨⟨5, 1⟩, []⟩).calls = [⟨1, 5, 5⟩] ∧
      (UniquePtr.Reset 5 ⟨⟨5, 1⟩, []⟩).self.Get = 5 := by
  decide

/-- The destructor of a live object whose `weak_this_` observes block `B`: the object
dies and its marker is released. -/
theorem destruct_marker {t : Heap} {B a m p : Nat} {o : Object}
    (ho : t.object a = some o) (ha : o.alive = true) (hm : o.weak_this_ = some m)
    (hw : t.weakAt m = some ⟨some B, p⟩) :
    destruct a t = WeakPtr.release B
      (((t.setObject a { o with alive := false }).emit (Event.Destruct a)).setWeak m none) := by
  unfold destruct
  rw [ho]
  simp only [ha, if_true, hm]
  unfold WeakPtr.dtor
  rw [weakAt_emit, weakAt_setObject, hw]
  rfl

/-- The call `Destroy()` on a block that owns a live object whose `weak_this_` observes
the block. -/
theorem Destroy_marker {t : Heap} {B a m p : Nat} {blk : ControlBlockBase} {o : Object}
    (hB : t.block B = some blk)
    (hd : blk.derived = Derived.ControlBlockEmplace a ∨
      (blk.derived = Derived.ControlBlockPointer a ∧ o.emplaced = false))
    (ho : t.object a = some o) (ha : o.alive = true) (hm : o.weak_this_ = some m)
    (hw : t.weakAt m = some ⟨some B, p⟩) :
    Destroy B t = WeakPtr.release B
      ((((t.emit (Event.Destroy B)).setObject a { o with alive := false }).emit
        (Event.Destruct a)).setWeak m none) := by
  have ho' : (t.emit (Event.Destroy B)).object a = some o := ho
  have hw' : (t.emit (Event.Destroy B)).weakAt m = some ⟨some B, p⟩ := hw
  unfold Destroy
  rw [hB]
  rcases hd with hd | ⟨hd, he⟩
  · simp only [hd]
    exact destruct_marker ho' ha hm hw'
  · have ha0 : a ≠ 0 := by
      intro h
      subst h
      rw [object_null] at ho
      cases ho
    simp only [hd, if_neg ha0, ho']
    have hne : ¬ (o.emplaced = true) := by
      rw [he]
      decide
    rw [if_neg hne]
    exact destruct_marker ho' ha hm hw'

/-- A weak release that leaves a counter non-zero only decrements `weak_cnt`. -/
theorem weakRelease_keep {t : Heap} {B sc wc : Nat} {d : Derived}
    (hB : t.block B = some ⟨sc, wc + 1, d⟩) (hlt : wc + 1 < SIZE_MOD)
    (hk : ¬ (sc = 0 ∧ wc = 0)) :
    WeakPtr.release B t = some (t.setBlock B ⟨sc, wc, d⟩) := by
  have hdec : decr (wc + 1) = wc := by
    rw [decr_eq (Nat.succ_pos wc) hlt]
    rfl
  rw [weakRelease_eq hB]
  show some (if sc = 0 ∧ decr (wc + 1) = 0
    then (t.setBlock B ⟨sc, decr (wc + 1), d⟩).deleteBlock B
    else t.setBlock B ⟨sc, decr (wc + 1), d⟩) = _
  rw [hdec, if_neg hk]

/-- A weak release that leaves both counters zero deletes the block. -/
theorem weakRelease_last {t : Heap} {B : Nat} {d : Derived}
    (hB : t.block B = some ⟨0, 1, d⟩) :
    WeakPtr.release B t = some ((t.setBlock B ⟨0, 0, d⟩).deleteBlock B) := by
  have hdec : decr 1 = 0 := by decide
  rw [weakRelease_eq hB]
  show some (if 0 = 0 ∧ decr 1 = 0
    then (t.setBlock B ⟨0, decr 1, d⟩).deleteBlock B
    else t.setBlock B ⟨0, decr 1, d⟩) = _
  rw [hdec, if_pos ⟨rfl, rfl⟩]

/-- The strong release of a block with counters `1` and `1` whose object's `weak_this_`
is the only weak handle: the state after `Destroy()` has returned, and the final state. -/
theorem release_self_protected {t : Heap} {B a m p : Nat} {d : Derived} {o : Object}
    (hB : t.block B = some ⟨1, 1, d⟩)
    (hd : d = Derived.ControlBlockEmplace a ∨
      (d = Derived.ControlBlockPointer a ∧ o.emplaced = false))
    (ho : t.object a = some o) (ha : o.alive = true) (hm : o.weak_this_ = some m)
    (hw : t.weakAt m = some ⟨some B, p⟩) :
    Destroy B (t.setBlock B ⟨0, 2, d⟩)
        = some ((((((t.setBlock B ⟨0, 2, d⟩).emit (Event.Destroy B)).setObject a
          { o with alive := false }).emit (Event.Destruct a)).setWeak m none).setBlock B
          ⟨0, 1, d⟩) ∧
      SharedPtr.release B t
        = some (((((((t.setBlock B ⟨0, 2, d⟩).emit (Event.Destroy B)).setObject a
          { o with alive := false }).emit (Event.Destruct a)).setWeak m none).setBlock B
          ⟨0, 0, d⟩).deleteBlock B) := by
  have hinc : incr 1 = 2 := by decide
  have hdec : decr 1 = 0 := by decide
  have e1 : weakInc B t = some (t.setBlock B ⟨1, 2, d⟩) := by
    rw [weakInc_eq hB]
    show some (t.setBlock B ⟨1, incr 1, d⟩) = _
    rw [hinc]
  have hB1 : (t.setBlock B ⟨1, 2, d⟩).block B = some ⟨1, 2, d⟩ := block_setBlock_self hB _
  have e2 : strongDec B (t.setBlock B ⟨1, 2, d⟩) = some (t.setBlock B ⟨0, 2, d⟩) := by
    rw [strongDec_eq hB1, setBlock_setBlock]
    show some (t.setBlock B ⟨decr 1, 2, d⟩) = _
    rw [hdec]
  have hB2 : (t.setBlock B ⟨0, 2, d⟩).block B = some ⟨0, 2, d⟩ := block_setBlock_self hB _
  have e3 : destroyIfZero B (t.setBlock B ⟨0, 2, d⟩) = Destroy B (t.setBlock B ⟨0, 2, d⟩) :=
    destroyIfZero_zero hB2 rfl
  have hX : (((((t.setBlock B ⟨0, 2, d⟩).emit (Event.Destroy B)).setObject a
      { o with alive := false }).emit (Event.Destruct a)).setWeak m none).block B
      = some ⟨0, 1 + 1, d⟩ := hB2
  have e4 : Destroy B (t.setBlock B ⟨0, 2, d⟩)
      = some ((((((t.setBlock B ⟨0, 2, d⟩).emit (Event.Destroy B)).setObject a
        { o with alive := false }).emit (Event.Destruct a)).setWeak m none).setBlock B
        ⟨0, 1, d⟩) := by
    rw [Destroy_marker hB2 hd ho ha hm hw]
    exact weakRelease_keep hX (by decide) (by decide)
  have hY : ((((((t.setBlock B ⟨0, 2, d⟩).emit (Event.Destroy B)).setObject a
      { o with alive := false }).emit (Event.Destruct a)).setWeak m none).setBlock B
      ⟨0, 1, d⟩).block B = some ⟨0, 1, d⟩ := block_setBlock_self hX _
  refine ⟨e4, ?_⟩
  rw [release_eq, e1]
  show (match strongDec B (t.setBlock B ⟨1, 2, d⟩) with
    | none => none
    | some s2 =>
      match destroyIfZero B s2 with
      | none => none
      | some s3 => WeakPtr.release B s3) = _
  rw [e2]
  show (match destroyIfZero B (t.setBlock B ⟨0, 2, d⟩) with
    | none => none
    | some s3 => WeakPtr.release B s3) = _
  rw [e3, e4]
  show WeakPtr.release B _ = _
  rw [weakRelease_last hY, setBlock_setBlock]

theorem object_setObject {t : Heap} {a : Nat} {o : Object} (ho : t.object a = some o)
    (o' : Object) : (t.setObject a o').object a = some o' := by
  unfold Heap.object at ho ⊢
  unfold Heap.setObject
  split at ho
  · cases ho
  · rename_i ha0
    rw [if_neg ha0]
    have hlt : a - 1 < t.objects.length := by
      by_contra hn
      rw [List.getElem?_eq_none (by omega)] at ho
      cases ho
    simp [List.getElem?_set, hlt]

/-- Without the increment of step 1 the release of the marker inside `Destroy()` deletes
the block, and the next statement of the protocol touches a deleted block. -/
theorem Destroy_unprotected {t : Heap} {B a m p : Nat} {d : Derived} {o : Object}
    (hB : t.block B = some ⟨0, 1, d⟩)
    (hd : d = Derived.ControlBlockEmplace a ∨
      (d = Derived.ControlBlockPointer a ∧ o.emplaced = false))
    (ho : t.object a = some o) (ha : o.alive = true) (hm : o.weak_this_ = some m)
    (hw : t.weakAt m = some ⟨some B, p⟩) :
    ∃ sx, Destroy B t = some sx ∧ sx.block B = none ∧ weakDec B sx = none ∧
      deleteIfUnused B sx = none := by
  have hX : ((((t.emit (Event.Destroy B)).setObject a { o with alive := false }).emit
      (Event.Destruct a)).setWeak m none).block B = some ⟨0, 1, d⟩ := hB
  have hn : ((((((t.emit (Event.Destroy B)).setObject a { o with alive := false }).emit
      (Event.Destruct a)).setWeak m none).setBlock B ⟨0, 0, d⟩).deleteBlock B).block B
      = none := by
    rw [block_deleteBlock (block_setBlock_self hX _), if_pos rfl]
  refine ⟨_, ?_, hn, ?_, ?_⟩
  · rw [Destroy_marker hB hd ho ha hm hw]
    exact weakRelease_last hX
  · unfold weakDec
    rw [hn]
  · unfold deleteIfUnused
    rw [hn]

/-- C18: a strong handle (slot `i`) is the only one on block `B`, whose counters are `1`
and `1`; `B` owns a live object whose `weak_this_` (weak slot `m`) observes `B`.  The
destructor of the handle raises `weak_cnt` to `2` and lowers `strong_cnt` to `0`; the call
`Destroy()` then returns with the object destroyed, the marker gone, and `B` alive with
counters `0` and `1`; the weak release that ends the protocol deletes `B`; the log gains
`Destroy B`, the destruction of the object and `Delete B`, in that order.  With `weak_cnt`
left at `1`, `Destroy()` would return with `B` deleted. -/
theorem self_protected_teardown (s : Heap) (i B a m p q : Nat) (d : Derived) (o : Object)
    (hi : s.sharedAt i = some ⟨some B, q⟩) (hB : s.block B = some ⟨1, 1, d⟩)
    (hd : d = Derived.ControlBlockEmplace a ∨
      (d = Derived.ControlBlockPointer a ∧ o.emplaced = false))
    (ho : s.object a = some o) (ha : o.alive = true) (hm : o.weak_this_ = some m)
    (hw : s.weakAt m = some ⟨some B, p⟩) :
    (∃ s3 s', weakInc B (s.setShared i none) = some ((s.setShared i none).setBlock B ⟨1, 2, d⟩) ∧
      strongDec B ((s.setShared i none).setBlock B ⟨1, 2, d⟩)
        = some ((s.setShared i none).setBlock B ⟨0, 2, d⟩) ∧
      Destroy B ((s.setShared i none).setBlock B ⟨0, 2, d⟩) = some s3 ∧
      s3.block B = some ⟨0, 1, d⟩ ∧ s3.weakAt m = none ∧
      s3.log = s.log ++ [Event.Destroy B, Event.Destruct a] ∧
      WeakPtr.release B s3 = some s' ∧ SharedPtr.dtor i s = some s' ∧
      s'.block B = none ∧
      s'.log = s.log ++ [Event.Destroy B, Event.Destruct a, Event.Delete B] ∧
      s'.object a = some { o with alive := false } ∧
      s'.sharedAt i = none ∧ s'.weakAt m = none) ∧
    (∃ sx, Destroy B ((s.setShared i none).setBlock B ⟨0, 1, d⟩) = some sx ∧
      sx.block B = none ∧ weakDec B sx = none ∧ deleteIfUnused B sx = none) := by
  have hB0 : (s.setShared i none).block B = some ⟨1, 1, d⟩ := hB
  have ho0 : (s.setShared i none).object a = some o := ho
  have hw0 : (s.setShared i none).weakAt m = some ⟨some B, p⟩ := hw
  have hB2 : ((s.setShared i none).setBlock B ⟨0, 2, d⟩).block B = some ⟨0, 2, d⟩ :=
    block_setBlock_self hB0 _
  have hB1 : ((s.setShared i none).setBlock B ⟨0, 1, d⟩).block B = some ⟨0, 1, d⟩ :=
    block_setBlock_self hB0 _
  obtain ⟨e4, e5⟩ := release_self_protected hB0 hd ho0 ha hm hw0
  have hX : ((((((s.setShared i none).setBlock B ⟨0, 2, d⟩).emit (Event.Destroy B)).setObject a
      { o with alive := false }).emit (Event.Destruct a)).setWeak m none).block B
      = some ⟨0, 2, d⟩ := hB2
  have hY := block_setBlock_self hX ⟨0, 1, d⟩
  have hwm : ((((((s.setShared i none).setBlock B ⟨0, 2, d⟩).emit (Event.Destroy B)).setObject
      a { o with alive := false }).emit (Event.Destruct a)).setWeak m none).weakAt m
      = none := by
    have h0 : (((((s.setShared i none).setBlock B ⟨0, 2, d⟩).emit (Event.Destroy B)).setObject
        a { o with alive := false }).emit (Event.Destruct a)).weakAt m
        = some ⟨some B, p⟩ := hw
    rw [weakAt_setWeak h0, if_pos rfl]
  have hinc : incr 1 = 2 := by decide
  have hdec : decr 1 = 0 := by decide
  constructor
  · refine ⟨_, _, ?_, ?_, e4, hY, ?_, ?_, weakRelease_last hY, ?_, ?_, ?_, ?_, ?_, ?_⟩
    · rw [weakInc_eq hB0]
      show some ((s.setShared i none).setBlock B ⟨1, incr 1, d⟩) = _
      rw [hinc]
    · rw [strongDec_eq (block_setBlock_self hB0 _), setBlock_setBlock]
      show some ((s.setShared i none).setBlock B ⟨decr 1, 2, d⟩) = _
      rw [hdec]
    · rw [weakAt_setBlock]
      exact hwm
    · show (s.log ++ [Event.Destroy B]) ++ [Event.Destruct a] = _
      simp
    · unfold SharedPtr.dtor
      rw [hi]
      show SharedPtr.release B (s.setShared i none) = _
      rw [e5, setBlock_setBlock]
    · rw [block_deleteBlock (block_setBlock_self hY _), if_pos rfl]
    · show ((s.log ++ [Event.Destroy B]) ++ [Event.Destruct a]) ++ [Event.Delete B] = _
      simp
    · have h0 : (((s.setShared i none).setBlock B ⟨0, 2, d⟩).emit (Event.Destroy B)).object a
          = some o := ho
      exact object_setObject h0 _
    · show (s.setShared i none).sharedAt i = none
      rw [sharedAt_setShared hi, if_pos rfl]
    · exact hwm
  · exact Destroy_unprotected hB1 hd ho0 ha hm hw0

theorem self_protected_teardown_witness :
    exec [Op.MakeShared true] Heap.empty = some selfRefHeap ∧
      SharedPtr.dtor 0 selfRefHeap = some selfRefGone ∧
      ∃ s3 s', Destroy 0 ((selfRefHeap.setShared 0 none).setBlock 0
          ⟨0, 2, Derived.ControlBlockEmplace 1⟩) = some s3 ∧
        s3.block 0 = some ⟨0, 1, Derived.ControlBlockEmplace 1⟩ ∧
        SharedPtr.dtor 0 selfRefHeap = some s' ∧ s'.block 0 = none ∧
        s'.log = selfRefHeap.log ++ [Event.Destroy 0, Event.Destruct 1, Event.Delete 0] := by
  refine ⟨by decide, by decide, ?_⟩
  obtain ⟨s3, s', _, _, h3, h4, _, _, _, h8, h9, h10, _⟩ := (self_protected_teardown
    selfRefHeap 0 0 1 0 1 1 (Derived.ControlBlockEmplace 1) ⟨true, true, some 0⟩
    (by decide) (by decide) (Or.inl rfl) (by decide) rfl rfl (by decide)).1
  exact ⟨s3, s', h3, h4, h8, h9, h10⟩

/-- The release the five-step protocol is compared with:
`strong_cnt -= 1; if (strong_cnt == 0) Destroy(); if (strong_cnt == 0 && weak_cnt == 0)
delete`. -/
def naiveRelease (b : Nat) (s : Heap) : Option Heap :=
  match strongDec b s with
  | none => none
  | some s2 =>
    match destroyIfZero b s2 with
    | none => none
    | some s3 => deleteIfUnused b s3

/-- The call `Destroy()` of block `B` does not touch the counters of `B`: the
`weak_this_` of the object `B` owns, when it has one, does not observe `B`. -/
def Unmarked (s : Heap) (B : Nat) : Prop :=
  ∀ blk o m h, s.block B = some blk → s.object blk.derived.object = some o →
    o.weak_this_ = some m → s.weakAt m = some h → h.block_ ≠ some B

theorem setBlock_comm (t : Heap) {B C : Nat} (hne : C ≠ B) (y z : ControlBlockBase) :
    (t.setBlock B y).setBlock C z = (t.setBlock C z).setBlock B y := by
  apply Heap.ext_fields
  · exact List.set_comm _ _ _ (Ne.symm hne)
  · rfl
  · rfl
  · rfl
  · rfl

theorem deleteBlock_setBlock (t : Heap) {B C : Nat} (hne : C ≠ B) (y : ControlBlockBase) :
    (t.setBlock B y).deleteBlock C = (t.deleteBlock C).setBlock B y := by
  apply Heap.ext_fields
  · exact List.set_comm _ _ _ (Ne.symm hne)
  · rfl
  · rfl
  · rfl
  · rfl

theorem setBlock_same {t : Heap} {B : Nat} {x : ControlBlockBase} (hB : t.block B = some x) :
    t.setBlock B x = t := by
  apply Heap.ext_fields
  · have h := blocks_set_restore hB (some x)
    rw [List.set_set] at h
    exact h
  · rfl
  · rfl
  · rfl
  · rfl

theorem block_setBlock_of_lt {t : Heap} {B : Nat} (hlt : B < t.blocks.length)
    (x : ControlBlockBase) : (t.setBlock B x).block B = some x := by
  unfold Heap.block Heap.setBlock
  simp [List.getD_eq_getElem?_getD, List.getElem?_set, hlt]

/-- A weak release of another block commutes with a write to block `B`. -/
theorem weakRelease_setBlock {t : Heap} {B C : Nat} {x : ControlBlockBase}
    (hB : t.block B = some x) (hne : C ≠ B) (y : ControlBlockBase) :
    WeakPtr.release C (t.setBlock B y)
      = (WeakPtr.release C t).map (fun t' => t'.setBlock B y) := by
  have hCy : (t.setBlock B y).block C = t.block C := by
    rw [block_setBlock hB, if_neg hne]
  cases hC : t.block C with
  | none =>
    have h1 : WeakPtr.release C t = none := by
      unfold WeakPtr.release weakDec
      rw [hC]
    have h2 : WeakPtr.release C (t.setBlock B y) = none := by
      unfold WeakPtr.release weakDec
      rw [hCy, hC]
    rw [h1, h2]
    rfl
  | some c =>
    rw [hC] at hCy
    rw [weakRelease_eq hCy, weakRelease_eq hC]
    by_cases hc : c.strong_cnt = 0 ∧ decr c.weak_cnt = 0
    · rw [if_pos hc, if_pos hc]
      show some _ = some _
      rw [setBlock_comm t hne, deleteBlock_setBlock _ hne]
    · rw [if_neg hc, if_neg hc]
      show some _ = some _
      rw [setBlock_comm t hne]

/-- The destructor of a weak handle that does not observe `B` commutes with a write to
block `B`. -/
theorem weakDtor_setBlock {t : Heap} {B m : Nat} {x : ControlBlockBase}
    (hB : t.block B = some x) (hm : ∀ h, t.weakAt m = some h → h.block_ ≠ some B)
    (y : ControlBlockBase) :
    WeakPtr.dtor m (t.setBlock B y) = (WeakPtr.dtor m t).map (fun t' => t'.setBlock B y) := by
  unfold WeakPtr.dtor
  rw [weakAt_setBlock]
  cases hw : t.weakAt m with
  | none => rfl
  | some h =>
    cases hb : h.block_ with
    | none =>
      simp only [hb, WeakPtr.releaseIf]
      rfl
    | some C =>
      have hne : C ≠ B := by
        intro hCB
        subst hCB
        exact hm h hw hb
      simp only [hb, WeakPtr.releaseIf]
      have hB' : (t.setWeak m none).block B = some x := hB
      exact weakRelease_setBlock hB' hne y

/-- The destructor of an object whose `weak_this_` does not observe `B` commutes with a
write to block `B`. -/
theorem destruct_setBlock {t : Heap} {B a : Nat} {x : ControlBlockBase}
    (hB : t.block B = some x)
    (hU : ∀ o m h, t.object a = some o → o.weak_this_ = some m → t.weakAt m = some h →
      h.block_ ≠ some B)
    (y : ControlBlockBase) :
    destruct a (t.setBlock B y) = (destruct a t).map (fun t' => t'.setBlock B y) := by
  unfold destruct
  rw [object_setBlock]
  cases ho : t.object a with
  | none => rfl
  | some o =>
    simp only
    by_cases ha : o.alive = true
    · rw [if_pos ha, if_pos ha]
      cases hm : o.weak_this_ with
      | none => rfl
      | some m =>
        simp only
        have hB' : ((t.setObject a { o with alive := false }).emit (Event.Destruct a)).block B
            = some x := hB
        have key := weakDtor_setBlock hB' (fun h hw => hU o m h ho hm hw) y
        rw [hm] at key
        exact key
    · rw [if_neg ha, if_neg ha]
      rfl

/-- The call `Destroy()` of block `B` commutes with a write of the counters of `B` when
the object `B` owns has no `weak_this_` that observes `B`. -/
theorem Destroy_setBlock {t : Heap} {B : Nat} {x y : ControlBlockBase}
    (hB : t.block B = some x) (hd : y.derived = x.derived)
    (hU : ∀ o m h, t.object x.derived.object = some o → o.weak_this_ = some m →
      t.weakAt m = some h → h.block_ ≠ some B) :
    Destroy B (t.setBlock B y) = (Destroy B t).map (fun t' => t'.setBlock B y) := by
  have hB' : (t.emit (Event.Destroy B)).block B = some x := hB
  unfold Destroy
  rw [block_setBlock_self hB y, hB]
  simp only [hd]
  cases hx : x.derived with
  | ControlBlockPointer ptr =>
    rw [hx] at hU
    simp only
    by_cases hp : ptr = 0
    · rw [if_pos hp, if_pos hp]
      rfl
    · rw [if_neg hp, if_neg hp, object_emit, object_emit, object_setBlock]
      cases ho : t.object ptr with
      | none => rfl
      | some o =>
        simp only
        by_cases he : o.emplaced = true
        · rw [if_pos he, if_pos he]
          rfl
        · rw [if_neg he, if_neg he]
          exact destruct_setBlock hB' hU y
  | ControlBlockEmplace storage =>
    rw [hx] at hU
    simp only
    exact destruct_setBlock hB' hU y

/-- The call `Destroy()` of block `B` leaves block `B` as it is when the object `B` owns
has no `weak_this_` that observes `B`. -/
theorem Destroy_keeps_block {t t' : Heap} {B : Nat} {x : ControlBlockBase}
    (hB : t.block B = some x)
    (hU : ∀ o m h, t.object x.derived.object = some o → o.weak_this_ = some m →
      t.weakAt m = some h → h.block_ ≠ some B)
    (e : Destroy B t = some t') : t'.block B = some x := by
  have h := Destroy_setBlock (y := x) hB rfl hU
  rw [setBlock_same hB, e] at h
  have h' : t' = t'.setBlock B x := Option.some.inj h
  have hlt : B < t'.blocks.length := by
    rw [length_Destroy e]
    exact lt_of_block hB
  rw [h']
  exact block_setBlock_of_lt hlt x

/-- The weak release that ends the five-step protocol, on a block whose `weak_cnt` was
raised at its start. -/
theorem weakRelease_raised {t : Heap} {B sc w : Nat} {d : Derived}
    (hB : t.block B = some ⟨sc, incr w, d⟩) (hw : w < SIZE_MOD) :
    WeakPtr.release B t = some (if sc = 0 ∧ w = 0
      then (t.setBlock B ⟨sc, w, d⟩).deleteBlock B else t.setBlock B ⟨sc, w, d⟩) := by
  rw [weakRelease_eq hB]
  show some (if sc = 0 ∧ decr (incr w) = 0
    then (t.setBlock B ⟨sc, decr (incr w), d⟩).deleteBlock B
    else t.setBlock B ⟨sc, decr (incr w), d⟩) = _
  rw [decr_incr hw]

theorem deleteIfUnused_eq {t : Heap} {B : Nat} {blk : ControlBlockBase}
    (hB : t.block B = some blk) :
    deleteIfUnused B t
      = some (if blk.strong_cnt = 0 ∧ blk.weak_cnt = 0 then t.deleteBlock B else t) := by
  by_cases h : blk.strong_cnt = 0 ∧ blk.weak_cnt = 0
  · rw [if_pos h]
    exact deleteIfUnused_unused hB h
  · rw [if_neg h]
    exact deleteIfUnused_used hB h

/-- The last three statements of the five-step protocol, after `weak_cnt` was raised, and
the last two of the naive protocol leave the same state. -/
theorem release_tail {t : Heap} {B sc w : Nat} {d : Derived} {x0 : ControlBlockBase}
    (hB : t.block B = some x0) (hw : w < SIZE_MOD)
    (hU : ∀ o m h, t.object d.object = some o → o.weak_this_ = some m →
      t.weakAt m = some h → h.block_ ≠ some B) :
    (match destroyIfZero B (t.setBlock B ⟨sc, incr w, d⟩) with
      | none => none
      | some s3 => WeakPtr.release B s3)
    = (match destroyIfZero B (t.setBlock B ⟨sc, w, d⟩) with
      | none => none
      | some s3 => deleteIfUnused B s3) := by
  have hy : (t.setBlock B ⟨sc, incr w, d⟩).block B = some ⟨sc, incr w, d⟩ :=
    block_setBlock_self hB _
  have hx : (t.setBlock B ⟨sc, w, d⟩).block B = some ⟨sc, w, d⟩ :=
    block_setBlock_self hB _
  by_cases hz : sc = 0
  · subst hz
    rw [destroyIfZero_zero hy rfl, destroyIfZero_zero hx rfl]
    have hcomm := Destroy_setBlock (y := ⟨0, incr w, d⟩) hx rfl hU
    rw [setBlock_setBlock] at hcomm
    rw [hcomm]
    cases e : Destroy B (t.setBlock B ⟨0, w, d⟩) with
    | none => rfl
    | some n3 =>
      have hn3 : n3.block B = some ⟨0, w, d⟩ := Destroy_keeps_block hx hU e
      show WeakPtr.release B (n3.setBlock B ⟨0, incr w, d⟩) = deleteIfUnused B n3
      rw [weakRelease_raised (block_setBlock_self hn3 _) hw, deleteIfUnused_eq hn3,
        setBlock_setBlock, setBlock_same hn3]
  · rw [destroyIfZero_pos hy hz, destroyIfZero_pos hx hz]
    show WeakPtr.release B (t.setBlock B ⟨sc, incr w, d⟩)
      = deleteIfUnused B (t.setBlock B ⟨sc, w, d⟩)
    have hc : ¬ (sc = 0 ∧ w = 0) := fun h => hz h.1
    rw [weakRelease_raised hy hw, deleteIfUnused_eq hx, setBlock_setBlock, if_neg hc]

/-- C19: on every block `B` whose `weak_cnt` is a `size_t` value and whose `Destroy()`
does not touch the counters of `B`, the five-step strong release and the naive three-step
release leave the same state, or are both undefined: the same counters of every block, the
same log of `Destroy()`, destructor and `delete` events; and when `B` is still there after
the release its `weak_cnt` is what it was and its `strong_cnt` is one less. -/
theorem release_refines_naive (s : Heap) (B : Nat) (blk : ControlBlockBase)
    (hB : s.block B = some blk) (hw : blk.weak_cnt < SIZE_MOD) (hU : Unmarked s B) :
    SharedPtr.release B s = naiveRelease B s ∧
      ∀ s' blk', SharedPtr.release B s = some s' → s'.block B = some blk' →
        blk'.weak_cnt = blk.weak_cnt ∧ blk'.strong_cnt = decr blk.strong_cnt ∧
        blk'.derived = blk.derived := by
  have hU' : ∀ o m h, s.object blk.derived.object = some o → o.weak_this_ = some m →
      s.weakAt m = some h → h.block_ ≠ some B := fun o m h ho hm hh => hU blk o m h hB ho hm hh
  have hnaive : naiveRelease B s
      = (match destroyIfZero B (s.setBlock B ⟨decr blk.strong_cnt, blk.weak_cnt, blk.derived⟩)
          with
        | none => none
        | some s3 => deleteIfUnused B s3) := by
    unfold naiveRelease
    rw [strongDec_eq hB]
  have hfive : SharedPtr.release B s = naiveRelease B s := by
    rw [hnaive, release_eq, weakInc_eq hB]
    show (match strongDec B (s.setBlock B ⟨blk.strong_cnt, incr blk.weak_cnt, blk.derived⟩)
        with
      | none => none
      | some s2 =>
        match destroyIfZero B s2 with
        | none => none
        | some s3 => WeakPtr.release B s3) = _
    rw [strongDec_eq (block_setBlock_self hB _), setBlock_setBlock]
    exact release_tail hB hw hU'
  refine ⟨hfive, ?_⟩
  intro s' blk' e hb'
  rw [hfive, hnaive] at e
  have hx : (s.setBlock B ⟨decr blk.strong_cnt, blk.weak_cnt, blk.derived⟩).block B
      = some ⟨decr blk.strong_cnt, blk.weak_cnt, blk.derived⟩ := block_setBlock_self hB _
  have fin : ∀ n3 : Heap, n3.block B = some ⟨decr blk.strong_cnt, blk.weak_cnt, blk.derived⟩ →
      deleteIfUnused B n3 = some s' →
      blk'.weak_cnt = blk.weak_cnt ∧ blk'.strong_cnt = decr blk.strong_cnt ∧
        blk'.derived = blk.derived := by
    intro n3 hn3 e3
    rw [deleteIfUnused_eq hn3] at e3
    have e3' := Option.some.inj e3
    split at e3'
    · rw [← e3', block_deleteBlock hn3, if_pos rfl] at hb'
      cases hb'
    · rw [← e3', hn3] at hb'
      have := Option.some.inj hb'
      rw [← this]
      exact ⟨rfl, rfl, rfl⟩
  by_cases hz : decr blk.strong_cnt = 0
  · rw [destroyIfZero_zero hx hz] at e
    cases e4 : Destroy B (s.setBlock B ⟨decr blk.strong_cnt, blk.weak_cnt, blk.derived⟩) with
    | none =>
      rw [e4] at e
      cases e
    | some n3 =>
      rw [e4] at e
      exact fin n3 (Destroy_keeps_block hx hU' e4) e
  · rw [destroyIfZero_pos hx hz] at e
    exact fin _ hx e

/-- Where the hypothesis of C19 fails the two protocols differ: for the only handle of a
self-referencing object the five-step release returns, and the naive release deletes the
block inside `Destroy()` and then reads it. -/
theorem naive_release_self_marked :
    SharedPtr.release 0 (selfRefHeap.setShared 0 none) = some selfRefGone ∧
      naiveRelease 0 (selfRefHeap.setShared 0 none) = none := by
  decide

theorem release_refines_naive_witness :
    pairHeap.block 0 = some ⟨1, 0, Derived.ControlBlockEmplace 1⟩ ∧
      Unmarked pairHeap 0 ∧
      SharedPtr.release 0 pairHeap = naiveRelease 0 pairHeap ∧
      naiveRelease 0 pairHeap
        = some ⟨[none, some ⟨1, 0, Derived.ControlBlockEmplace 2⟩],
          [⟨false, true, none⟩, ⟨true, true, none⟩],
          [some ⟨some 0, 1⟩, some ⟨some 1, 2⟩], [],
          [Event.Destroy 0, Event.Destruct 1, Event.Delete 0]⟩ := by
  have hU : Unmarked pairHeap 0 := by
    intro blk o m h hb ho hm _
    have hb' : blk = ⟨1, 0, Derived.ControlBlockEmplace 1⟩ := (Option.some.inj hb).symm
    subst hb'
    have ho' : o = ⟨true, true, none⟩ := (Option.some.inj ho).symm
    subst ho'
    cases hm
  exact ⟨by decide, hU,
    (release_refines_naive pairHeap 0 ⟨1, 0, Derived.ControlBlockEmplace 1⟩ (by decide)
      (by decide) hU).1, by decide⟩

/-- The log of `s'` continues the log of `s`. -/
def LogLe (s s' : Heap) : Prop := ∃ evs, s'.log = s.log ++ evs

theorem logLe_refl (s : Heap) : LogLe s s := ⟨[], by simp⟩

theorem logLe_of_eq {s s' : Heap} (h : s'.log = s.log) : LogLe s s' := ⟨[], by simp [h]⟩

theorem logLe_trans {s s' s'' : Heap} (h1 : LogLe s s') (h2 : LogLe s' s'') : LogLe s s'' := by
  obtain ⟨e1, h1⟩ := h1
  obtain ⟨e2, h2⟩ := h2
  exact ⟨e1 ++ e2, by rw [h2, h1, List.append_assoc]⟩

theorem logLe_mem {s s' : Heap} (h : LogLe s s') {e : Event} (he : e ∈ s.log) :
    e ∈ s'.log := by
  obtain ⟨evs, h⟩ := h
  rw [h]
  exact List.mem_append_left _ he

theorem log_weakIncIf {s s' : Heap} {r : Option Nat} (e : weakIncIf r s = some s') :
    s'.log = s.log := by
  cases r with
  | none =>
    simp only [weakIncIf, Option.some.injEq] at e
    subst e
    rfl
  | some b => exact (log_weakInc e :)

theorem logLe_weakRelease {s s' : Heap} {b : Nat} (e : WeakPtr.release b s = some s') :
    LogLe s s' := by
  obtain ⟨evs, h, _⟩ := weakRelease_extends e
  exact ⟨evs, h⟩

theorem logLe_weakReleaseIf {s s' : Heap} {r : Option Nat}
    (e : WeakPtr.releaseIf r s = some s') : LogLe s s' := by
  cases r with
  | none =>
    simp only [WeakPtr.releaseIf, Option.some.injEq] at e
    subst e
    exact logLe_refl _
  | some b => exact (logLe_weakRelease e :)

theorem logLe_weakDtor {s s' : Heap} {w : Nat} (e : WeakPtr.dtor w s = some s') :
    LogLe s s' := by
  obtain ⟨evs, h⟩ := weakDtor_extends e
  exact ⟨evs, h⟩

theorem logLe_Destroy {s s' : Heap} {b : Nat} (e : Destroy b s = some s') : LogLe s s' := by
  obtain ⟨evs, h⟩ := Destroy_extends e
  exact ⟨_, h⟩

theorem logLe_release {s s' : Heap} {b : Nat} (e : SharedPtr.release b s = some s') :
    LogLe s s' := by
  rw [release_eq] at e
  split at e
  · cases e
  · rename_i s1 e1
    split at e
    · cases e
    · rename_i s2 e2
      split at e
      · cases e
      · rename_i s3 e3
        have h3 : LogLe s2 s3 := by
          unfold destroyIfZero at e3
          split at e3
          · cases e3
          · split at e3
            · exact (logLe_Destroy e3 :)
            · simp only [Option.some.injEq] at e3
              subst e3
              exact logLe_refl _
        exact logLe_trans (logLe_of_eq (log_weakInc e1 :) :)
          (logLe_trans (logLe_of_eq (log_strongDec e2 :) :) (logLe_trans h3 (logLe_weakRelease e :)))

theorem logLe_releaseIf {s s' : Heap} {r : Option Nat}
    (e : SharedPtr.releaseIf r s = some s') : LogLe s s' := by
  cases r with
  | none =>
    simp only [SharedPtr.releaseIf, Option.some.injEq] at e
    subst e
    exact logLe_refl _
  | some b => exact (logLe_release e :)

theorem logLe_weak_Reset {s s' : Heap} {w : Nat} (e : WeakPtr.Reset w s = some s') :
    LogLe s s' := by
  unfold WeakPtr.Reset at e
  split at e
  · cases e
  · exact (logLe_weakReleaseIf e :)

theorem logLe_weak_assignMove {s s' : Heap} {w o : Nat}
    (e : WeakPtr.assignMove w o s = some s') : LogLe s s' := by
  unfold WeakPtr.assignMove at e
  split at e
  · split at e
    · simp only [Option.some.injEq] at e
      subst e
      exact logLe_refl _
    · exact (logLe_weakReleaseIf e :)
  · cases e

theorem logLe_weak_assign {s s' : Heap} {w o : Nat}
    (e : WeakPtr.assign w o s = some s') : LogLe s s' := by
  unfold WeakPtr.assign at e
  split at e
  · split at e
    · simp only [Option.some.injEq] at e
      subst e
      exact logLe_refl _
    · split at e
      · cases e
      · rename_i s1 e1
        exact logLe_trans (logLe_of_eq (log_weakIncIf e1 :) :) (logLe_weakReleaseIf e :)
  · cases e

theorem logLe_weak_ctorDemote {s s' : Heap} {i : Nat}
    (e : WeakPtr.ctorDemote i s = some s') : LogLe s s' := by
  unfold WeakPtr.ctorDemote at e
  split at e
  · cases e
  · exact (logLe_of_eq (log_weakIncIf e :) :)

theorem logLe_InitWeakThis {s s' : Heap} {i : Nat} (e : InitWeakThis i s = some s') :
    LogLe s s' := by
  unfold InitWeakThis at e
  split at e
  · cases e
  · split at e
    · cases e
    · rename_i s1 e1
      simp only at e
      split at e
      · cases e
      · split at e
        · split at e
          · cases e
          · split at e
            · cases e
            · rename_i s2 e2
              exact logLe_trans (logLe_weak_ctorDemote e1 :)
                (logLe_trans (logLe_weak_assignMove e2 :) (logLe_weakDtor e :))
        · cases e

theorem logLe_ESFT {s s' : Heap} {cap : Bool} {i : Nat} (e : ESFT cap i s = some s') :
    LogLe s s' := by
  unfold ESFT at e
  split at e
  · exact (logLe_InitWeakThis e :)
  · simp only [Option.some.injEq] at e
    subst e
    exact logLe_refl _

theorem logLe_Reset {s s' : Heap} {i : Nat} (e : SharedPtr.Reset i s = some s') :
    LogLe s s' := by
  unfold SharedPtr.Reset at e
  split at e
  · cases e
  · exact (logLe_releaseIf e :)

theorem logLe_ctor {s s' : Heap} {cap : Bool} (e : SharedPtr.ctor cap s = some s') :
    LogLe s s' := by
  unfold SharedPtr.ctor at e
  exact (logLe_ESFT e :)

theorem logLe_ctorPromote {s s' : Heap} {cap : Bool} {w : Nat}
    (e : (SharedPtr.ctorPromote cap w s).heap = some s') : LogLe s s' := by
  unfold SharedPtr.ctorPromote at e
  split at e
  · cases e
  · split at e
    · cases e
    · simp only [Result.heap, Option.some.injEq] at e
      subst e
      exact logLe_refl _
    · split at e
      · cases e
      · rename_i s1 e1
        rw [heap_ofOption] at e
        exact logLe_trans (logLe_of_eq (log_strongIncIf e1 :) :) (logLe_ESFT e :)

theorem logLe_Lock {s s' : Heap} {cap : Bool} {w : Nat}
    (e : (WeakPtr.Lock cap w s).heap = some s') : LogLe s s' := by
  unfold WeakPtr.Lock at e
  split at e
  · cases e
  · split at e
    · cases e
    · exact (logLe_ctorPromote e :)
    · rw [heap_ofOption] at e
      exact (logLe_ctor e :)

/-- Every call of the handle API only appends to the log. -/
theorem logLe_step {s s' : Heap} (op : Op) (e : (step op s).heap = some s') : LogLe s s' := by
  cases op <;> simp only [step, heap_ofOption] at e
  case newObject cap =>
    simp only [Result.heap, Option.some.injEq] at e
    subst e
    unfold newObject
    split <;> exact logLe_of_eq rfl
  case MakeShared cap =>
    unfold MakeShared SharedPtr.ctorEmplace at e
    simp only at e
    refine logLe_trans (logLe_of_eq ?_) (logLe_ESFT e :)
    unfold newObject
    split <;> rfl
  case SharedPtr_ctor cap => exact (logLe_ctor e :)
  case SharedPtr_ctorPtr cap ptr =>
    unfold SharedPtr.ctorPtr at e
    exact logLe_trans (logLe_refl _) (logLe_ESFT e :)
  case SharedPtr_ctorCopy cap i =>
    unfold SharedPtr.ctorCopy at e
    split at e
    · cases e
    · split at e
      · cases e
      · rename_i s1 e1
        exact logLe_trans (logLe_of_eq (log_strongIncIf e1 :) :) (logLe_ESFT e :)
  case SharedPtr_ctorMove cap i =>
    unfold SharedPtr.ctorMove at e
    split at e
    · cases e
    · exact logLe_trans (logLe_refl _) (logLe_ESFT e :)
  case SharedPtr_ctorCopyFrom cap i =>
    unfold SharedPtr.ctorCopyFrom at e
    split at e
    · cases e
    · split at e
      · cases e
      · rename_i s1 e1
        exact logLe_trans (logLe_of_eq (log_strongIncIf e1 :) :) (logLe_ESFT e :)
  case SharedPtr_ctorMoveFrom cap i =>
    unfold SharedPtr.ctorMoveFrom at e
    split at e
    · cases e
    · split at e
      · cases e
      · rename_i s1 e1
        split at e
        · cases e
        · rename_i s2 e2
          exact logLe_trans (logLe_of_eq (log_strongIncIf e1 :) :)
            (logLe_trans (logLe_Reset e2 :) (logLe_ESFT e :))
  case SharedPtr_ctorAlias cap i ptr =>
    unfold SharedPtr.ctorAlias at e
    split at e
    · cases e
    · split at e
      · cases e
      · rename_i s1 e1
        exact logLe_trans (logLe_of_eq (log_strongIncIf e1 :) :) (logLe_ESFT e :)
  case SharedPtr_ctorPromote cap w => exact (logLe_ctorPromote e :)
  case SharedPtr_assign i j =>
    unfold SharedPtr.assign at e
    split at e
    · split at e
      · simp only [Option.some.injEq] at e
        subst e
        exact logLe_refl _
      · split at e
        · cases e
        · rename_i s1 e1
          exact logLe_trans (logLe_of_eq (log_strongIncIf e1 :) :) (logLe_releaseIf e :)
    · cases e
  case SharedPtr_assignMove i j =>
    unfold SharedPtr.assignMove at e
    split at e
    · split at e
      · simp only [Option.some.injEq] at e
        subst e
        exact logLe_refl _
      · exact logLe_trans (logLe_refl _) (logLe_releaseIf e :)
    · cases e
  case SharedPtr_dtor i =>
    unfold SharedPtr.dtor at e
    split at e
    · cases e
    · exact logLe_trans (logLe_refl _) (logLe_releaseIf e :)
  case SharedPtr_Reset i => exact (logLe_Reset e :)
  case SharedPtr_ResetPtr i ptr =>
    unfold SharedPtr.ResetPtr at e
    split at e
    · cases e
    · split at e
      · simp only [Option.some.injEq] at e
        subst e
        exact logLe_refl _
      · exact logLe_trans (logLe_refl _) (logLe_releaseIf e :)
  case SharedPtr_Swap i j =>
    unfold SharedPtr.Swap at e
    split at e
    · simp only [Option.some.injEq] at e
      subst e
      exact logLe_of_eq rfl
    · cases e
  case WeakPtr_ctor =>
    unfold WeakPtr.ctor at e
    simp only [Option.some.injEq] at e
    subst e
    exact logLe_of_eq rfl
  case WeakPtr_ctorCopy w =>
    unfold WeakPtr.ctorCopy at e
    split at e
    · cases e
    · exact (logLe_of_eq (log_weakIncIf e :) :)
  case WeakPtr_ctorMove w =>
    unfold WeakPtr.ctorMove at e
    split at e
    · cases e
    · simp only [Option.some.injEq] at e
      subst e
      exact logLe_of_eq rfl
  case WeakPtr_ctorCopyFrom w =>
    unfold WeakPtr.ctorCopyFrom at e
    split at e
    · cases e
    · exact (logLe_of_eq (log_weakIncIf e :) :)
  case WeakPtr_ctorMoveFrom w =>
    unfold WeakPtr.ctorMoveFrom at e
    split at e
    · cases e
    · split at e
      · cases e
      · rename_i s1 e1
        exact logLe_trans (logLe_of_eq (log_weakIncIf e1 :) :) (logLe_weak_Reset e :)
  case WeakPtr_ctorDemote i => exact (logLe_weak_ctorDemote e :)
  case WeakPtr_assign w o => exact (logLe_weak_assign e :)
  case WeakPtr_assignMove w o => exact (logLe_weak_assignMove e :)
  case WeakPtr_dtor w => exact (logLe_weakDtor e :)
  case WeakPtr_Reset w => exact (logLe_weak_Reset e :)
  case WeakPtr_Swap w o =>
    unfold WeakPtr.Swap at e
    split at e
    · split at e
      · simp only [Option.some.injEq] at e
        subst e
        exact logLe_refl _
      · simp only [Option.some.injEq] at e
        subst e
        exact logLe_of_eq rfl
    · cases e
  case WeakPtr_Lock cap w => exact (logLe_Lock e :)
  case SharedFromThis a =>
    unfold SharedFromThis at e
    split at e
    · cases e
    · split at e
      · split at e
        · cases e
        · exact (logLe_Lock e :)
      · cases e
  case WeakFromThis a =>
    unfold WeakFromThis at e
    split at e
    · cases e
    · split at e
      · split at e
        · cases e
        · rename_i m hm
          unfold WeakPtr.ctorCopy at e
          split at e
          · cases e
          · exact (logLe_of_eq (log_weakIncIf e :) :)
      · cases e

theorem logLe_exec {ops : List Op} {s s' : Heap} (e : exec ops s = some s') : LogLe s s' := by
  induction ops generalizing s with
  | nil =>
    simp only [exec, Option.some.injEq] at e
    subst e
    exact logLe_refl _
  | cons op ops ih =>
    simp only [exec] at e
    split at e
    · rename_i s1 e1
      split at e
      · exact logLe_trans (logLe_step op e1) (ih e)
      · cases e
    · cases e

/-- C20: in a reachable state `s` let the `strong_cnt` of block `b` be `0`.  In every
state `s'` that a further run of calls of the handle API reaches, `Destroy b` is in the
log, block `b` is deleted or its `strong_cnt` is still `0`, and no live strong handle
refers to `b`; moreover no live strong handle of `s'` refers to any block whose
`Destroy()` has been called. -/
theorem no_resurrection (ops more : List Op) (s s' : Heap) (b : Nat) (blk : ControlBlockBase)
    (hr : exec ops Heap.empty = some s) (hb : s.block b = some blk)
    (hz : blk.strong_cnt = 0) (hm : exec more s = some s') :
    Event.Destroy b ∈ s'.log ∧
      (s'.block b = none ∨ ∃ blk', s'.block b = some blk' ∧ blk'.strong_cnt = 0) ∧
      (∀ i h, s'.sharedAt i = some h → h.block_ ≠ some b) ∧
      (∀ i h c, s'.sharedAt i = some h → h.block_ = some c → Event.Destroy c ∉ s'.log) := by
  have hv : Valid s := Valid.empty.exec hr
  have hv' : Valid s' := hv.exec hm
  have hd : Event.Destroy b ∈ s.log := (hv.2.destroyed b blk hb).mp hz
  have hd' : Event.Destroy b ∈ s'.log := logLe_mem (logLe_exec hm) hd
  have key : ∀ i h c, s'.sharedAt i = some h → h.block_ = some c →
      Event.Destroy c ∉ s'.log := by
    intro i h c hi hc hmem
    obtain ⟨blk', hblk', hpos⟩ := hv'.block_of_shared hi hc
    have := (hv'.2.destroyed c blk' hblk').mpr hmem
    omega
  refine ⟨hd', ?_, ?_, key⟩
  · cases hb' : s'.block b with
    | none => exact Or.inl rfl
    | some blk' => exact Or.inr ⟨blk', rfl, (hv'.2.destroyed b blk' hb').mpr hd'⟩
  · intro i h hi hc
    exact key i h b hi hc hd'

theorem no_resurrection_witness :
    exec [Op.MakeShared false, Op.WeakPtr_ctorDemote 0, Op.SharedPtr_dtor 0] Heap.empty
        = some ⟨[some ⟨0, 1, Derived.ControlBlockEmplace 1⟩], [⟨false, true, none⟩], [none],
          [some ⟨some 0, 1⟩], [Event.Destroy 0, Event.Destruct 1]⟩ ∧
      exec [Op.WeakPtr_Lock false 0, Op.SharedPtr_ctorPromote false 0, Op.WeakPtr_ctorCopy 0]
          ⟨[some ⟨0, 1, Derived.ControlBlockEmplace 1⟩], [⟨false, true, none⟩], [none],
            [some ⟨some 0, 1⟩], [Event.Destroy 0, Event.Destruct 1]⟩
        = some ⟨[some ⟨0, 2, Derived.ControlBlockEmplace 1⟩], [⟨false, true, none⟩],
          [none, some ⟨none, 0⟩], [some ⟨some 0, 1⟩, some ⟨some 0, 1⟩],
          [Event.Destroy 0, Event.Destruct 1]⟩ ∧
      ∀ i h, Heap.sharedAt ⟨[some ⟨0, 2, Derived.ControlBlockEmplace 1⟩],
          [⟨false, true, none⟩], [none, some ⟨none, 0⟩],
          [some ⟨some 0, 1⟩, some ⟨some 0, 1⟩], [Event.Destroy 0, Event.Destruct 1]⟩ i
          = some h → h.block_ ≠ some 0 :=
  ⟨by decide, by decide,
    (no_resurrection [Op.MakeShared false, Op.WeakPtr_ctorDemote 0, Op.SharedPtr_dtor 0]
      [Op.WeakPtr_Lock false 0, Op.SharedPtr_ctorPromote false 0, Op.WeakPtr_ctorCopy 0]
      ⟨[some ⟨0, 1, Derived.ControlBlockEmplace 1⟩], [⟨false, true, none⟩], [none],
        [some ⟨some 0, 1⟩], [Event.Destroy 0, Event.Destruct 1]⟩
      ⟨[some ⟨0, 2, Derived.ControlBlockEmplace 1⟩], [⟨false, true, none⟩],
        [none, some ⟨none, 0⟩], [some ⟨some 0, 1⟩, some ⟨some 0, 1⟩],
        [Event.Destroy 0, Event.Destruct 1]⟩ 0 ⟨0, 1, Derived.ControlBlockEmplace 1⟩
      (by decide) (by decide) rfl (by decide)).2.2.1⟩

/-- The wiring step of a handle without a block that tracks a live object with a live
`weak_this_`: the marker is overwritten with an empty block and the tracked address, its
former block is released, and the temporary is destroyed. -/
theorem InitWeakThis_unowned {s : Heap} {i m : Nat} {self : SharedPtr} {o : Object}
    {old : WeakPtr} (hi : s.sharedAt i = some self) (hs : self.block_ = none)
    (ho : s.object self.ptr_ = some o) (ha : o.alive = true) (hm : o.weak_this_ = some m)
    (hw : s.weakAt m = some old) :
    InitWeakThis i s
      = (WeakPtr.releaseIf old.block_ (((s.pushWeak ⟨none, self.ptr_⟩).setWeak m
          (some ⟨none, self.ptr_⟩)).setWeak s.weak.length (some ⟨none, 0⟩))).bind
        (WeakPtr.dtor s.weak.length) := by
  have hmlt := weakAt_lt hw
  have hne : m ≠ s.weak.length := Nat.ne_of_lt hmlt
  unfold InitWeakThis
  simp only [hi]
  unfold WeakPtr.ctorDemote
  simp only [hi, SharedPtr.GetBlock, hs, weakIncIf, SharedPtr.Get_eq]
  simp only [object_pushWeak, ho, ha, if_true, hm]
  unfold WeakPtr.assignMove
  simp only [weakAt_pushWeak, if_neg hne, hw, if_true]
  cases hr : WeakPtr.releaseIf old.block_ (((s.pushWeak ⟨none, self.ptr_⟩).setWeak m
      (some ⟨none, self.ptr_⟩)).setWeak s.weak.length (some ⟨none, 0⟩)) with
  | none => rfl
  | some s2 => rfl

/-- The destructor and `Reset()` of a handle without a block only write the handle. -/
theorem unowned_dtor_Reset {t : Heap} {n : Nat} {h : SharedPtr} (hn : t.sharedAt n = some h)
    (hb : h.block_ = none) :
    SharedPtr.dtor n t = some (t.setShared n none) ∧
      SharedPtr.Reset n t = some (t.setShared n (some ⟨none, 0⟩)) := by
  constructor
  · unfold SharedPtr.dtor
    simp only [hn, hb, SharedPtr.releaseIf]
  · unfold SharedPtr.Reset
    simp only [hn, hb, SharedPtr.releaseIf]

/-- C21 (amended): `H` (slot `i`) is a live strong handle without a block and `A` is not
null.  For a type without the self-reference capability `SharedPtr(H, A)` returns and only
adds a handle without a block that tracks `A`: `Get()` is `A`, the boolean conversion is
true, `UseCount()` is `0`.  The destructor and `Reset()` of such a handle only write the
handle.  For a self-referencing type the construction is undefined when `A` is not the
address of an object; when `A` is a live object whose `weak_this_` has no block it returns
and changes no block and no log entry; when `weak_this_` observes block `B` it returns
and is one weak release of `B`.  In both cases the marker then has no block and tracks
`A`. -/
theorem alias_empty_owner (s : Heap) (i A : Nat) (H : SharedPtr)
    (hi : s.sharedAt i = some H) (hH : H.block_ = none) (hA : A ≠ 0) :
    (SharedPtr.ctorAlias false i A s = some (s.pushShared ⟨none, A⟩) ∧
      (s.pushShared ⟨none, A⟩).sharedAt s.shared.length = some ⟨none, A⟩ ∧
      SharedPtr.Get ⟨none, A⟩ = A ∧ SharedPtr.toBool ⟨none, A⟩ = true ∧
      ∀ t, SharedPtr.UseCount ⟨none, A⟩ t = some 0) ∧
    (∀ t n, t.sharedAt n = some ⟨none, A⟩ →
      SharedPtr.dtor n t = some (t.setShared n none) ∧
      SharedPtr.Reset n t = some (t.setShared n (some ⟨none, 0⟩))) ∧
    (s.object A = none → SharedPtr.ctorAlias true i A s = none) ∧
    (∀ o m q, s.object A = some o → o.alive = true → o.weak_this_ = some m →
      s.weakAt m = some ⟨none, q⟩ →
      ∃ s', SharedPtr.ctorAlias true i A s = some s' ∧
        s'.sharedAt s.shared.length = some ⟨none, A⟩ ∧ s'.weakAt m = some ⟨none, A⟩ ∧
        s'.blocks = s.blocks ∧ s'.objects = s.objects ∧ s'.log = s.log) ∧
    (∀ o m q B blk, s.object A = some o → o.alive = true → o.weak_this_ = some m →
      s.weakAt m = some ⟨some B, q⟩ → s.block B = some blk → 0 < blk.weak_cnt →
      blk.weak_cnt < SIZE_MOD →
      ∃ s', SharedPtr.ctorAlias true i A s = some s' ∧
        s'.sharedAt s.shared.length = some ⟨none, A⟩ ∧ s'.weakAt m = some ⟨none, A⟩ ∧
        (∀ c, c ≠ B → s'.block c = s.block c) ∧
        (if blk.strong_cnt = 0 ∧ blk.weak_cnt - 1 = 0
          then s'.block B = none ∧ s'.log = s.log ++ [Event.Delete B]
          else s'.block B = some { blk with weak_cnt := blk.weak_cnt - 1 } ∧
            s'.log = s.log)) := by
  have hi1 : (s.pushShared ⟨none, A⟩).sharedAt s.shared.length = some ⟨none, A⟩ := by
    rw [sharedAt_pushShared, if_pos rfl]
  have halias : ∀ cap, SharedPtr.ctorAlias cap i A s
      = ESFT cap s.shared.length (s.pushShared ⟨none, A⟩) := by
    intro cap
    unfold SharedPtr.ctorAlias
    simp only [hi, SharedPtr.GetBlock, hH, strongIncIf]
  refine ⟨⟨?_, hi1, ?_, ?_, ?_⟩, ?_, ?_, ?_, ?_⟩
  · rw [halias false]
    rfl
  · exact SharedPtr.Get_eq _
  · unfold SharedPtr.toBool
    exact if_pos hA
  · intro t
    rfl
  · intro t n hn
    exact unowned_dtor_Reset hn rfl
  · intro ho
    rw [halias true]
    unfold ESFT
    rw [if_pos rfl]
    unfold InitWeakThis
    simp only [hi1]
    split
    · rfl
    · rename_i s1 e1
      have ho1 : s1.object A = none := by
        unfold WeakPtr.ctorDemote at e1
        simp only [hi1, SharedPtr.GetBlock, weakIncIf, Option.some.injEq] at e1
        rw [← e1]
        exact ho
      simp only [ho1]
  · intro o m q ho ha hm hw
    have hmlt := weakAt_lt hw
    have hne : m ≠ s.weak.length := Nat.ne_of_lt hmlt
    have ho1 : (s.pushShared ⟨none, A⟩).object (⟨none, A⟩ : SharedPtr).ptr_ = some o := ho
    have hw1 : (s.pushShared ⟨none, A⟩).weakAt m = some ⟨none, q⟩ := hw
    have hE : InitWeakThis s.shared.length (s.pushShared ⟨none, A⟩)
        = (WeakPtr.releaseIf none ((((s.pushShared ⟨none, A⟩).pushWeak ⟨none, A⟩).setWeak m
            (some ⟨none, A⟩)).setWeak s.weak.length (some ⟨none, 0⟩))).bind
          (WeakPtr.dtor s.weak.length) := InitWeakThis_unowned hi1 rfl ho1 ha hm hw1
    have hm0 : ((s.pushShared ⟨none, A⟩).pushWeak ⟨none, A⟩).weakAt m = some ⟨none, q⟩ := by
      rw [weakAt_pushWeak]
      exact (if_neg hne).trans hw
    have ht0 : (((s.pushShared ⟨none, A⟩).pushWeak ⟨none, A⟩).setWeak m
        (some ⟨none, A⟩)).weakAt s.weak.length = some ⟨none, A⟩ := by
      rw [weakAt_setWeak hm0, if_neg (Ne.symm hne), weakAt_pushWeak]
      exact if_pos rfl
    have hst_t : ((((s.pushShared ⟨none, A⟩).pushWeak ⟨none, A⟩).setWeak m
        (some ⟨none, A⟩)).setWeak s.weak.length (some ⟨none, 0⟩)).weakAt s.weak.length
        = some ⟨none, 0⟩ := by
      rw [weakAt_setWeak ht0, if_pos rfl]
    have hst_m : ((((s.pushShared ⟨none, A⟩).pushWeak ⟨none, A⟩).setWeak m
        (some ⟨none, A⟩)).setWeak s.weak.length (some ⟨none, 0⟩)).weakAt m
        = some ⟨none, A⟩ := by
      rw [weakAt_setWeak ht0, if_neg hne, weakAt_setWeak hm0, if_pos rfl]
    refine ⟨(((((s.pushShared ⟨none, A⟩).pushWeak ⟨none, A⟩).setWeak m
        (some ⟨none, A⟩)).setWeak s.weak.length (some ⟨none, 0⟩))).setWeak s.weak.length none,
      ?_, hi1, ?_, rfl, rfl, rfl⟩
    · rw [halias true]
      unfold ESFT
      rw [if_pos rfl, hE]
      show WeakPtr.dtor s.weak.length _ = _
      unfold WeakPtr.dtor
      rw [hst_t]
      rfl
    · rw [weakAt_setWeak hst_t, if_neg hne]
      exact hst_m
  · intro o m q B blk ho ha hm hw hblk hpos hlt
    have hmlt := weakAt_lt hw
    have hne : m ≠ s.weak.length := Nat.ne_of_lt hmlt
    have ho1 : (s.pushShared ⟨none, A⟩).object (⟨none, A⟩ : SharedPtr).ptr_ = some o := ho
    have hw1 : (s.pushShared ⟨none, A⟩).weakAt m = some ⟨some B, q⟩ := hw
    have hE : InitWeakThis s.shared.length (s.pushShared ⟨none, A⟩)
        = (WeakPtr.releaseIf (some B) ((((s.pushShared ⟨none, A⟩).pushWeak ⟨none, A⟩).setWeak
            m (some ⟨none, A⟩)).setWeak s.weak.length (some ⟨none, 0⟩))).bind
          (WeakPtr.dtor s.weak.length) := InitWeakThis_unowned hi1 rfl ho1 ha hm hw1
    have hm0 : ((s.pushShared ⟨none, A⟩).pushWeak ⟨none, A⟩).weakAt m
        = some ⟨some B, q⟩ := by
      rw [weakAt_pushWeak]
      exact (if_neg hne).trans hw
    have ht0 : (((s.pushShared ⟨none, A⟩).pushWeak ⟨none, A⟩).setWeak m
        (some ⟨none, A⟩)).weakAt s.weak.length = some ⟨none, A⟩ := by
      rw [weakAt_setWeak hm0, if_neg (Ne.symm hne), weakAt_pushWeak]
      exact if_pos rfl
    have hst_t : ((((s.pushShared ⟨none, A⟩).pushWeak ⟨none, A⟩).setWeak m
        (some ⟨none, A⟩)).setWeak s.weak.length (some ⟨none, 0⟩)).weakAt s.weak.length
        = some ⟨none, 0⟩ := by
      rw [weakAt_setWeak ht0, if_pos rfl]
    have hst_m : ((((s.pushShared ⟨none, A⟩).pushWeak ⟨none, A⟩).setWeak m
        (some ⟨none, A⟩)).setWeak s.weak.length (some ⟨none, 0⟩)).weakAt m
        = some ⟨none, A⟩ := by
      rw [weakAt_setWeak ht0, if_neg hne, weakAt_setWeak hm0, if_pos rfl]
    have hst_b : ((((s.pushShared ⟨none, A⟩).pushWeak ⟨none, A⟩).setWeak m
        (some ⟨none, A⟩)).setWeak s.weak.length (some ⟨none, 0⟩)).block B = some blk := hblk
    obtain ⟨s2, e2, hsh, hwk, hob, hfr, hB⟩ := weakRelease_released hst_b hpos hlt
    have hs2_t : s2.weakAt s.weak.length = some ⟨none, 0⟩ := by
      unfold Heap.weakAt
      rw [hwk]
      exact hst_t
    have hs2_m : s2.weakAt m = some ⟨none, A⟩ := by
      unfold Heap.weakAt
      rw [hwk]
      exact hst_m
    refine ⟨s2.setWeak s.weak.length none, ?_, ?_, ?_, ?_, ?_⟩
    · rw [halias true]
      unfold ESFT
      rw [if_pos rfl, hE]
      show (WeakPtr.release B _).bind (WeakPtr.dtor s.weak.length) = _
      rw [e2]
      show WeakPtr.dtor s.weak.length s2 = _
      unfold WeakPtr.dtor
      rw [hs2_t]
      rfl
    · show s2.sharedAt s.shared.length = _
      unfold Heap.sharedAt
      rw [hsh]
      exact hi1
    · rw [weakAt_setWeak hs2_t, if_neg hne]
      exact hs2_m
    · intro c hc
      rw [block_setWeak, hfr c hc]
      rfl
    · split at hB
      · rename_i hc
        rw [if_pos hc]
        exact ⟨hB.1, hB.2⟩
      · rename_i hc
        rw [if_neg hc]
        exact ⟨hB.1, hB.2⟩

/-- A self-referencing object made by `MakeShared` and a default-constructed handle of a
type without the capability (slot `1`). -/
def emptyOwnerHeap : Heap :=
  { blocks := [some ⟨1, 1, Derived.ControlBlockEmplace 1⟩],
    objects := [⟨true, true, some 0⟩],
    shared := [some ⟨some 0, 1⟩, some ⟨none, 0⟩],
    weak := [some ⟨some 0, 1⟩, none],
    log := [] }

/-- The state after a handle of the self-referencing type is built from the empty handle
of `emptyOwnerHeap` and the address of the object. -/
def emptyOwnerAliased : Heap :=
  { blocks := [some ⟨1, 0, Derived.ControlBlockEmplace 1⟩],
    objects := [⟨true, true, some 0⟩],
    shared := [some ⟨some 0, 1⟩, some ⟨none, 0⟩, some ⟨none, 1⟩],
    weak := [some ⟨none, 1⟩, none, none],
    log := [] }

/-- C21 as stated fails: for a self-referencing type, aliasing from an empty owner with
the address of an owned object takes the object's `weak_this_` off its block, so
`weak_cnt` of that block goes from `1` to `0`; and with an address that is no object the
construction is undefined. -/
theorem alias_empty_owner_retargets :
    exec [Op.MakeShared true, Op.SharedPtr_ctor false] Heap.empty = some emptyOwnerHeap ∧
      emptyOwnerHeap.sharedAt 1 = some ⟨none, 0⟩ ∧
      SharedPtr.ctorAlias true 1 1 emptyOwnerHeap = some emptyOwnerAliased ∧
      emptyOwnerHeap.block 0 = some ⟨1, 1, Derived.ControlBlockEmplace 1⟩ ∧
      emptyOwnerAliased.block 0 = some ⟨1, 0, Derived.ControlBlockEmplace 1⟩ ∧
      emptyOwnerAliased.sharedAt 2 = some ⟨none, 1⟩ ∧
      SharedPtr.ctorAlias true 1 7 emptyOwnerHeap = none := by
  decide

theorem alias_empty_owner_witness :
    emptyOwnerHeap.sharedAt 1 = some ⟨none, 0⟩ ∧
      SharedPtr.ctorAlias false 1 1 emptyOwnerHeap
        = some (emptyOwnerHeap.pushShared ⟨none, 1⟩) ∧
      SharedPtr.dtor 2 (emptyOwnerHeap.pushShared ⟨none, 1⟩)
        = some ((emptyOwnerHeap.pushShared ⟨none, 1⟩).setShared 2 none) ∧
      ∃ s', SharedPtr.ctorAlias true 1 1 emptyOwnerHeap = some s' ∧
        s'.block 0 = some ⟨1, 0, Derived.ControlBlockEmplace 1⟩ ∧ s'.log = [] := by
  have h := alias_empty_owner emptyOwnerHeap 1 1 ⟨none, 0⟩ (by decide) rfl (by decide)
  refine ⟨by decide, h.1.1, (h.2.1 _ 2 (by decide)).1, ?_⟩
  obtain ⟨s', h1, _, _, _, h5⟩ := h.2.2.2.2 ⟨true, true, some 0⟩ 0 1 0
    ⟨1, 1, Derived.ControlBlockEmplace 1⟩ (by decide) rfl rfl (by decide) (by decide)
    (by decide) (by decide)
  rw [if_neg (by decide)] at h5
  exact ⟨s', h1, h5.1, h5.2⟩

/-- C22, failing input: the assignment `u = nullptr` calls the deleter with the address
the handle holds whatever it is, so for an empty owner the deleter is called with
`nullptr`.  `Reset(addr)`, move assignment and the destructor call the deleter only with
a non-null address held before, once; after a move assignment the source holds null.
`Reset` with the address already held followed by the destructor passes that address to
the deleter twice. -/
theorem assignNull_calls_deleter (u : Unique) (addr : Nat) (other : UniquePtr) :
    (UniquePtr.assignNull u).calls
        = u.calls ++ [⟨u.self.second, u.self.first, u.self.first⟩] ∧
      (UniquePtr.assignNull ⟨⟨0, u.self.second⟩, u.calls⟩).calls
        = u.calls ++ [⟨u.self.second, 0, 0⟩] ∧
      (UniquePtr.assignNull u).self.first = 0 ∧
      (UniquePtr.Reset addr u).calls
        = u.calls ++ (if u.self.first ≠ 0 then [⟨u.self.second, u.self.first, addr⟩] else []) ∧
      (UniquePtr.assignMove other u).1.calls
        = u.calls ++
          (if u.self.first ≠ 0 then [⟨u.self.second, u.self.first, other.first⟩] else []) ∧
      (UniquePtr.assignMove other u).1.self = ⟨other.first, other.second⟩ ∧
      (UniquePtr.assignMove other u).2.first = 0 ∧
      (UniquePtr.assignSelf u).calls = u.calls ∧
      (UniquePtr.dtor u).calls
        = u.calls ++
          (if u.self.first ≠ 0 then [⟨u.self.second, u.self.first, u.self.first⟩] else []) ∧
      (UniquePtr.dtor (UniquePtr.Reset 5 ⟨⟨5, 1⟩, []⟩)).calls = [⟨1, 5, 5⟩, ⟨1, 5, 5⟩] := by
  refine ⟨rfl, rfl, rfl, ?_, ?_, ?_, rfl, rfl, ?_, by decide⟩
  · unfold UniquePtr.Reset
    by_cases h : u.self.first = 0
    · simp [h]
    · simp [h, Unique.call]
  · unfold UniquePtr.assignMove
    by_cases h : u.self.first = 0
    · simp [h]
    · simp [h, Unique.call]
  · unfold UniquePtr.assignMove
    by_cases h : u.self.first = 0
    · simp [h]
    · simp [h, Unique.call]
  · unfold UniquePtr.dtor
    by_cases h : u.self.first = 0
    · simp [h]
    · simp [h, Unique.call]

/-! ## Re-targeting of `weak_this_` by the wiring step (shared.h 263-271) -/

/-- The wiring step of a handle with block `b` that tracks a live object with a live
`weak_this_`: a temporary weak handle on `b` is built, the marker is overwritten with `b`
and the tracked address, the marker's former block is released, and the temporary is
destroyed. -/
theorem InitWeakThis_owned {s : Heap} {i b m : Nat} {self : SharedPtr}
    {blk : ControlBlockBase} {o : Object} {old : WeakPtr}
    (hi : s.sharedAt i = some self) (hs : self.block_ = some b) (hb : s.block b = some blk)
    (ho : s.object self.ptr_ = some o) (ha : o.alive = true) (hm : o.weak_this_ = some m)
    (hw : s.weakAt m = some old) :
    InitWeakThis i s
      = (WeakPtr.releaseIf old.block_ ((((s.pushWeak ⟨some b, self.ptr_⟩).setBlock b
          { blk with weak_cnt := incr blk.weak_cnt }).setWeak m
          (some ⟨some b, self.ptr_⟩)).setWeak s.weak.length (some ⟨none, 0⟩))).bind
        (WeakPtr.dtor s.weak.length) := by
  have hmlt := weakAt_lt hw
  have hne : m ≠ s.weak.length := Nat.ne_of_lt hmlt
  unfold InitWeakThis
  simp only [hi]
  unfold WeakPtr.ctorDemote
  simp only [hi, SharedPtr.GetBlock, hs, weakIncIf, SharedPtr.Get_eq]
  rw [weakInc_eq (s := s.pushWeak ⟨some b, self.ptr_⟩) hb]
  simp only [object_setBlock, object_pushWeak, ho, ha, if_true, hm]
  unfold WeakPtr.assignMove
  simp only [weakAt_setBlock, weakAt_pushWeak, if_neg hne, hw, if_true]
  cases hr : WeakPtr.releaseIf old.block_ ((((s.pushWeak ⟨some b, self.ptr_⟩).setBlock b
      { blk with weak_cnt := incr blk.weak_cnt }).setWeak m
      (some ⟨some b, self.ptr_⟩)).setWeak s.weak.length (some ⟨none, 0⟩)) with
  | none => rfl
  | some s2 => rfl

/-- The wiring step when the marker has no block: the marker then observes the handle's
block, whose `weak_cnt` is one greater; nothing else changes. -/
theorem InitWeakThis_first {s : Heap} {i b m : Nat} {self : SharedPtr}
    {blk : ControlBlockBase} {o : Object} {old : WeakPtr}
    (hi : s.sharedAt i = some self) (hs : self.block_ = some b) (hb : s.block b = some blk)
    (ho : s.object self.ptr_ = some o) (ha : o.alive = true) (hm : o.weak_this_ = some m)
    (hw : s.weakAt m = some old) (hold : old.block_ = none)
    (hinc : incr blk.weak_cnt = blk.weak_cnt + 1) :
    ∃ s', InitWeakThis i s = some s' ∧ s'.shared = s.shared ∧ s'.objects = s.objects ∧
      s'.weakAt m = some ⟨some b, self.ptr_⟩ ∧
      s'.block b = some { blk with weak_cnt := blk.weak_cnt + 1 } ∧
      (∀ d, d ≠ b → s'.block d = s.block d) ∧ s'.log = s.log := by
  have hmlt := weakAt_lt hw
  have hne : m ≠ s.weak.length := Nat.ne_of_lt hmlt
  have hE := InitWeakThis_owned hi hs hb ho ha hm hw
  rw [hold, hinc] at hE
  have hb0 : (s.pushWeak ⟨some b, self.ptr_⟩).block b = some blk := hb
  have hm0 : ((s.pushWeak ⟨some b, self.ptr_⟩).setBlock b
      { blk with weak_cnt := blk.weak_cnt + 1 }).weakAt m = some old := by
    rw [weakAt_setBlock, weakAt_pushWeak, if_neg hne]
    exact hw
  have ht0 : (((s.pushWeak ⟨some b, self.ptr_⟩).setBlock b
      { blk with weak_cnt := blk.weak_cnt + 1 }).setWeak m
      (some ⟨some b, self.ptr_⟩)).weakAt s.weak.length = some ⟨some b, self.ptr_⟩ := by
    rw [weakAt_setWeak hm0, if_neg (Ne.symm hne), weakAt_setBlock, weakAt_pushWeak, if_pos rfl]
  have hst_t : ((((s.pushWeak ⟨some b, self.ptr_⟩).setBlock b
      { blk with weak_cnt := blk.weak_cnt + 1 }).setWeak m
      (some ⟨some b, self.ptr_⟩)).setWeak s.weak.length (some ⟨none, 0⟩)).weakAt
      s.weak.length = some ⟨none, 0⟩ := by
    rw [weakAt_setWeak ht0, if_pos rfl]
  have hst_m : ((((s.pushWeak ⟨some b, self.ptr_⟩).setBlock b
      { blk with weak_cnt := blk.weak_cnt + 1 }).setWeak m
      (some ⟨some b, self.ptr_⟩)).setWeak s.weak.length (some ⟨none, 0⟩)).weakAt m
      = some ⟨some b, self.ptr_⟩ := by
    rw [weakAt_setWeak ht0, if_neg hne, weakAt_setWeak hm0, if_pos rfl]
  refine ⟨(((((s.pushWeak ⟨some b, self.ptr_⟩).setBlock b
      { blk with weak_cnt := blk.weak_cnt + 1 }).setWeak m
      (some ⟨some b, self.ptr_⟩)).setWeak s.weak.length (some ⟨none, 0⟩))).setWeak
      s.weak.length none, ?_, rfl, rfl, ?_, ?_, ?_, rfl⟩
  · rw [hE]
    show WeakPtr.dtor s.weak.length _ = _
    unfold WeakPtr.dtor
    rw [hst_t]
    rfl
  · rw [weakAt_setWeak hst_t, if_neg hne]
    exact hst_m
  · exact block_setBlock_self hb0 _
  · intro d hd
    show ((s.pushWeak ⟨some b, self.ptr_⟩).setBlock b
      { blk with weak_cnt := blk.weak_cnt + 1 }).block d = _
    rw [block_setBlock hb0, if_neg hd]
    rfl

/-- The wiring step when the marker observes another block `c`: the marker then observes
the handle's block `b`, whose `weak_cnt` is one greater, and `c` gets one weak release,
which deletes it when both its counters are then zero. -/
theorem InitWeakThis_retarget {s : Heap} {i b c m : Nat} {self : SharedPtr}
    {blk blkc : ControlBlockBase} {o : Object} {old : WeakPtr}
    (hi : s.sharedAt i = some self) (hs : self.block_ = some b) (hb : s.block b = some blk)
    (ho : s.object self.ptr_ = some o) (ha : o.alive = true) (hm : o.weak_this_ = some m)
    (hw : s.weakAt m = some old) (hold : old.block_ = some c) (hcb : c ≠ b)
    (hc : s.block c = some blkc) (hinc : incr blk.weak_cnt = blk.weak_cnt + 1)
    (hpos : 0 < blkc.weak_cnt) (hlt : blkc.weak_cnt < SIZE_MOD) :
    ∃ s', InitWeakThis i s = some s' ∧ s'.shared = s.shared ∧ s'.objects = s.objects ∧
      s'.weakAt m = some ⟨some b, self.ptr_⟩ ∧
      s'.block b = some { blk with weak_cnt := blk.weak_cnt + 1 } ∧
      (∀ d, d ≠ b → d ≠ c → s'.block d = s.block d) ∧
      (if blkc.strong_cnt = 0 ∧ blkc.weak_cnt - 1 = 0
        then s'.block c = none ∧ s'.log = s.log ++ [Event.Delete c]
        else s'.block c = some { blkc with weak_cnt := blkc.weak_cnt - 1 } ∧
          s'.log = s.log) := by
  have hmlt := weakAt_lt hw
  have hne : m ≠ s.weak.length := Nat.ne_of_lt hmlt
  have hE := InitWeakThis_owned hi hs hb ho ha hm hw
  rw [hold, hinc] at hE
  have hb0 : (s.pushWeak ⟨some b, self.ptr_⟩).block b = some blk := hb
  have hm0 : ((s.pushWeak ⟨some b, self.ptr_⟩).setBlock b
      { blk with weak_cnt := blk.weak_cnt + 1 }).weakAt m = some old := by
    rw [weakAt_setBlock, weakAt_pushWeak, if_neg hne]
    exact hw
  have ht0 : (((s.pushWeak ⟨some b, self.ptr_⟩).setBlock b
      { blk with weak_cnt := blk.weak_cnt + 1 }).setWeak m
      (some ⟨some b, self.ptr_⟩)).weakAt s.weak.length = some ⟨some b, self.ptr_⟩ := by
    rw [weakAt_setWeak hm0, if_neg (Ne.symm hne), weakAt_setBlock, weakAt_pushWeak, if_pos rfl]
  have hst_t : ((((s.pushWeak ⟨some b, self.ptr_⟩).setBlock b
      { blk with weak_cnt := blk.weak_cnt + 1 }).setWeak m
      (some ⟨some b, self.ptr_⟩)).setWeak s.weak.length (some ⟨none, 0⟩)).weakAt
      s.weak.length = some ⟨none, 0⟩ := by
    rw [weakAt_setWeak ht0, if_pos rfl]
  have hst_m : ((((s.pushWeak ⟨some b, self.ptr_⟩).setBlock b
      { blk with weak_cnt := blk.weak_cnt + 1 }).setWeak m
      (some ⟨some b, self.ptr_⟩)).setWeak s.weak.length (some ⟨none, 0⟩)).weakAt m
      = some ⟨some b, self.ptr_⟩ := by
    rw [weakAt_setWeak ht0, if_neg hne, weakAt_setWeak hm0, if_pos rfl]
  have hst_b : ∀ d, ((((s.pushWeak ⟨some b, self.ptr_⟩).setBlock b
      { blk with weak_cnt := blk.weak_cnt + 1 }).setWeak m
      (some ⟨some b, self.ptr_⟩)).setWeak s.weak.length (some ⟨none, 0⟩)).block d
      = if d = b then some { blk with weak_cnt := blk.weak_cnt + 1 } else s.block d := by
    intro d
    show ((s.pushWeak ⟨some b, self.ptr_⟩).setBlock b
      { blk with weak_cnt := blk.weak_cnt + 1 }).block d = _
    rw [block_setBlock hb0]
    rfl
  have hst_c : ((((s.pushWeak ⟨some b, self.ptr_⟩).setBlock b
      { blk with weak_cnt := blk.weak_cnt + 1 }).setWeak m
      (some ⟨some b, self.ptr_⟩)).setWeak s.weak.length (some ⟨none, 0⟩)).block c
      = some blkc := by
    rw [hst_b c, if_neg hcb]
    exact hc
  obtain ⟨s2, e2, hsh, hwk, hob, hfr, hB⟩ := weakRelease_released hst_c hpos hlt
  have hs2_t : s2.weakAt s.weak.length = some ⟨none, 0⟩ := by
    unfold Heap.weakAt
    rw [hwk]
    exact hst_t
  have hs2_m : s2.weakAt m = some ⟨some b, self.ptr_⟩ := by
    unfold Heap.weakAt
    rw [hwk]
    exact hst_m
  refine ⟨s2.setWeak s.weak.length none, ?_, ?_, ?_, ?_, ?_, ?_, ?_⟩
  · rw [hE]
    show (WeakPtr.release c _).bind (WeakPtr.dtor s.weak.length) = _
    rw [e2]
    show WeakPtr.dtor s.weak.length s2 = _
    unfold WeakPtr.dtor
    rw [hs2_t]
    rfl
  · show s2.shared = _
    rw [hsh]
    rfl
  · show s2.objects = _
    rw [hob]
    rfl
  · rw [weakAt_setWeak hs2_t, if_neg hne]
    exact hs2_m
  · rw [block_setWeak, hfr b (Ne.symm hcb), hst_b b, if_pos rfl]
  · intro d hdb hdc
    rw [block_setWeak, hfr d hdc, hst_b d, if_neg hdb]
  · split at hB
    · rename_i hcond
      rw [if_pos hcond]
      exact ⟨hB.1, hB.2⟩
    · rename_i hcond
      rw [if_neg hcond]
      exact ⟨hB.1, hB.2⟩

/-- What `SharedPtr<T>(ptr)` of a self-referencing type leaves in a reachable state when
`ptr` is the address of a live object with a live `weak_this_`: a strong handle on a new
`ControlBlockPointer` with counters `1` and `1` that tracks the object, whose `weak_this_`
observes that block and the object's address. -/
theorem ctorPtr_wires (ops : List Op) (s : Heap) (a m : Nat) (o : Object) (old : WeakPtr)
    (hr : exec ops Heap.empty = some s) (ho : s.object a = some o) (ha : o.alive = true)
    (hm : o.weak_this_ = some m) (hw : s.weakAt m = some old) :
    ∃ s', SharedPtr.ctorPtr true a s = some s' ∧
      s'.sharedAt s.shared.length = some ⟨some s.blocks.length, a⟩ ∧
      s'.object a = some o ∧
      s'.weakAt m = some ⟨some s.blocks.length, a⟩ ∧
      s'.block s.blocks.length = some ⟨1, 1, Derived.ControlBlockPointer a⟩ := by
  have hv : Valid s := Valid.empty.exec hr
  have hi : ((s.newBlock ⟨1, 0, Derived.ControlBlockPointer a⟩).pushShared
      ⟨some s.blocks.length, a⟩).sharedAt s.shared.length
      = some ⟨some s.blocks.length, a⟩ := by
    rw [sharedAt_pushShared]
    exact if_pos rfl
  have hb : ((s.newBlock ⟨1, 0, Derived.ControlBlockPointer a⟩).pushShared
      ⟨some s.blocks.length, a⟩).block s.blocks.length
      = some ⟨1, 0, Derived.ControlBlockPointer a⟩ := by
    rw [block_pushShared, block_newBlock]
    exact if_pos rfl
  have ho' : ((s.newBlock ⟨1, 0, Derived.ControlBlockPointer a⟩).pushShared
      ⟨some s.blocks.length, a⟩).object (⟨some s.blocks.length, a⟩ : SharedPtr).ptr_
      = some o := ho
  have hw' : ((s.newBlock ⟨1, 0, Derived.ControlBlockPointer a⟩).pushShared
      ⟨some s.blocks.length, a⟩).weakAt m = some old := hw
  have hinc : incr (ControlBlockBase.mk 1 0 (Derived.ControlBlockPointer a)).weak_cnt
      = (ControlBlockBase.mk 1 0 (Derived.ControlBlockPointer a)).weak_cnt + 1 := by
    show incr 0 = 0 + 1
    decide
  have hE : SharedPtr.ctorPtr true a s = InitWeakThis s.shared.length
      ((s.newBlock ⟨1, 0, Derived.ControlBlockPointer a⟩).pushShared
        ⟨some s.blocks.length, a⟩) := rfl
  cases hold : old.block_ with
  | none =>
    obtain ⟨s', e, hsh, hob, hmk, hblk, _, _⟩ :=
      InitWeakThis_first hi rfl hb ho' ha hm hw' hold hinc
    refine ⟨s', by rw [hE]; exact e, ?_, ?_, hmk, hblk⟩
    · unfold Heap.sharedAt
      rw [hsh]
      exact hi
    · unfold Heap.object
      rw [hob]
      exact ho
  | some c =>
    obtain ⟨blkc, hc⟩ := hv.block_of_weak hw hold
    have hclt := lt_of_block hc
    have hcn : c ≠ s.blocks.length := Nat.ne_of_lt hclt
    have hc' : ((s.newBlock ⟨1, 0, Derived.ControlBlockPointer a⟩).pushShared
        ⟨some s.blocks.length, a⟩).block c = some blkc := by
      rw [block_pushShared, block_newBlock, if_neg hcn]
      exact hc
    have hpos : 0 < blkc.weak_cnt := by
      have h1 := hv.1.weak c blkc hc
      have h2 := cntW_pos hw hold
      omega
    obtain ⟨s', e, hsh, hob, hmk, hblk, _, _⟩ :=
      InitWeakThis_retarget hi rfl hb ho' ha hm hw' hold hcn hc' hinc hpos (hv.weak_lt hc)
    refine ⟨s', by rw [hE]; exact e, ?_, ?_, hmk, hblk⟩
    · unfold Heap.sharedAt
      rw [hsh]
      exact hi
    · unfold Heap.object
      rw [hob]
      exact ho

/-- C7, amended.  `MakeShared` of a self-referencing type, and in a reachable state
`SharedPtr<T>(ptr)` for a live object of a self-referencing type with a live `weak_this_`,
return a strong handle and leave the `weak_this_` of the object observing the handle's
block and the object's address.  In a reachable state, for a live object of a
self-referencing type whose `weak_this_` observes block `b` and the object's own address,
with a non-zero `strong_cnt` of `b`: `SharedFromThis()` returns a new strong handle with
block `b` and the object's address; afterwards `strong_cnt` of `b`, which is the
`UseCount()` of every strong handle on `b`, is one greater than before, and `weak_cnt` is
unchanged: the marker is counted in `weak_cnt` only. -/
theorem SharedFromThis_spec :
    (∀ s : Heap, ∃ s', MakeShared true s = some s' ∧
      s'.sharedAt s.shared.length = some ⟨some s.blocks.length, s.objects.length + 1⟩ ∧
      s'.object (s.objects.length + 1) = some ⟨true, true, some s.weak.length⟩ ∧
      s'.weakAt s.weak.length = some ⟨some s.blocks.length, s.objects.length + 1⟩ ∧
      s'.block s.blocks.length
        = some ⟨1, 1, Derived.ControlBlockEmplace (s.objects.length + 1)⟩) ∧
    (∀ (ops : List Op) (s : Heap) (a m : Nat) (o : Object) (old : WeakPtr),
      exec ops Heap.empty = some s → s.object a = some o → o.alive = true →
      o.weak_this_ = some m → s.weakAt m = some old →
      ∃ s', SharedPtr.ctorPtr true a s = some s' ∧
        s'.sharedAt s.shared.length = some ⟨some s.blocks.length, a⟩ ∧
        s'.object a = some o ∧
        s'.weakAt m = some ⟨some s.blocks.length, a⟩ ∧
        s'.block s.blocks.length = some ⟨1, 1, Derived.ControlBlockPointer a⟩) ∧
    (∀ (ops : List Op) (s : Heap) (a m b : Nat) (o : Object) (blk : ControlBlockBase),
      exec ops Heap.empty = some s → s.object a = some o → o.alive = true →
      o.weak_this_ = some m → s.weakAt m = some ⟨some b, a⟩ → s.block b = some blk →
      blk.strong_cnt ≠ 0 →
      ∃ s', SharedFromThis a s = Result.ok s' ∧
        s'.shared = s.shared ++ [some ⟨some b, a⟩] ∧
        s'.block b = some { blk with strong_cnt := blk.strong_cnt + 1 } ∧
        s'.weakAt m = some ⟨some b, a⟩ ∧
        (∀ i h, s'.sharedAt i = some h → h.block_ = some b →
          h.UseCount s' = some (blk.strong_cnt + 1))) :=
  ⟨MakeShared_wires, ctorPtr_wires, SharedFromThis_marked⟩

/-- A new self-referencing object, not yet owned: its `weak_this_` has no block. -/
def rawHeap : Heap :=
  { blocks := [],
    objects := [⟨true, false, some 0⟩],
    shared := [],
    weak := [some ⟨none, 0⟩],
    log := [] }

/-- The state after the object of `rawHeap` is wrapped by `SharedPtr<T>(ptr)`. -/
def rawWrapped : Heap :=
  { blocks := [some ⟨1, 1, Derived.ControlBlockPointer 1⟩],
    objects := [⟨true, false, some 0⟩],
    shared := [some ⟨some 0, 1⟩],
    weak := [some ⟨some 0, 1⟩, none],
    log := [] }

theorem SharedFromThis_spec_witness :
    exec [Op.newObject true] Heap.empty = some rawHeap ∧
      exec [Op.newObject true, Op.SharedPtr_ctorPtr true 1] Heap.empty = some rawWrapped ∧
      (∃ s', SharedPtr.ctorPtr true 1 rawHeap = some s' ∧
        s'.sharedAt 0 = some ⟨some 0, 1⟩ ∧ s'.weakAt 0 = some ⟨some 0, 1⟩ ∧
        s'.block 0 = some ⟨1, 1, Derived.ControlBlockPointer 1⟩) ∧
      ∃ s', SharedFromThis 1 rawWrapped = Result.ok s' ∧
        s'.shared = rawWrapped.shared ++ [some ⟨some 0, 1⟩] ∧
        s'.block 0 = some ⟨2, 1, Derived.ControlBlockPointer 1⟩ ∧
        s'.weakAt 0 = some ⟨some 0, 1⟩ ∧
        (∀ i h, s'.sharedAt i = some h → h.block_ = some 0 → h.UseCount s' = some 2) := by
  refine ⟨by decide, by decide, ?_, ?_⟩
  · obtain ⟨s', h1, h2, _, h4, h5⟩ := SharedFromThis_spec.2.1 [Op.newObject true] rawHeap 1 0
      ⟨true, false, some 0⟩ ⟨none, 0⟩ (by decide) (by decide) rfl rfl (by decide)
    exact ⟨s', h1, h2, h4, h5⟩
  · exact SharedFromThis_spec.2.2 [Op.newObject true, Op.SharedPtr_ctorPtr true 1] rawWrapped
      1 0 0 ⟨true, false, some 0⟩ ⟨1, 1, Derived.ControlBlockPointer 1⟩ (by decide)
      (by decide) rfl rfl (by decide) (by decide) (by decide)

/-- C9 (amended): in every reachable state the converting move constructor leaves what the
move constructor leaves.  For a type without the self-reference capability the move
returns, the new handle has the source's block and address, the source is empty, and no
block and no log entry changes.  For a self-referencing type whose source has block `b`
and tracks a live object with a live `weak_this_`, the move returns, the new handle has the
source's block and address, the source is empty and the marker observes `b` and the tracked
address; counters and log depend on what the marker observed before.  When it observed
`b`, no block and no log entry changes.  When it had no block, `weak_cnt` of `b` is one
greater, and no other block and no log entry changes.  When it observed another block `c`,
`weak_cnt` of `b` is one greater and the marker's reference to `c` is released: `c` is
deleted, with one `Delete c` log entry, when its `strong_cnt` is zero and its `weak_cnt`
was one, and otherwise its `weak_cnt` is one smaller and the log is unchanged; no block
other than `b` and `c` changes. -/
theorem move_ctor_spec (ops : List Op) (s : Heap) (i : Nat) (src : SharedPtr)
    (hr : exec ops Heap.empty = some s) (hi : s.sharedAt i = some src) :
    (∀ cap, SharedPtr.ctorMoveFrom cap i s = SharedPtr.ctorMove cap i s) ∧
      (∃ s', SharedPtr.ctorMove false i s = some s' ∧
        s'.sharedAt s.shared.length = some ⟨src.block_, src.ptr_⟩ ∧
        s'.sharedAt i = some ⟨none, 0⟩ ∧ s'.blocks = s.blocks ∧ s'.log = s.log) ∧
      (∀ b o m p, src.block_ = some b → s.object src.ptr_ = some o → o.alive = true →
        o.weak_this_ = some m → s.weakAt m = some ⟨some b, p⟩ →
        ∃ s', SharedPtr.ctorMove true i s = some s' ∧
          s'.sharedAt s.shared.length = some ⟨src.block_, src.ptr_⟩ ∧
          s'.sharedAt i = some ⟨none, 0⟩ ∧ s'.weakAt m = some ⟨some b, src.ptr_⟩ ∧
          s'.blocks = s.blocks ∧ s'.log = s.log) ∧
      (∀ b o m p blk, src.block_ = some b → s.object src.ptr_ = some o → o.alive = true →
        o.weak_this_ = some m → s.weakAt m = some ⟨none, p⟩ → s.block b = some blk →
        ∃ s', SharedPtr.ctorMove true i s = some s' ∧
          s'.sharedAt s.shared.length = some ⟨src.block_, src.ptr_⟩ ∧
          s'.sharedAt i = some ⟨none, 0⟩ ∧ s'.weakAt m = some ⟨some b, src.ptr_⟩ ∧
          s'.block b = some { blk with weak_cnt := blk.weak_cnt + 1 } ∧
          (∀ d, d ≠ b → s'.block d = s.block d) ∧ s'.log = s.log) ∧
      (∀ b c o m p blk blkc, src.block_ = some b → s.object src.ptr_ = some o →
        o.alive = true → o.weak_this_ = some m → s.weakAt m = some ⟨some c, p⟩ → c ≠ b →
        s.block b = some blk → s.block c = some blkc →
        ∃ s', SharedPtr.ctorMove true i s = some s' ∧
          s'.sharedAt s.shared.length = some ⟨src.block_, src.ptr_⟩ ∧
          s'.sharedAt i = some ⟨none, 0⟩ ∧ s'.weakAt m = some ⟨some b, src.ptr_⟩ ∧
          s'.block b = some { blk with weak_cnt := blk.weak_cnt + 1 } ∧
          (∀ d, d ≠ b → d ≠ c → s'.block d = s.block d) ∧
          (if blkc.strong_cnt = 0 ∧ blkc.weak_cnt - 1 = 0
            then s'.block c = none ∧ s'.log = s.log ++ [Event.Delete c]
            else s'.block c = some { blkc with weak_cnt := blkc.weak_cnt - 1 } ∧
              s'.log = s.log)) := by
  have hv : Valid s := Valid.empty.exec hr
  obtain ⟨f1, f2, f3, f4, f5, f6⟩ := moved_facts hi
  refine ⟨?_, ?_, ?_, ?_, ?_⟩
  · intro cap
    rw [ctorMoveFrom_eq cap hv hi, ctorMove_eq cap hi]
  · refine ⟨moved s i src, ?_, f1, f2, f3, f4⟩
    rw [ctorMove_eq false hi]
    rfl
  · intro b o m p hb ho ha hm hw
    obtain ⟨blk, hblk, hpos⟩ := hv.block_of_shared hi hb
    have hblk' : (moved s i src).block b = some blk := hblk
    have ho' : (moved s i src).object (⟨src.block_, src.ptr_⟩ : SharedPtr).ptr_ = some o := ho
    have hw' : (moved s i src).weakAt m = some ⟨some b, p⟩ := hw
    have hpos' : blk.strong_cnt ≠ 0 := by omega
    obtain ⟨s', e⟩ := InitWeakThis_defined f1 hb hblk' hpos' ho' ha hm hw' (Or.inl rfl)
    have hsp := InitWeakThis_spec f1 hb hblk' hpos' (hv.weak_lt hblk) ho' hm hw' e
    refine ⟨s', ?_, ?_, ?_, ?_, ?_, ?_⟩
    · rw [ctorMove_eq true hi]
      exact e
    · unfold Heap.sharedAt
      rw [hsp.1]
      exact f1
    · unfold Heap.sharedAt
      rw [hsp.1]
      exact f2
    · rw [hsp.2.2.2.1, SharedPtr.Get_eq]
    · rw [(hsp.2.2.2.2 rfl).1, f3]
    · rw [(hsp.2.2.2.2 rfl).2, f4]
  · intro b o m p blk hb ho ha hm hw hblk
    have hblk' : (moved s i src).block b = some blk := hblk
    have ho' : (moved s i src).object (⟨src.block_, src.ptr_⟩ : SharedPtr).ptr_ = some o := ho
    have hw' : (moved s i src).weakAt m = some ⟨none, p⟩ := hw
    obtain ⟨s', e, hsh, _, hmk, hbb, hoth, hlog⟩ :=
      InitWeakThis_first f1 hb hblk' ho' ha hm hw' rfl (hv.incr_weak hblk)
    refine ⟨s', ?_, ?_, ?_, hmk, hbb, hoth, ?_⟩
    · rw [ctorMove_eq true hi]
      exact e
    · unfold Heap.sharedAt
      rw [hsh]
      exact f1
    · unfold Heap.sharedAt
      rw [hsh]
      exact f2
    · rw [hlog, f4]
  · intro b c o m p blk blkc hb ho ha hm hw hcb hblk hc
    have hblk' : (moved s i src).block b = some blk := hblk
    have hc' : (moved s i src).block c = some blkc := hc
    have ho' : (moved s i src).object (⟨src.block_, src.ptr_⟩ : SharedPtr).ptr_ = some o := ho
    have hw' : (moved s i src).weakAt m = some ⟨some c, p⟩ := hw
    have hpos : 0 < blkc.weak_cnt := by
      have h1 := hv.1.weak c blkc hc
      have h2 := cntW_pos hw (rfl : (⟨some c, p⟩ : WeakPtr).block_ = some c)
      omega
    obtain ⟨s', e, hsh, _, hmk, hbb, hoth, hcc⟩ :=
      InitWeakThis_retarget f1 hb hblk' ho' ha hm hw' rfl hcb hc' (hv.incr_weak hblk) hpos
        (hv.weak_lt hc)
    refine ⟨s', ?_, ?_, ?_, hmk, hbb, hoth, ?_⟩
    · rw [ctorMove_eq true hi]
      exact e
    · unfold Heap.sharedAt
      rw [hsh]
      exact f1
    · unfold Heap.sharedAt
      rw [hsh]
      exact f2
    · have hl : (moved s i src).log = s.log := f4
      rw [hl] at hcc
      exact hcc

theorem move_ctor_spec_witness :
    exec [Op.MakeShared true] Heap.empty
        = some ⟨[some ⟨1, 1, Derived.ControlBlockEmplace 1⟩], [⟨true, true, some 0⟩],
          [some ⟨some 0, 1⟩], [some ⟨some 0, 1⟩, none], []⟩ ∧
      (∃ s', SharedPtr.ctorMove true 0
          ⟨[some ⟨1, 1, Derived.ControlBlockEmplace 1⟩], [⟨true, true, some 0⟩],
            [some ⟨some 0, 1⟩], [some ⟨some 0, 1⟩, none], []⟩ = some s' ∧
        s'.sharedAt 1 = some ⟨some 0, 1⟩ ∧ s'.sharedAt 0 = some ⟨none, 0⟩ ∧
        s'.weakAt 0 = some ⟨some 0, 1⟩ ∧
        s'.blocks = [some ⟨1, 1, Derived.ControlBlockEmplace 1⟩] ∧ s'.log = []) ∧
      exec crossRun Heap.empty = some crossHeap ∧
      ∃ s', SharedPtr.ctorMove true 1 crossHeap = some s' ∧
        s'.sharedAt 3 = some ⟨some 1, 2⟩ ∧ s'.sharedAt 1 = some ⟨none, 0⟩ ∧
        s'.weakAt 2 = some ⟨some 1, 2⟩ ∧
        s'.block 1 = some ⟨1, 1, Derived.ControlBlockEmplace 2⟩ ∧
        s'.block 0 = some ⟨2, 1, Derived.ControlBlockEmplace 1⟩ ∧ s'.log = [] := by
  refine ⟨by decide, ?_, by decide, ?_⟩
  · exact (move_ctor_spec [Op.MakeShared true]
      ⟨[some ⟨1, 1, Derived.ControlBlockEmplace 1⟩], [⟨true, true, some 0⟩],
        [some ⟨some 0, 1⟩], [some ⟨some 0, 1⟩, none], []⟩ 0 ⟨some 0, 1⟩
      (by decide) (by decide)).2.2.1 0 ⟨true, true, some 0⟩ 0 1 rfl (by decide) rfl rfl
        (by decide)
  · obtain ⟨s', h1, h2, h3, h4, h5, _, h7⟩ :=
      (move_ctor_spec crossRun crossHeap 1 ⟨some 1, 2⟩ (by decide) (by decide)).2.2.2.2
        1 0 ⟨true, true, some 2⟩ 2 2 ⟨1, 0, Derived.ControlBlockEmplace 2⟩
        ⟨2, 2, Derived.ControlBlockEmplace 1⟩ rfl (by decide) rfl rfl (by decide)
        (by decide) (by decide) (by decide)
    have h8 := (if_neg (by decide :
      ¬ ((ControlBlockBase.mk 2 2 (Derived.ControlBlockEmplace 1)).strong_cnt = 0 ∧
        (ControlBlockBase.mk 2 2 (Derived.ControlBlockEmplace 1)).weak_cnt - 1 = 0))).mp h7
    exact ⟨s', h1, h2, h3, h4, h5, h8.1, h8.2⟩

end SmartPtrs
